import Mathlib

/-!
# CHIP-8 emulator: execution engine, memory and framebuffer

A shallow embedding of `memory.cpp`, `display.cpp` and `chip8.cpp`.

* `uint8_t` / `uint16_t` values are natural numbers; every store into such a
  variable goes through `u8` / `u16` (reduction modulo `2^8` / `2^16`).
* `std::array` members are functions from the index to the element.
* a C++ function that may `throw runtime_error` returns `Except Chip8Error _`.
* the keypad queries and the random byte are inputs of a cycle (`Inputs`).
-/

namespace Chip8Emu

/-! ## Constants (`memory.hpp`, `display.hpp`, `chip8.hpp`, `keymap.hpp`) -/

abbrev MEMORY_SIZE : Nat := 4096
abbrev STACK_SIZE : Nat := 16
abbrev VREGS_COUNT : Nat := 16
abbrev DISPLAY_LAST_COUNT : Nat := 3
abbrev VIDEO_WIDTH : Nat := 64
abbrev VIDEO_HEIGHT : Nat := 32
abbrev VIDEO_LINE_BYTES : Nat := VIDEO_WIDTH / 8
abbrev STANDARD_FPS : Nat := 60
abbrev FONTSET_START_ADDRESS : Nat := 0x000
abbrev PC_START_ADDRESS : Nat := 0x200
abbrev INSTRUCTION_BYTES : Nat := 2
abbrev KEYPAD_KEYS : Nat := 16

/-- Modelled from the spec: `fontset.hpp` is not among the sources; the spec
gives sixteen glyphs (digit values `0..15`). -/
abbrev FONTSET_CHAR_COUNT : Nat := 16

/-- Modelled from the spec: `fontset.hpp` is not among the sources; the spec
gives five bytes per glyph (`I := font base + 5 * Vx`). -/
abbrev CHARACTER_BYTES : Nat := 5

/-! ## Machine integers -/

/-- Conversion of a non-negative value to `uint8_t`. -/
def u8 (n : Nat) : Nat := n % 256

/-- Conversion of a non-negative value to `uint16_t`. -/
def u16 (n : Nat) : Nat := n % 65536

/-- Conversion of a possibly negative `int` to `uint8_t`. -/
def u8OfInt (z : Int) : Nat := (z % 256).toNat

/-- Conversion of a possibly negative `int` to `uint16_t`. -/
def u16OfInt (z : Int) : Nat := (z % 65536).toNat

/-- Bit pattern of `~v` for a `uint8_t` operand `v` promoted to a 32-bit
`int`: all 32 bits are flipped. -/
def bitNot (v : Nat) : Nat := (2 ^ 32 - 1) ^^^ v

/-- Assignment `a[i] = v` on a `std::array`. -/
def arraySet {α : Type} (a : Nat → α) (i : Nat) (v : α) : Nat → α :=
  fun j => if j = i then v else a j

/-! ## Errors: one constructor per `runtime_error` message -/

inductive Chip8Error where
  /-- "Trying to write outside of memory space!" -/
  | writeOutsideMemory
  /-- "Trying to read outside of memory space!" -/
  | readOutsideMemory
  /-- "Trying to read instruction outside of memory space!" -/
  | readInstructionOutsideMemory
  /-- "Unknown instruction!" -/
  | unknownInstruction
  /-- "Stack underflow!" -/
  | stackUnderflow
  /-- "Stack overflow!" -/
  | stackOverflow
  /-- "Trying to access font symbol out of range!" -/
  | fontSymbolOutOfRange
  /-- "Checked status of an invalid key!" -/
  | invalidKey
  deriving DecidableEq, Repr

/-! ## Memory (`memory.cpp`) -/

structure ch8Memory where
  memory : Nat → Nat

namespace ch8Memory

/-- `ch8Memory::writeAtPos`; `pos` is a `uint16_t`, so `pos < 0` never holds. -/
def writeAtPos (m : ch8Memory) (pos val : Nat) : Except Chip8Error ch8Memory :=
  if pos > MEMORY_SIZE - 1 then .error .writeOutsideMemory
  else .ok ⟨arraySet m.memory pos val⟩

/-- `ch8Memory::readAtPos`. -/
def readAtPos (m : ch8Memory) (pos : Nat) : Except Chip8Error Nat :=
  if pos > MEMORY_SIZE - 1 then .error .readOutsideMemory
  else .ok (m.memory pos)

/-- `ch8Memory::readInstuctionAtPos`. -/
def readInstuctionAtPos (m : ch8Memory) (pos : Nat) : Except Chip8Error Nat :=
  if pos > MEMORY_SIZE - 2 then .error .readInstructionOutsideMemory
  else .ok (u16 ((m.memory pos <<< 8) ||| m.memory (pos + 1)))

end ch8Memory

/-! ## Display (`display.cpp`): the framebuffer part -/

structure ch8Display where
  frameBuffer : Nat → Nat

namespace ch8Display

/-- `ch8Display::clear`. -/
def clear (_d : ch8Display) : ch8Display := ⟨fun _ => 0⟩

/-- The pixel test of `ch8Display::drawScreen`: pixel `(x, y)` is drawn in the
content colour when this is `true`. -/
def pixelLit (d : ch8Display) (x y : Nat) : Bool :=
  (d.frameBuffer ((y * VIDEO_LINE_BYTES) + (x / 8)) &&& (128 >>> (x % 8))) != 0

/-- `ch8Display::writeToBuffer`: the new display and the returned flag
("true if any pixel was erased"). -/
def writeToBuffer (d : ch8Display) (spriteByte xCoord yCoord : Nat) : ch8Display × Bool :=
  let xCoord := xCoord % VIDEO_WIDTH
  if yCoord < VIDEO_HEIGHT then
    let oldFirstBufferVal := d.frameBuffer ((yCoord * VIDEO_LINE_BYTES) + (xCoord / 8))
    let oldSecondBufferVal :=
      d.frameBuffer ((yCoord * VIDEO_LINE_BYTES) + (((xCoord / 8) + 1) % VIDEO_LINE_BYTES))
    let fb1 := arraySet d.frameBuffer ((yCoord * VIDEO_LINE_BYTES) + (xCoord / 8))
      (u8 (d.frameBuffer ((yCoord * VIDEO_LINE_BYTES) + (xCoord / 8))
        ^^^ (spriteByte >>> (xCoord % 8))))
    let fb2 :=
      if (xCoord / 8) + 1 < VIDEO_LINE_BYTES then
        arraySet fb1 ((yCoord * VIDEO_LINE_BYTES) + (((xCoord / 8) + 1) % VIDEO_LINE_BYTES))
          (u8 (fb1 ((yCoord * VIDEO_LINE_BYTES) + (((xCoord / 8) + 1) % VIDEO_LINE_BYTES))
            ^^^ (spriteByte <<< (8 - (xCoord % 8)))))
      else fb1
    (⟨fb2⟩,
      ((oldFirstBufferVal &&& bitNot (fb2 ((yCoord * VIDEO_LINE_BYTES) + (xCoord / 8)))) != 0) ||
      ((oldSecondBufferVal &&&
        bitNot (fb2 ((yCoord * VIDEO_LINE_BYTES) + (((xCoord / 8) + 1) % 8)))) != 0))
  else (d, false)

/-- Variant of `writeToBuffer` for comparison: identical except that the index
of the second collision comparison is taken modulo `VIDEO_LINE_BYTES`, as in
the two earlier statements, instead of the literal `8`. -/
def writeToBufferLineBytes (d : ch8Display) (spriteByte xCoord yCoord : Nat) :
    ch8Display × Bool :=
  let xCoord := xCoord % VIDEO_WIDTH
  if yCoord < VIDEO_HEIGHT then
    let oldFirstBufferVal := d.frameBuffer ((yCoord * VIDEO_LINE_BYTES) + (xCoord / 8))
    let oldSecondBufferVal :=
      d.frameBuffer ((yCoord * VIDEO_LINE_BYTES) + (((xCoord / 8) + 1) % VIDEO_LINE_BYTES))
    let fb1 := arraySet d.frameBuffer ((yCoord * VIDEO_LINE_BYTES) + (xCoord / 8))
      (u8 (d.frameBuffer ((yCoord * VIDEO_LINE_BYTES) + (xCoord / 8))
        ^^^ (spriteByte >>> (xCoord % 8))))
    let fb2 :=
      if (xCoord / 8) + 1 < VIDEO_LINE_BYTES then
        arraySet fb1 ((yCoord * VIDEO_LINE_BYTES) + (((xCoord / 8) + 1) % VIDEO_LINE_BYTES))
          (u8 (fb1 ((yCoord * VIDEO_LINE_BYTES) + (((xCoord / 8) + 1) % VIDEO_LINE_BYTES))
            ^^^ (spriteByte <<< (8 - (xCoord % 8)))))
      else fb1
    (⟨fb2⟩,
      ((oldFirstBufferVal &&& bitNot (fb2 ((yCoord * VIDEO_LINE_BYTES) + (xCoord / 8)))) != 0) ||
      ((oldSecondBufferVal &&&
        bitNot (fb2 ((yCoord * VIDEO_LINE_BYTES)
          + (((xCoord / 8) + 1) % VIDEO_LINE_BYTES)))) != 0))
  else (d, false)

end ch8Display

/-! ## Engine state (`chip8.hpp`) -/

structure chip8 where
  memory : ch8Memory
  display : ch8Display
  regPC : Nat
  regI : Nat
  regsVx : Nat → Nat
  regDT : Nat
  regST : Nat
  regSP : Nat
  stack : Nat → Nat
  enableExplanations : Bool
  explanations : Nat → String
  lastInstructions : Nat → Nat

/-- What the engine asks of its collaborators during one cycle: the raylib
queries `IsKeyDown(keymap[i])` and `IsKeyPressed(keymap[i])` for the logical
key `i`, and the value drawn from `distChar(generator)`. -/
structure Inputs where
  keyDown : Nat → Bool
  keyPressed : Nat → Bool
  randomNum : Nat

/-- The field `(instruction & 0x0F00) >> 8`. -/
def fieldX (instruction : Nat) : Nat := (instruction &&& 0x0F00) >>> 8

/-- The field `(instruction & 0x00F0) >> 4`. -/
def fieldY (instruction : Nat) : Nat := (instruction &&& 0x00F0) >>> 4

/-- `char_to_hex` of `chip8.hpp`. -/
def char_to_hex (character : Nat) : Char :=
  if character < 16 then "0123456789ABCDEF".toList.getD character 'X' else 'X'

/-- The text `string(1, char_to_hex(v))`. -/
def hexStr (v : Nat) : String := String.singleton (char_to_hex v)

namespace chip8

/-! ### Past instructions and explanations -/

/-- `chip8::addNewExplanation`. -/
def addNewExplanation (c : chip8) (expl : String) : chip8 :=
  let e1 := arraySet c.explanations 0 (c.explanations 1)
  let e2 := arraySet e1 1 (e1 2)
  { c with explanations := arraySet e2 (DISPLAY_LAST_COUNT - 1) expl }

/-- `chip8::updateLastInstructions`. -/
def updateLastInstructions (c : chip8) (instr : Nat) : chip8 :=
  let l1 := arraySet c.lastInstructions 0 (c.lastInstructions 1)
  let l2 := arraySet l1 1 (l1 2)
  { c with lastInstructions := arraySet l2 (DISPLAY_LAST_COUNT - 1) instr }

/-- The closing statement of every handler:
`if (enableExplanations) addNewExplanation(text)`. -/
def explain (c : chip8) (text : String) : chip8 :=
  if c.enableExplanations then c.addNewExplanation text else c

/-! ### Keyboard input -/

/-- `chip8::checkKeyDown`. -/
def checkKeyDown (inp : Inputs) (key : Nat) : Except Chip8Error Bool :=
  if key < KEYPAD_KEYS then .ok (inp.keyDown key) else .error .invalidKey

/-- `chip8::getKeypadPressed`: the lowest pressed key, or `0xFF`. -/
def getKeypadPressed (inp : Inputs) : Nat :=
  ((List.range KEYPAD_KEYS).find? inp.keyPressed).getD 255

/-! ### Opcode handlers -/

/-- `chip8::clearHandler`. -/
def clearHandler (c : chip8) : chip8 :=
  explain { c with display := c.display.clear } "Clear the display."

/-- `chip8::returnHandler`. -/
def returnHandler (c : chip8) : Except Chip8Error chip8 :=
  if c.regSP = 0 then .error .stackUnderflow
  else
    let sp := u8OfInt ((c.regSP : Int) - 1)
    .ok (explain { c with regSP := sp, regPC := c.stack sp } "Return from a subroutine.")

/-- `chip8::jumpHandler`. -/
def jumpHandler (c : chip8) (instruction : Nat) : chip8 :=
  let pc := instruction &&& 0x0FFF
  explain { c with regPC := u16OfInt ((pc : Int) - INSTRUCTION_BYTES) }
    ("Jump to location " ++ toString (instruction &&& 0x0FFF))

/-- `chip8::callHandler`. -/
def callHandler (c : chip8) (instruction : Nat) : Except Chip8Error chip8 :=
  if c.regSP = STACK_SIZE then .error .stackOverflow
  else
    let stack := arraySet c.stack c.regSP c.regPC
    let sp := u8 (c.regSP + 1)
    let pc := instruction &&& 0x0FFF
    .ok (explain { c with stack := stack, regSP := sp,
                          regPC := u16OfInt ((pc : Int) - INSTRUCTION_BYTES) }
      ("Call subroutine at " ++ toString (instruction &&& 0x0FFF)))

/-- `chip8::skipIfEqualHandler`. -/
def skipIfEqualHandler (c : chip8) (instruction : Nat) : chip8 :=
  let c1 := if c.regsVx (fieldX instruction) = (instruction &&& 0x00FF)
    then { c with regPC := u16 (c.regPC + INSTRUCTION_BYTES) } else c
  explain c1 ("Skip next instruction if V" ++ hexStr (fieldX instruction) ++ " == "
    ++ toString (instruction &&& 0x00FF))

/-- `chip8::skipIfNotEqualHandler`. -/
def skipIfNotEqualHandler (c : chip8) (instruction : Nat) : chip8 :=
  let c1 := if c.regsVx (fieldX instruction) ≠ (instruction &&& 0x00FF)
    then { c with regPC := u16 (c.regPC + INSTRUCTION_BYTES) } else c
  explain c1 ("Skip next instruction if V" ++ hexStr (fieldX instruction) ++ " != "
    ++ toString (instruction &&& 0x00FF))

/-- `chip8::skipIfRegsEqualHandler`. -/
def skipIfRegsEqualHandler (c : chip8) (instruction : Nat) : chip8 :=
  let c1 := if c.regsVx (fieldX instruction) = c.regsVx (fieldY instruction)
    then { c with regPC := u16 (c.regPC + INSTRUCTION_BYTES) } else c
  explain c1 ("Skip next instruction if V" ++ hexStr (fieldX instruction) ++ " == V"
    ++ hexStr (fieldY instruction))

/-- `chip8::loadImmediateHandler`. -/
def loadImmediateHandler (c : chip8) (instruction : Nat) : chip8 :=
  let regs := arraySet c.regsVx (fieldX instruction) (u8 (instruction &&& 0x00FF))
  explain { c with regsVx := regs }
    ("Set V" ++ hexStr (fieldX instruction) ++ " = " ++ toString (instruction &&& 0x00FF))

/-- `chip8::addImmediateHandler`. -/
def addImmediateHandler (c : chip8) (instruction : Nat) : chip8 :=
  let regs := arraySet c.regsVx (fieldX instruction)
    (u8 (c.regsVx (fieldX instruction) + (instruction &&& 0x00FF)))
  explain { c with regsVx := regs }
    ("Add " ++ toString (instruction &&& 0x00FF) ++ " to V" ++ hexStr (fieldX instruction))

/-- `chip8::loadHandler`. -/
def loadHandler (c : chip8) (instruction : Nat) : chip8 :=
  let regs := arraySet c.regsVx (fieldX instruction) (c.regsVx (fieldY instruction))
  explain { c with regsVx := regs }
    ("Set V" ++ hexStr (fieldX instruction) ++ " = V" ++ hexStr (fieldY instruction))

/-- `chip8::orHandler`. -/
def orHandler (c : chip8) (instruction : Nat) : chip8 :=
  let regs1 := arraySet c.regsVx (fieldX instruction)
    (u8 (c.regsVx (fieldX instruction) ||| c.regsVx (fieldY instruction)))
  let regs2 := arraySet regs1 0xF 0
  explain { c with regsVx := regs2 }
    ("Set V" ++ hexStr (fieldX instruction) ++ " = V" ++ hexStr (fieldX instruction)
      ++ " OR V" ++ hexStr (fieldY instruction))

/-- `chip8::andHandler`. -/
def andHandler (c : chip8) (instruction : Nat) : chip8 :=
  let regs1 := arraySet c.regsVx (fieldX instruction)
    (u8 (c.regsVx (fieldX instruction) &&& c.regsVx (fieldY instruction)))
  let regs2 := arraySet regs1 0xF 0
  explain { c with regsVx := regs2 }
    ("Set V" ++ hexStr (fieldX instruction) ++ " = V" ++ hexStr (fieldX instruction)
      ++ " AND V" ++ hexStr (fieldY instruction))

/-- `chip8::xorHandler`. -/
def xorHandler (c : chip8) (instruction : Nat) : chip8 :=
  let regs1 := arraySet c.regsVx (fieldX instruction)
    (u8 (c.regsVx (fieldX instruction) ^^^ c.regsVx (fieldY instruction)))
  let regs2 := arraySet regs1 0xF 0
  explain { c with regsVx := regs2 }
    ("Set V" ++ hexStr (fieldX instruction) ++ " = V" ++ hexStr (fieldX instruction)
      ++ " XOR V" ++ hexStr (fieldY instruction))

/-- `chip8::addHandler`. -/
def addHandler (c : chip8) (instruction : Nat) : chip8 :=
  let oldVx := c.regsVx (fieldX instruction)
  let regs1 := arraySet c.regsVx (fieldX instruction)
    (u8 (c.regsVx (fieldX instruction) + c.regsVx (fieldY instruction)))
  let regs2 := if oldVx > regs1 (fieldX instruction)
    then arraySet regs1 0xF 1 else arraySet regs1 0xF 0
  explain { c with regsVx := regs2 }
    ("Add V" ++ hexStr (fieldY instruction) ++ " to V" ++ hexStr (fieldX instruction))

/-- `chip8::subtractHandler`. -/
def subtractHandler (c : chip8) (instruction : Nat) : chip8 :=
  let flagBit : Bool := c.regsVx (fieldX instruction) ≥ c.regsVx (fieldY instruction)
  let regs1 := arraySet c.regsVx (fieldX instruction)
    (u8OfInt ((c.regsVx (fieldX instruction) : Int) - c.regsVx (fieldY instruction)))
  let regs2 := if flagBit then arraySet regs1 0xF 1 else arraySet regs1 0xF 0
  explain { c with regsVx := regs2 }
    ("Subtract V" ++ hexStr (fieldY instruction) ++ " from V" ++ hexStr (fieldX instruction))

/-- `chip8::shiftRightHandler`. -/
def shiftRightHandler (c : chip8) (instruction : Nat) : chip8 :=
  let flagBit := u8 (c.regsVx (fieldY instruction) &&& 0x01)
  let regs1 := arraySet c.regsVx (fieldX instruction)
    (u8 (c.regsVx (fieldY instruction) >>> 1))
  let regs2 := arraySet regs1 0xF flagBit
  explain { c with regsVx := regs2 }
    ("Set V" ++ hexStr (fieldX instruction) ++ " = V" ++ hexStr (fieldY instruction)
      ++ " shifted right by 1")

/-- `chip8::subtractNegativeHandler`. -/
def subtractNegativeHandler (c : chip8) (instruction : Nat) : chip8 :=
  let flagBit : Bool := c.regsVx (fieldY instruction) ≥ c.regsVx (fieldX instruction)
  let regs1 := arraySet c.regsVx (fieldX instruction)
    (u8OfInt ((c.regsVx (fieldY instruction) : Int) - c.regsVx (fieldX instruction)))
  let regs2 := if flagBit then arraySet regs1 0xF 1 else arraySet regs1 0xF 0
  explain { c with regsVx := regs2 }
    ("Set V" ++ hexStr (fieldX instruction) ++ " = V" ++ hexStr (fieldY instruction)
      ++ " - V" ++ hexStr (fieldX instruction))

/-- `chip8::shiftLeftHandler`. -/
def shiftLeftHandler (c : chip8) (instruction : Nat) : chip8 :=
  let flagBit := u8 ((c.regsVx (fieldY instruction) &&& 0x80) >>> 7)
  let regs1 := arraySet c.regsVx (fieldX instruction)
    (u8 (c.regsVx (fieldY instruction) <<< 1))
  let regs2 := arraySet regs1 0xF flagBit
  explain { c with regsVx := regs2 }
    ("Set V" ++ hexStr (fieldX instruction) ++ " = V" ++ hexStr (fieldY instruction)
      ++ " shifted left by 1")

/-- `chip8::skipIfRegsNotEqualHandler`. -/
def skipIfRegsNotEqualHandler (c : chip8) (instruction : Nat) : chip8 :=
  let c1 := if c.regsVx (fieldX instruction) ≠ c.regsVx (fieldY instruction)
    then { c with regPC := u16 (c.regPC + INSTRUCTION_BYTES) } else c
  explain c1 ("Skip next instruction if V" ++ hexStr (fieldX instruction) ++ " != V"
    ++ hexStr (fieldY instruction))

/-- `chip8::loadAddressHandler`. -/
def loadAddressHandler (c : chip8) (instruction : Nat) : chip8 :=
  explain { c with regI := instruction &&& 0x0FFF }
    ("Load address " ++ toString (instruction &&& 0x0FFF) ++ " to I")

/-- `chip8::jumpPlusV0Handler`. -/
def jumpPlusV0Handler (c : chip8) (instruction : Nat) : chip8 :=
  let pc := u16 ((instruction &&& 0x0FFF) + c.regsVx 0x0)
  explain { c with regPC := u16OfInt ((pc : Int) - INSTRUCTION_BYTES) }
    ("Jump to location " ++ toString (instruction &&& 0x0FFF) ++ " + V0")

/-- `chip8::randomHandler`. -/
def randomHandler (c : chip8) (inp : Inputs) (instruction : Nat) : chip8 :=
  let randomNum := u8 inp.randomNum
  let regs := arraySet c.regsVx (fieldX instruction)
    (u8 (randomNum &&& (instruction &&& 0x00FF)))
  explain { c with regsVx := regs }
    ("Set V" ++ hexStr (fieldX instruction) ++ " = random byte AND "
      ++ toString (instruction &&& 0x00FF))

/-- The `for` loop of `chip8::drawHandler`.  The loop variable `iSprite` runs
from `spriteStart` while `iSprite < spriteEnd`, so the body is run
`spriteEnd - spriteStart` times (not at all when `spriteEnd ≤ spriteStart`);
the first argument counts the iterations that remain.  Inside the loop
`iSprite ≥ spriteStart`, so the difference `iSprite - spriteStart` is never
negative.  The result is the display and the value of `erasedPixels`; a
failing `readAtPos` ends the loop with its error. -/
def drawLoop (memory : ch8Memory) (xCoord yCoord spriteStart : Nat) :
    Nat → Nat → ch8Display → Bool → Except Chip8Error (ch8Display × Bool)
  | 0, _, display, erasedPixels => .ok (display, erasedPixels)
  | remaining + 1, iSprite, display, erasedPixels =>
    match memory.readAtPos iSprite with
    | .error e => .error e
    | .ok spriteByte =>
      let r := display.writeToBuffer spriteByte xCoord (u16 (yCoord + (iSprite - spriteStart)))
      drawLoop memory xCoord yCoord spriteStart remaining (u16 (iSprite + 1)) r.1
        (r.2 || erasedPixels)

/-- `chip8::drawHandler`. -/
def drawHandler (c : chip8) (instruction : Nat) : Except Chip8Error chip8 :=
  let xCoord := c.regsVx (fieldX instruction) % VIDEO_WIDTH
  let yCoord := c.regsVx (fieldY instruction) % VIDEO_HEIGHT
  let spriteStart := c.regI
  let spriteEnd := u16 (spriteStart + (instruction &&& 0x000F))
  match drawLoop c.memory xCoord yCoord spriteStart (spriteEnd - spriteStart) spriteStart
      c.display false with
  | .error e => .error e
  | .ok (display, erasedPixels) =>
    let regs := if erasedPixels then arraySet c.regsVx 0xF 1 else arraySet c.regsVx 0xF 0
    .ok (explain { c with display := display, regsVx := regs }
      ("Draw " ++ toString (instruction &&& 0x000F)
        ++ "-byte sprite starting at memory location I at (V" ++ hexStr (fieldX instruction)
        ++ ", V" ++ hexStr (fieldY instruction) ++ ")"))

/-- `chip8::skipIfKeyHandler`. -/
def skipIfKeyHandler (c : chip8) (inp : Inputs) (instruction : Nat) :
    Except Chip8Error chip8 :=
  match checkKeyDown inp (c.regsVx (fieldX instruction)) with
  | .error e => .error e
  | .ok down =>
    let c1 := if down then { c with regPC := u16 (c.regPC + INSTRUCTION_BYTES) } else c
    .ok (explain c1 ("Skip next instruction if key with the value of V"
      ++ hexStr (fieldX instruction) ++ " is pressed"))

/-- `chip8::skipIfNotKeyHandler`. -/
def skipIfNotKeyHandler (c : chip8) (inp : Inputs) (instruction : Nat) :
    Except Chip8Error chip8 :=
  match checkKeyDown inp (c.regsVx (fieldX instruction)) with
  | .error e => .error e
  | .ok down =>
    let c1 := if !down then { c with regPC := u16 (c.regPC + INSTRUCTION_BYTES) } else c
    .ok (explain c1 ("Skip next instruction if key with the value of V"
      ++ hexStr (fieldX instruction) ++ " is not pressed"))

/-- `chip8::loadDelayHandler`. -/
def loadDelayHandler (c : chip8) (instruction : Nat) : chip8 :=
  explain { c with regsVx := arraySet c.regsVx (fieldX instruction) c.regDT }
    ("Set V" ++ hexStr (fieldX instruction) ++ " to delay timer value")

/-- `chip8::loadKeyHandler`. -/
def loadKeyHandler (c : chip8) (inp : Inputs) (instruction : Nat) : chip8 :=
  let pressedKey := getKeypadPressed inp
  let c1 := if pressedKey > 0x0F
    then { c with regPC := u16OfInt ((c.regPC : Int) - INSTRUCTION_BYTES) }
    else { c with regsVx := arraySet c.regsVx (fieldX instruction) pressedKey }
  explain c1 ("Wait for a key press, store the value of the key in V"
    ++ hexStr (fieldX instruction))

/-- `chip8::setDelayHandler`. -/
def setDelayHandler (c : chip8) (instruction : Nat) : chip8 :=
  explain { c with regDT := c.regsVx (fieldX instruction) }
    ("Set delay timer to V" ++ hexStr (fieldX instruction))

/-- `chip8::setSoundHandler`. -/
def setSoundHandler (c : chip8) (instruction : Nat) : chip8 :=
  explain { c with regST := c.regsVx (fieldX instruction) }
    ("Set sound timer to V" ++ hexStr (fieldX instruction))

/-- `chip8::addToIHandler`. -/
def addToIHandler (c : chip8) (instruction : Nat) : chip8 :=
  explain { c with regI := u16 (c.regI + c.regsVx (fieldX instruction)) }
    ("Add V" ++ hexStr (fieldX instruction) ++ " to I")

/-- `chip8::loadDigitHandler`. -/
def loadDigitHandler (c : chip8) (instruction : Nat) : Except Chip8Error chip8 :=
  if c.regsVx (fieldX instruction) > FONTSET_CHAR_COUNT - 1 then .error .fontSymbolOutOfRange
  else
    let i := u16 (FONTSET_START_ADDRESS + (CHARACTER_BYTES * c.regsVx (fieldX instruction)))
    .ok (explain { c with regI := i }
      ("Set I to the location of sprite for digit V" ++ hexStr (fieldX instruction)))

/-- `chip8::storeBCDHandler`. -/
def storeBCDHandler (c : chip8) (instruction : Nat) : Except Chip8Error chip8 :=
  let vx := c.regsVx (fieldX instruction)
  let hundreds := u8 (vx / 100)
  let tens := u8OfInt (((vx : Int) - (hundreds * 100)) / 10)
  let ones := u8OfInt ((vx : Int) - ((hundreds * 100) + (tens * 10)))
  match c.memory.writeAtPos c.regI hundreds with
  | .error e => .error e
  | .ok m1 =>
    match m1.writeAtPos (u16 (c.regI + 1)) tens with
    | .error e => .error e
    | .ok m2 =>
      match m2.writeAtPos (u16 (c.regI + 2)) ones with
      | .error e => .error e
      | .ok m3 =>
        .ok (explain { c with memory := m3 }
          ("Store BCD representation of V" ++ hexStr (fieldX instruction)
            ++ " in memory locations I, I+1 and I+2"))

/-- The `for` loop of `chip8::storeRegsToMemoryHandler`: `i` runs from `0`
while `i <= x`; the first argument counts the iterations that remain. -/
def storeRegsLoop (regI : Nat) (regsVx : Nat → Nat) :
    Nat → Nat → ch8Memory → Except Chip8Error ch8Memory
  | 0, _, memory => .ok memory
  | remaining + 1, i, memory =>
    match memory.writeAtPos (u16 (regI + i)) (regsVx i) with
    | .error e => .error e
    | .ok m1 => storeRegsLoop regI regsVx remaining (u16 (i + 1)) m1

/-- `chip8::storeRegsToMemoryHandler`. -/
def storeRegsToMemoryHandler (c : chip8) (instruction : Nat) : Except Chip8Error chip8 :=
  match storeRegsLoop c.regI c.regsVx (fieldX instruction + 1) 0 c.memory with
  | .error e => .error e
  | .ok m =>
    .ok (explain { c with memory := m, regI := u16 (c.regI + 1) }
      ("Store registers V0 through V" ++ hexStr (fieldX instruction)
        ++ " in memory starting at location I"))

/-- The `for` loop of `chip8::loadRegsFromMemoryHandler`: `i` runs from `0`
while `i <= x`; the first argument counts the iterations that remain. -/
def loadRegsLoop (regI : Nat) (memory : ch8Memory) :
    Nat → Nat → (Nat → Nat) → Except Chip8Error (Nat → Nat)
  | 0, _, regsVx => .ok regsVx
  | remaining + 1, i, regsVx =>
    match memory.readAtPos (u16 (regI + i)) with
    | .error e => .error e
    | .ok v => loadRegsLoop regI memory remaining (u16 (i + 1)) (arraySet regsVx i v)

/-- `chip8::loadRegsFromMemoryHandler`. -/
def loadRegsFromMemoryHandler (c : chip8) (instruction : Nat) : Except Chip8Error chip8 :=
  match loadRegsLoop c.regI c.memory (fieldX instruction + 1) 0 c.regsVx with
  | .error e => .error e
  | .ok regs =>
    .ok (explain { c with regsVx := regs, regI := u16 (c.regI + 1) }
      ("Read registers V0 through V" ++ hexStr (fieldX instruction)
        ++ " from memory starting at location I"))

/-! ### Decoding: the four handler tables of `chip8.hpp` -/

/-- `chip8::executeMatchFullInstruction` with `opcodeMatchFullHandlers`. -/
def executeMatchFullInstruction (c : chip8) (instruction : Nat) : Except Chip8Error chip8 :=
  if instruction = 0x00E0 then .ok (clearHandler c)
  else if instruction = 0x00EE then returnHandler c
  else .error .unknownInstruction

/-- `chip8::executeMatchLastOneInstruction` with `opcodeMatchLastOneHandlers`. -/
def executeMatchLastOneInstruction (c : chip8) (instruction : Nat) :
    Except Chip8Error chip8 :=
  let key := instruction &&& 0xF00F
  if key = 0x5000 then .ok (skipIfRegsEqualHandler c instruction)
  else if key = 0x8000 then .ok (loadHandler c instruction)
  else if key = 0x8001 then .ok (orHandler c instruction)
  else if key = 0x8002 then .ok (andHandler c instruction)
  else if key = 0x8003 then .ok (xorHandler c instruction)
  else if key = 0x8004 then .ok (addHandler c instruction)
  else if key = 0x8005 then .ok (subtractHandler c instruction)
  else if key = 0x8006 then .ok (shiftRightHandler c instruction)
  else if key = 0x8007 then .ok (subtractNegativeHandler c instruction)
  else if key = 0x800E then .ok (shiftLeftHandler c instruction)
  else if key = 0x9000 then .ok (skipIfRegsNotEqualHandler c instruction)
  else .error .unknownInstruction

/-- `chip8::executeMatchLastTwoInstruction` with `opcodeMatchLastTwoHandlers`. -/
def executeMatchLastTwoInstruction (c : chip8) (inp : Inputs) (instruction : Nat) :
    Except Chip8Error chip8 :=
  let key := instruction &&& 0xF0FF
  if key = 0xE09E then skipIfKeyHandler c inp instruction
  else if key = 0xE0A1 then skipIfNotKeyHandler c inp instruction
  else if key = 0xF007 then .ok (loadDelayHandler c instruction)
  else if key = 0xF00A then .ok (loadKeyHandler c inp instruction)
  else if key = 0xF015 then .ok (setDelayHandler c instruction)
  else if key = 0xF018 then .ok (setSoundHandler c instruction)
  else if key = 0xF01E then .ok (addToIHandler c instruction)
  else if key = 0xF029 then loadDigitHandler c instruction
  else if key = 0xF033 then storeBCDHandler c instruction
  else if key = 0xF055 then storeRegsToMemoryHandler c instruction
  else if key = 0xF065 then loadRegsFromMemoryHandler c instruction
  else .error .unknownInstruction

/-- `chip8::executeInstruction` with `opcodeHandlers`. -/
def executeInstruction (c : chip8) (inp : Inputs) (instruction : Nat) :
    Except Chip8Error chip8 :=
  let key := instruction &&& 0xF000
  if key = 0x1000 then .ok (jumpHandler c instruction)
  else if key = 0x2000 then callHandler c instruction
  else if key = 0x3000 then .ok (skipIfEqualHandler c instruction)
  else if key = 0x4000 then .ok (skipIfNotEqualHandler c instruction)
  else if key = 0x6000 then .ok (loadImmediateHandler c instruction)
  else if key = 0x7000 then .ok (addImmediateHandler c instruction)
  else if key = 0xA000 then .ok (loadAddressHandler c instruction)
  else if key = 0xB000 then .ok (jumpPlusV0Handler c instruction)
  else if key = 0xC000 then .ok (randomHandler c inp instruction)
  else if key = 0xD000 then drawHandler c instruction
  else if key = 0x0000 then executeMatchFullInstruction c instruction
  else if key = 0x5000 then executeMatchLastOneInstruction c instruction
  else if key = 0x8000 then executeMatchLastOneInstruction c instruction
  else if key = 0x9000 then executeMatchLastOneInstruction c instruction
  else if key = 0xE000 then executeMatchLastTwoInstruction c inp instruction
  else if key = 0xF000 then executeMatchLastTwoInstruction c inp instruction
  else .error .unknownInstruction

/-! ### Cycle, frame, start-up -/

/-- One pass through the body of the `for` loop of `chip8::emulateOneFrame`:
fetch at `regPC`, record the instruction when explanations are enabled,
execute, then `regPC += INSTRUCTION_BYTES`. -/
def cycle (c : chip8) (inp : Inputs) : Except Chip8Error chip8 :=
  match c.memory.readInstuctionAtPos c.regPC with
  | .error e => .error e
  | .ok instruction =>
    let c1 := if c.enableExplanations then c.updateLastInstructions instruction else c
    match executeInstruction c1 inp instruction with
    | .error e => .error e
    | .ok c2 => .ok { c2 with regPC := u16 (c2.regPC + INSTRUCTION_BYTES) }

/-- The `for` loop of `chip8::emulateOneFrame`; the first argument counts the
iterations that remain, `i` is the loop variable and `inp i` the inputs seen
by the `i`-th instruction of the frame. -/
def runCycles (inp : Nat → Inputs) : Nat → Nat → chip8 → Except Chip8Error chip8
  | 0, _, c => .ok c
  | remaining + 1, i, c =>
    match cycle c (inp i) with
    | .error e => .error e
    | .ok c1 => runCycles inp remaining (i + 1) c1

/-- The calls made to the buzzer during the timer part of a frame. -/
structure BuzzerCalls where
  updateBuzzer : Bool
  stopBuzzer : Bool
  deriving DecidableEq, Repr

/-- The timer part of `chip8::emulateOneFrame` ("lower timers each frame"). -/
def tickTimers (c : chip8) : chip8 × BuzzerCalls :=
  let dt := if c.regDT ≠ 0 then u8OfInt ((c.regDT : Int) - 1) else c.regDT
  if c.regST ≠ 0 then
    let st := u8OfInt ((c.regST : Int) - 1)
    ({ c with regDT := dt, regST := st }, ⟨true, decide (st = 0)⟩)
  else ({ c with regDT := dt }, ⟨false, false⟩)

/-- `chip8::emulateOneFrame` with `IPC` instructions: the state after the frame
and the buzzer calls made (the drawing of the window is not modelled). -/
def emulateOneFrame (c : chip8) (inp : Nat → Inputs) (IPC : Nat) :
    Except Chip8Error (chip8 × BuzzerCalls) :=
  match runCycles inp IPC 0 c with
  | .error e => .error e
  | .ok c1 => .ok (tickTimers c1)

/-- The frame rate that the constructor `chip8::chip8` passes to the display. -/
def targetFPS (speed : Int) : Int :=
  if speed ≥ STANDARD_FPS then STANDARD_FPS else speed

/-- The value of `instructionsPerCycle` set by the constructor `chip8::chip8`. -/
def instructionsPerCycleOf (speed : Int) : Int :=
  if speed ≥ STANDARD_FPS then speed / STANDARD_FPS else 1

/-- The `while` loop of `chip8::loadROM` over the bytes of the file. -/
def loadROMLoop : List Nat → Nat → ch8Memory → Except Chip8Error ch8Memory
  | [], _, memory => .ok memory
  | fileByte :: rest, position, memory =>
    match memory.writeAtPos position (u8 fileByte) with
    | .error e => .error e
    | .ok m1 => loadROMLoop rest (u16 (position + 1)) m1

/-- `chip8::loadROM` on the bytes of a readable file. -/
def loadROM (c : chip8) (rom : List Nat) : Except Chip8Error chip8 :=
  match loadROMLoop rom PC_START_ADDRESS c.memory with
  | .error e => .error e
  | .ok m => .ok { c with memory := m }

end chip8

/-! ## Exit states of throwing functions -/

/-- `ch8Memory::writeAtPos` as a transformer of the object: the member `memory`
when control leaves the function, by `return` or by the exception, and the
exception thrown, if any.  The `throw` is the first statement, before the
assignment. -/
def ch8Memory.writeAtPosExit (m : ch8Memory) (pos val : Nat) :
    ch8Memory × Option Chip8Error :=
  if pos > MEMORY_SIZE - 1 then (m, some .writeOutsideMemory)
  else (⟨arraySet m.memory pos val⟩, none)

/-- `chip8::returnHandler` as a transformer of the object: the engine state when
control leaves the handler, by `return` or by the exception, and the exception
thrown, if any.  The `throw` is the first statement, before any assignment. -/
def chip8.returnHandlerExit (c : chip8) : chip8 × Option Chip8Error :=
  if c.regSP = 0 then (c, some .stackUnderflow)
  else
    let sp := u8OfInt ((c.regSP : Int) - 1)
    (chip8.explain { c with regSP := sp, regPC := c.stack sp } "Return from a subroutine.", none)

/-- `chip8::callHandler` as a transformer of the object: the engine state when
control leaves the handler, by `return` or by the exception, and the exception
thrown, if any.  The `throw` is the first statement, before any assignment. -/
def chip8.callHandlerExit (c : chip8) (instruction : Nat) : chip8 × Option Chip8Error :=
  if c.regSP = STACK_SIZE then (c, some .stackOverflow)
  else
    let stack := arraySet c.stack c.regSP c.regPC
    let sp := u8 (c.regSP + 1)
    let pc := instruction &&& 0x0FFF
    (chip8.explain { c with stack := stack, regSP := sp,
                            regPC := u16OfInt ((pc : Int) - INSTRUCTION_BYTES) }
      ("Call subroutine at " ++ toString (instruction &&& 0x0FFF)), none)

/-! ## Instruction words -/

/-- The word `8xyk` of the arithmetic and logic group. -/
def op8 (x y k : Nat) : Nat := 0x8000 + x * 256 + y * 16 + k

/-- The word `Dxyn` of the draw instruction. -/
def opD (x y n : Nat) : Nat := 0xD000 + x * 256 + y * 16 + n

/-- The word `1nnn` of the jump instruction. -/
def op1 (nnn : Nat) : Nat := 0x1000 + nnn

/-- The word `2nnn` of the call instruction. -/
def op2 (nnn : Nat) : Nat := 0x2000 + nnn

/-- The word `00EE` of the return instruction. -/
def opReturn : Nat := 0x00EE

/-- The word `Fxkk` of the timer, key and memory-transfer group. -/
def opF (x kk : Nat) : Nat := 0xF000 + x * 256 + kk

/-! ## Descriptions of the framebuffer effect of a blit -/

/-- The byte that one call `writeToBuffer(spriteByte, xCoord, yCoord)` XORs
into framebuffer element `i` (`0` where the call leaves the element alone).
This is a description used in the proofs; `blit_frameBuffer` relates it to
`ch8Display.writeToBuffer`. -/
def blitMask (spriteByte xCoord yCoord i : Nat) : Nat :=
  if yCoord < 32 then
    if i = yCoord * 8 + xCoord % 64 / 8 then u8 (spriteByte >>> (xCoord % 64 % 8))
    else if i = yCoord * 8 + (xCoord % 64 / 8 + 1) ∧ xCoord % 64 / 8 + 1 < 8 then
      u8 (spriteByte <<< (8 - xCoord % 64 % 8))
    else 0
  else 0

/-- The byte that the whole loop of `drawHandler` XORs into framebuffer
element `i`, when the loop blits `count` sprite bytes read from `addr` onwards
at the rows `row`, `row + 1`, ...: element `i` lies in framebuffer row `i / 8`
and is touched only by the sprite byte of that row.  This is a description
used in the proofs; `drawLoop_frameBuffer` relates it to `chip8.drawLoop`. -/
def rowsMask (memory : ch8Memory) (xCoord row count addr i : Nat) : Nat :=
  if row ≤ i / 8 ∧ i / 8 < row + count then
    blitMask (memory.memory (addr + (i / 8 - row))) xCoord (i / 8) i
  else 0

/-! ## Concrete states used to instantiate the theorems -/

/-- A machine at the program start address with the given register file,
memory, framebuffer and index register; timers, stack and history are empty. -/
def machineWith (regs mem fb : Nat → Nat) (regI : Nat) : chip8 :=
  { memory := ⟨mem⟩, display := ⟨fb⟩, regPC := PC_START_ADDRESS, regI := regI, regsVx := regs,
    regDT := 0, regST := 0, regSP := 0, stack := fun _ => 0,
    enableExplanations := false, explanations := fun _ => "", lastInstructions := fun _ => 0 }

/-- No key is held or pressed; the random byte is `0`. -/
def noInputs : Inputs := ⟨fun _ => false, fun _ => false, 0⟩

/-- Register file with `V0 = a`, `V1 = b` and every other register `0`. -/
def regs2 (a b : Nat) : Nat → Nat := fun i => if i = 0 then a else if i = 1 then b else 0

/-- Register file with `V0 = a`, `V1 = b`, `VF = f` and every other register `0`. -/
def regs2F (a b f : Nat) : Nat → Nat :=
  fun i => if i = 0 then a else if i = 1 then b else if i = 0xF then f else 0

/-- Memory holding the bytes `b0, b1, b2, b3` at the addresses `0x300 .. 0x303`
and `0` elsewhere. -/
def spriteAt300 (b0 b1 b2 b3 : Nat) : Nat → Nat :=
  fun a => if a = 0x300 then b0 else if a = 0x301 then b1 else if a = 0x302 then b2
    else if a = 0x303 then b3 else 0

/-- The all-zero array (blank framebuffer, empty memory). -/
def zeros : Nat → Nat := fun _ => 0

/-- Memory holding the bytes `b0`, `b1` at the addresses `0x200`, `0x201` and `0`
elsewhere. -/
def bytesAt200 (b0 b1 : Nat) : Nat → Nat :=
  fun a => if a = 0x200 then b0 else if a = 0x201 then b1 else 0

/-- Memory with the program `0x200: call 0x204`, `0x204: return`. -/
def callReturnProgram : Nat → Nat :=
  fun a => if a = 0x200 then 0x22 else if a = 0x201 then 0x04 else if a = 0x205 then 0xEE else 0

/-- A machine that runs the one-instruction loop `0x200: jump 0x200` with the
given timer values. -/
def timerMachine (dt st : Nat) : chip8 :=
  { machineWith zeros (bytesAt200 0x12 0x00) zeros 0 with regDT := dt, regST := st }

/-- The word `3xnn` (skip if `Vx == nn`). -/
def op3 (x nn : Nat) : Nat := 0x3000 + x * 256 + nn

/-- The word `4xnn` (skip if `Vx != nn`). -/
def op4 (x nn : Nat) : Nat := 0x4000 + x * 256 + nn

/-- The word `5xy0` (skip if `Vx == Vy`). -/
def op5 (x y : Nat) : Nat := 0x5000 + x * 256 + y * 16

/-- The word `9xy0` (skip if `Vx != Vy`). -/
def op9 (x y : Nat) : Nat := 0x9000 + x * 256 + y * 16

/-- `chip8::loadDigitHandler` as a transformer of the object: the engine state
when control leaves the handler, by `return` or by the exception, and the
exception thrown, if any.  The `throw` is the first statement, before the
assignment to `regI`. -/
def chip8.loadDigitHandlerExit (c : chip8) (instruction : Nat) : chip8 × Option Chip8Error :=
  if c.regsVx (fieldX instruction) > FONTSET_CHAR_COUNT - 1 then (c, some .fontSymbolOutOfRange)
  else
    let i := u16 (FONTSET_START_ADDRESS + (CHARACTER_BYTES * c.regsVx (fieldX instruction)))
    (chip8.explain { c with regI := i }
      ("Set I to the location of sprite for digit V" ++ hexStr (fieldX instruction)), none)

/-- Inputs in which exactly the keys selected by `p` were pressed; no key is
held and the random byte is `0`. -/
def keysPressed (p : Nat → Bool) : Inputs := ⟨fun _ => false, p, 0⟩

/-! ## Opcodes -/

/-- The `enum class Opcode` of `chip8.hpp`: "all valid opcodes". -/
inductive Opcode where
  | CLEAR | RETURN | JUMP | CALL | SKIP_IF_EQUAL | SKIP_IF_NOT_EQUAL | SKIP_IF_REGS_EQUAL
  | LOAD_IMMEDIATE | ADD_IMMEDIATE | LOAD | OR | AND | XOR | ADD | SUBTRACT | SHIFT_RIGHT
  | SUBTRACT_NEGATIVE | SHIFT_LEFT | SKIP_IF_REGS_NOT_EQUAL | LOAD_ADDRESS | JUMP_PLUS_V0
  | RANDOM | DRAW | SKIP_IF_KEY | SKIP_IF_NOT_KEY | LOAD_DELAY | LOAD_KEY | SET_DELAY
  | SET_SOUND | ADD_TO_I | LOAD_DIGIT | STORE_BCD | STORE_REGS_TO_MEMORY
  | LOAD_REGS_FROM_MEMORY
  deriving DecidableEq, Repr

/-- The handler that the tables `opcodeHandlers`, `opcodeMatchFullHandlers`,
`opcodeMatchLastOneHandlers` and `opcodeMatchLastTwoHandlers` of `chip8.hpp`
bind to each opcode. -/
def Opcode.handler : Opcode → chip8 → Inputs → Nat → Except Chip8Error chip8
  | .CLEAR, c, _, _ => .ok (c.clearHandler)
  | .RETURN, c, _, _ => c.returnHandler
  | .JUMP, c, _, w => .ok (c.jumpHandler w)
  | .CALL, c, _, w => c.callHandler w
  | .SKIP_IF_EQUAL, c, _, w => .ok (c.skipIfEqualHandler w)
  | .SKIP_IF_NOT_EQUAL, c, _, w => .ok (c.skipIfNotEqualHandler w)
  | .SKIP_IF_REGS_EQUAL, c, _, w => .ok (c.skipIfRegsEqualHandler w)
  | .LOAD_IMMEDIATE, c, _, w => .ok (c.loadImmediateHandler w)
  | .ADD_IMMEDIATE, c, _, w => .ok (c.addImmediateHandler w)
  | .LOAD, c, _, w => .ok (c.loadHandler w)
  | .OR, c, _, w => .ok (c.orHandler w)
  | .AND, c, _, w => .ok (c.andHandler w)
  | .XOR, c, _, w => .ok (c.xorHandler w)
  | .ADD, c, _, w => .ok (c.addHandler w)
  | .SUBTRACT, c, _, w => .ok (c.subtractHandler w)
  | .SHIFT_RIGHT, c, _, w => .ok (c.shiftRightHandler w)
  | .SUBTRACT_NEGATIVE, c, _, w => .ok (c.subtractNegativeHandler w)
  | .SHIFT_LEFT, c, _, w => .ok (c.shiftLeftHandler w)
  | .SKIP_IF_REGS_NOT_EQUAL, c, _, w => .ok (c.skipIfRegsNotEqualHandler w)
  | .LOAD_ADDRESS, c, _, w => .ok (c.loadAddressHandler w)
  | .JUMP_PLUS_V0, c, _, w => .ok (c.jumpPlusV0Handler w)
  | .RANDOM, c, inp, w => .ok (c.randomHandler inp w)
  | .DRAW, c, _, w => c.drawHandler w
  | .SKIP_IF_KEY, c, inp, w => c.skipIfKeyHandler inp w
  | .SKIP_IF_NOT_KEY, c, inp, w => c.skipIfNotKeyHandler inp w
  | .LOAD_DELAY, c, _, w => .ok (c.loadDelayHandler w)
  | .LOAD_KEY, c, inp, w => .ok (c.loadKeyHandler inp w)
  | .SET_DELAY, c, _, w => .ok (c.setDelayHandler w)
  | .SET_SOUND, c, _, w => .ok (c.setSoundHandler w)
  | .ADD_TO_I, c, _, w => .ok (c.addToIHandler w)
  | .LOAD_DIGIT, c, _, w => c.loadDigitHandler w
  | .STORE_BCD, c, _, w => c.storeBCDHandler w
  | .STORE_REGS_TO_MEMORY, c, _, w => c.storeRegsToMemoryHandler w
  | .LOAD_REGS_FROM_MEMORY, c, _, w => c.loadRegsFromMemoryHandler w

/-- The instruction patterns as the specification lists them, read on the
hexadecimal digits of a 16-bit word `w`: `a` is its first digit, `d` its last
digit and `kk` its last two digits; `x`, `y`, `n`, `nn`, `nnn` stand for
arbitrary digits.  The result is the opcode whose pattern `w` matches, if
any. -/
def listedOpcode (w : Nat) : Option Opcode :=
  let a := w / 4096
  let d := w % 16
  let kk := w % 256
  if w = 0x00E0 then some .CLEAR
  else if w = 0x00EE then some .RETURN
  else if a = 0x1 then some .JUMP
  else if a = 0x2 then some .CALL
  else if a = 0x3 then some .SKIP_IF_EQUAL
  else if a = 0x4 then some .SKIP_IF_NOT_EQUAL
  else if a = 0x5 ∧ d = 0x0 then some .SKIP_IF_REGS_EQUAL
  else if a = 0x6 then some .LOAD_IMMEDIATE
  else if a = 0x7 then some .ADD_IMMEDIATE
  else if a = 0x8 ∧ d = 0x0 then some .LOAD
  else if a = 0x8 ∧ d = 0x1 then some .OR
  else if a = 0x8 ∧ d = 0x2 then some .AND
  else if a = 0x8 ∧ d = 0x3 then some .XOR
  else if a = 0x8 ∧ d = 0x4 then some .ADD
  else if a = 0x8 ∧ d = 0x5 then some .SUBTRACT
  else if a = 0x8 ∧ d = 0x6 then some .SHIFT_RIGHT
  else if a = 0x8 ∧ d = 0x7 then some .SUBTRACT_NEGATIVE
  else if a = 0x8 ∧ d = 0xE then some .SHIFT_LEFT
  else if a = 0x9 ∧ d = 0x0 then some .SKIP_IF_REGS_NOT_EQUAL
  else if a = 0xA then some .LOAD_ADDRESS
  else if a = 0xB then some .JUMP_PLUS_V0
  else if a = 0xC then some .RANDOM
  else if a = 0xD then some .DRAW
  else if a = 0xE ∧ kk = 0x9E then some .SKIP_IF_KEY
  else if a = 0xE ∧ kk = 0xA1 then some .SKIP_IF_NOT_KEY
  else if a = 0xF ∧ kk = 0x07 then some .LOAD_DELAY
  else if a = 0xF ∧ kk = 0x0A then some .LOAD_KEY
  else if a = 0xF ∧ kk = 0x15 then some .SET_DELAY
  else if a = 0xF ∧ kk = 0x18 then some .SET_SOUND
  else if a = 0xF ∧ kk = 0x1E then some .ADD_TO_I
  else if a = 0xF ∧ kk = 0x29 then some .LOAD_DIGIT
  else if a = 0xF ∧ kk = 0x33 then some .STORE_BCD
  else if a = 0xF ∧ kk = 0x55 then some .STORE_REGS_TO_MEMORY
  else if a = 0xF ∧ kk = 0x65 then some .LOAD_REGS_FROM_MEMORY
  else none

/-- The index of the element of `stack` that `chip8::callHandler` writes
(`stack[regSP] = regPC`), when it does not throw. -/
def chip8.callHandlerSlot (c : chip8) : Option Nat :=
  if c.regSP = STACK_SIZE then none else some c.regSP

/-- The index of the element of `stack` that `chip8::returnHandler` reads
(`regPC = stack[--regSP]`), when it does not throw. -/
def chip8.returnHandlerSlot (c : chip8) : Option Nat :=
  if c.regSP = 0 then none else some (u8OfInt ((c.regSP : Int) - 1))

/-- The states the engine can be in after starting from `c0`: `c0` itself, the
state after a successful pass through the loop body of `emulateOneFrame`
(with any inputs), and the state after the timer part of a frame. -/
inductive chip8.Reachable (c0 : chip8) : chip8 → Prop where
  | start : chip8.Reachable c0 c0
  | cycle {c c' : chip8} (inp : Inputs) :
      chip8.Reachable c0 c → chip8.cycle c inp = .ok c' → chip8.Reachable c0 c'
  | tick {c : chip8} : chip8.Reachable c0 c → chip8.Reachable c0 (chip8.tickTimers c).1

/-- The part of the engine state that takes part in execution: everything
except the three diagnostic members `enableExplanations`, `explanations` and
`lastInstructions`, which are blanked. -/
def chip8.coreOf (c : chip8) : chip8 :=
  { c with enableExplanations := false, explanations := fun _ => "",
           lastInstructions := fun _ => 0 }

/-- `ch8Display::writeToBuffer` with a log of its accesses to `frameBuffer`:
the result of the function together with the subscripts of `frameBuffer`, in
the order in which they are evaluated.  These are the two reads into
`oldFirstBufferVal` and `oldSecondBufferVal`, the `^=` on the first byte, the
`^=` on the second byte when its guard holds, the re-read of the first byte
in the `return` expression and, when the left operand of `||` is false, the
re-read that takes the column modulo the literal `8`. -/
def ch8Display.writeToBufferTraced (d : ch8Display) (spriteByte xCoord yCoord : Nat) :
    (ch8Display × Bool) × List Nat :=
  let xCoord := xCoord % VIDEO_WIDTH
  if yCoord < VIDEO_HEIGHT then
    let first := (yCoord * VIDEO_LINE_BYTES) + (xCoord / 8)
    let second := (yCoord * VIDEO_LINE_BYTES) + (((xCoord / 8) + 1) % VIDEO_LINE_BYTES)
    let reread := (yCoord * VIDEO_LINE_BYTES) + (((xCoord / 8) + 1) % 8)
    let oldFirstBufferVal := d.frameBuffer first
    let oldSecondBufferVal := d.frameBuffer second
    let fb1 := arraySet d.frameBuffer first
      (u8 (d.frameBuffer first ^^^ (spriteByte >>> (xCoord % 8))))
    let fb2 :=
      if (xCoord / 8) + 1 < VIDEO_LINE_BYTES then
        arraySet fb1 second (u8 (fb1 second ^^^ (spriteByte <<< (8 - (xCoord % 8)))))
      else fb1
    let firstErased := (oldFirstBufferVal &&& bitNot (fb2 first)) != 0
    ((⟨fb2⟩, firstErased || ((oldSecondBufferVal &&& bitNot (fb2 reread)) != 0)),
      [first, second, first]
        ++ (if (xCoord / 8) + 1 < VIDEO_LINE_BYTES then [second] else [])
        ++ [first]
        ++ (if firstErased then [] else [reread]))
  else ((d, false), [])

/-! ## Arrays -/

theorem arraySet_apply {α : Type} (a : Nat → α) (i j : Nat) (v : α) :
    arraySet a i v j = if j = i then v else a j := rfl

/-! ## Decoding of the instruction words -/

set_option maxRecDepth 100000 in
theorem op8_fields : ∀ x < 16, ∀ y < 16, ∀ k < 16,
    fieldX (op8 x y k) = x ∧ fieldY (op8 x y k) = y ∧
    op8 x y k &&& 0xF000 = 0x8000 ∧ op8 x y k &&& 0xF00F = 0x8000 + k := by decide

set_option maxRecDepth 100000 in
theorem opD_fields : ∀ x < 16, ∀ y < 16, ∀ n < 16,
    fieldX (opD x y n) = x ∧ fieldY (opD x y n) = y ∧
    opD x y n &&& 0xF000 = 0xD000 ∧ opD x y n &&& 0x000F = n := by decide

namespace chip8

@[simp] theorem explain_regsVx (c : chip8) (t : String) : (c.explain t).regsVx = c.regsVx := by
  unfold explain addNewExplanation; split <;> rfl

@[simp] theorem explain_display (c : chip8) (t : String) : (c.explain t).display = c.display := by
  unfold explain addNewExplanation; split <;> rfl

@[simp] theorem explain_memory (c : chip8) (t : String) : (c.explain t).memory = c.memory := by
  unfold explain addNewExplanation; split <;> rfl

@[simp] theorem explain_regI (c : chip8) (t : String) : (c.explain t).regI = c.regI := by
  unfold explain addNewExplanation; split <;> rfl

theorem exec_op8 (c : chip8) (inp : Inputs) {x y k : Nat} (hx : x < 16) (hy : y < 16)
    (hk : k < 16) :
    executeInstruction c inp (op8 x y k) = executeMatchLastOneInstruction c (op8 x y k) := by
  obtain ⟨-, -, h, -⟩ := op8_fields x hx y hy k hk
  simp [executeInstruction, h]

theorem exec_or (c : chip8) (inp : Inputs) {x y : Nat} (hx : x < 16) (hy : y < 16) :
    executeInstruction c inp (op8 x y 1) = .ok (orHandler c (op8 x y 1)) := by
  obtain ⟨-, -, -, h⟩ := op8_fields x hx y hy 1 (by decide)
  rw [exec_op8 c inp hx hy (by decide)]
  simp [executeMatchLastOneInstruction, h]

theorem exec_and (c : chip8) (inp : Inputs) {x y : Nat} (hx : x < 16) (hy : y < 16) :
    executeInstruction c inp (op8 x y 2) = .ok (andHandler c (op8 x y 2)) := by
  obtain ⟨-, -, -, h⟩ := op8_fields x hx y hy 2 (by decide)
  rw [exec_op8 c inp hx hy (by decide)]
  simp [executeMatchLastOneInstruction, h]

theorem exec_xor (c : chip8) (inp : Inputs) {x y : Nat} (hx : x < 16) (hy : y < 16) :
    executeInstruction c inp (op8 x y 3) = .ok (xorHandler c (op8 x y 3)) := by
  obtain ⟨-, -, -, h⟩ := op8_fields x hx y hy 3 (by decide)
  rw [exec_op8 c inp hx hy (by decide)]
  simp [executeMatchLastOneInstruction, h]

theorem exec_add (c : chip8) (inp : Inputs) {x y : Nat} (hx : x < 16) (hy : y < 16) :
    executeInstruction c inp (op8 x y 4) = .ok (addHandler c (op8 x y 4)) := by
  obtain ⟨-, -, -, h⟩ := op8_fields x hx y hy 4 (by decide)
  rw [exec_op8 c inp hx hy (by decide)]
  simp [executeMatchLastOneInstruction, h]

theorem exec_subtract (c : chip8) (inp : Inputs) {x y : Nat} (hx : x < 16) (hy : y < 16) :
    executeInstruction c inp (op8 x y 5) = .ok (subtractHandler c (op8 x y 5)) := by
  obtain ⟨-, -, -, h⟩ := op8_fields x hx y hy 5 (by decide)
  rw [exec_op8 c inp hx hy (by decide)]
  simp [executeMatchLastOneInstruction, h]

theorem exec_shiftRight (c : chip8) (inp : Inputs) {x y : Nat} (hx : x < 16) (hy : y < 16) :
    executeInstruction c inp (op8 x y 6) = .ok (shiftRightHandler c (op8 x y 6)) := by
  obtain ⟨-, -, -, h⟩ := op8_fields x hx y hy 6 (by decide)
  rw [exec_op8 c inp hx hy (by decide)]
  simp [executeMatchLastOneInstruction, h]

theorem exec_subtractNegative (c : chip8) (inp : Inputs) {x y : Nat} (hx : x < 16)
    (hy : y < 16) :
    executeInstruction c inp (op8 x y 7) = .ok (subtractNegativeHandler c (op8 x y 7)) := by
  obtain ⟨-, -, -, h⟩ := op8_fields x hx y hy 7 (by decide)
  rw [exec_op8 c inp hx hy (by decide)]
  simp [executeMatchLastOneInstruction, h]

theorem exec_shiftLeft (c : chip8) (inp : Inputs) {x y : Nat} (hx : x < 16) (hy : y < 16) :
    executeInstruction c inp (op8 x y 0xE) = .ok (shiftLeftHandler c (op8 x y 0xE)) := by
  obtain ⟨-, -, -, h⟩ := op8_fields x hx y hy 0xE (by decide)
  rw [exec_op8 c inp hx hy (by decide)]
  simp [executeMatchLastOneInstruction, h]

end chip8

/-! ## Bytes -/

theorem u8_of_lt {n : Nat} (h : n < 256) : u8 n = n := Nat.mod_eq_of_lt h

theorem or_byte {a b : Nat} (ha : a < 256) (hb : b < 256) : u8 (a ||| b) = a ||| b :=
  u8_of_lt (Nat.or_lt_two_pow (n := 8) ha hb)

theorem and_byte {a b : Nat} (hb : b < 256) : u8 (a &&& b) = a &&& b :=
  u8_of_lt (Nat.and_lt_two_pow (n := 8) a hb)

theorem xor_byte {a b : Nat} (ha : a < 256) (hb : b < 256) : u8 (a ^^^ b) = a ^^^ b :=
  u8_of_lt (Nat.xor_lt_two_pow (n := 8) ha hb)

set_option maxRecDepth 100000 in
theorem high_bit_byte : ∀ v < 256, u8 ((v &&& 0x80) >>> 7) = v / 128 := by decide

/-! ## Bit-level facts -/

theorem testBit_byte_high {a j : Nat} (ha : a < 256) (hj : 8 ≤ j) : a.testBit j = false := by
  apply Nat.testBit_lt_two_pow
  calc a < 2 ^ 8 := ha
    _ ≤ 2 ^ j := Nat.pow_le_pow_right (by decide) hj

theorem xor_u8 {a : Nat} (ha : a < 256) (m : Nat) : u8 (a ^^^ m) = a ^^^ u8 m := by
  apply Nat.eq_of_testBit_eq
  intro j
  have h256 : (256 : Nat) = 2 ^ 8 := rfl
  simp only [u8, h256, Nat.testBit_mod_two_pow, Nat.testBit_xor]
  by_cases hj : j < 8
  · simp [hj]
  · simp [hj, testBit_byte_high ha (Nat.le_of_not_lt hj)]

theorem u8_lt (n : Nat) : u8 n < 256 := Nat.mod_lt _ (by decide)

theorem ne_zero_iff_testBit (a : Nat) : a ≠ 0 ↔ ∃ j, a.testBit j = true := by
  constructor
  · exact Nat.ne_zero_implies_bit_true
  · rintro ⟨j, hj⟩ h0
    simp [h0] at hj

theorem testBit_bitNot (v j : Nat) : (bitNot v).testBit j = (decide (j < 32) != v.testBit j) := by
  unfold bitNot
  rw [Nat.testBit_xor, Nat.testBit_two_pow_sub_one]

theorem and_bitNot_ne_zero_iff {a b : Nat} (ha : a < 256) :
    a &&& bitNot b ≠ 0 ↔ ∃ j, j < 8 ∧ a.testBit j = true ∧ b.testBit j = false := by
  rw [ne_zero_iff_testBit]
  constructor
  · rintro ⟨j, hj⟩
    have hj8 : j < 8 := by
      by_contra h
      simp [testBit_byte_high ha (Nat.le_of_not_lt h)] at hj
    have hj32 : j < 32 := by omega
    simp [testBit_bitNot, hj32] at hj
    exact ⟨j, hj8, hj.1, hj.2⟩
  · rintro ⟨j, hj8, h1, h2⟩
    have hj32 : j < 32 := by omega
    exact ⟨j, by simp [testBit_bitNot, hj32, h1, h2]⟩

theorem and_bitNot_self {a : Nat} (ha : a < 256) : a &&& bitNot a = 0 := by
  by_contra h
  obtain ⟨j, -, h1, h2⟩ := (and_bitNot_ne_zero_iff ha).1 h
  simp [h1] at h2

theorem and_two_pow_ne_zero (a k : Nat) : ((a &&& 2 ^ k) != 0) = a.testBit k := by
  by_cases h : a.testBit k = true
  · have : a &&& 2 ^ k ≠ 0 := (ne_zero_iff_testBit _).2 ⟨k, by simp [h, Nat.testBit_two_pow_self]⟩
    simp [h, this]
  · have : a &&& 2 ^ k = 0 := by
      by_contra hne
      obtain ⟨j, hj⟩ := (ne_zero_iff_testBit _).1 hne
      simp [Nat.testBit_two_pow] at hj
      obtain ⟨h1, h2⟩ := hj
      subst h2
      exact h h1
    simp [h, this]

theorem pixel_mask_testBit (a c : Nat) (hc : c < 8) :
    ((a &&& (128 >>> c)) != 0) = a.testBit (7 - c) := by
  have : 128 >>> c = 2 ^ (7 - c) := by
    interval_cases c <;> rfl
  rw [this, and_two_pow_ne_zero]

theorem video_line_bytes : VIDEO_LINE_BYTES = 8 := rfl

theorem blitMask_lt (b x y i : Nat) : blitMask b x y i < 256 := by
  unfold blitMask
  split_ifs <;> first | exact u8_lt _ | decide

theorem blitMask_row {b x y i : Nat} (h : blitMask b x y i ≠ 0) : i / 8 = y ∧ y < 32 := by
  unfold blitMask at h
  split_ifs at h with h1 h2 h3
  · exact ⟨by omega, h1⟩
  · exact ⟨by omega, h1⟩
  · exact absurd rfl h
  · exact absurd rfl h

namespace ch8Display

theorem blit_outside (d : ch8Display) (b x : Nat) {y : Nat} (hy : 32 ≤ y) :
    d.writeToBuffer b x y = (d, false) := by
  have : ¬ y < VIDEO_HEIGHT := Nat.not_lt.2 hy
  simp [writeToBuffer, this]

theorem blit_frameBuffer (d : ch8Display) (hfb : ∀ i, d.frameBuffer i < 256) (b x y i : Nat) :
    (d.writeToBuffer b x y).1.frameBuffer i = d.frameBuffer i ^^^ blitMask b x y i := by
  unfold writeToBuffer blitMask
  simp only [video_line_bytes]
  by_cases hy : y < 32
  · simp only [hy, if_true, VIDEO_HEIGHT, VIDEO_WIDTH]
    by_cases hq : x % 64 / 8 + 1 < 8
    · have hmod : (x % 64 / 8 + 1) % 8 = x % 64 / 8 + 1 := Nat.mod_eq_of_lt hq
      simp only [hq, if_true, hmod, arraySet_apply, and_true]
      by_cases h1 : i = y * 8 + x % 64 / 8
      · have h2 : ¬ i = y * 8 + (x % 64 / 8 + 1) := by omega
        simp only [h1, if_true]
        have h3 : ¬ (y * 8 + x % 64 / 8 = y * 8 + (x % 64 / 8 + 1)) := by omega
        simp only [h3, if_false]
        exact xor_u8 (hfb _) _
      · by_cases h2 : i = y * 8 + (x % 64 / 8 + 1)
        · have h3 : ¬ (y * 8 + (x % 64 / 8 + 1) = y * 8 + x % 64 / 8) := by omega
          simp only [h2, if_true, h3, if_false]
          exact xor_u8 (hfb _) _
        · simp [h1, h2]
    · simp only [hq, if_false, arraySet_apply, and_false]
      by_cases h1 : i = y * 8 + x % 64 / 8
      · simp only [h1, if_true]
        exact xor_u8 (hfb _) _
      · simp [h1]
  · simp [hy, VIDEO_HEIGHT]

end ch8Display

theorem blitMask_testBit {b : Nat} (hb : b < 256) (x y col row : Nat) (hcol : col < 64) :
    (blitMask b x y (row * 8 + col / 8)).testBit (7 - col % 8) =
      (decide (y < 32 ∧ row = y ∧ x % 64 ≤ col ∧ col < x % 64 + 8)
        && b.testBit (7 - (col - x % 64))) := by
  have h256 : (256 : Nat) = 2 ^ 8 := rfl
  unfold blitMask
  by_cases hy : y < 32
  · simp only [hy, if_true, true_and]
    by_cases hA : row * 8 + col / 8 = y * 8 + x % 64 / 8
    · have hrow : row = y := by omega
      simp only [hA, if_true, u8, h256, Nat.testBit_mod_two_pow, Nat.testBit_shiftRight]
      have h7 : 7 - col % 8 < 8 := by omega
      simp only [h7, decide_True, Bool.true_and]
      by_cases hw : x % 64 ≤ col
      · have hwin : row = y ∧ x % 64 ≤ col ∧ col < x % 64 + 8 := ⟨hrow, hw, by omega⟩
        have hidx : x % 64 % 8 + (7 - col % 8) = 7 - (col - x % 64) := by omega
        simp only [hwin, and_self, decide_True, Bool.true_and, hidx]
      · have hwin : ¬ (row = y ∧ x % 64 ≤ col ∧ col < x % 64 + 8) := fun h => hw h.2.1
        have hhigh : 8 ≤ x % 64 % 8 + (7 - col % 8) := by omega
        simp only [hwin, decide_False, Bool.false_and, testBit_byte_high hb hhigh]
    · by_cases hB : row * 8 + col / 8 = y * 8 + (x % 64 / 8 + 1) ∧ x % 64 / 8 + 1 < 8
      · have hrow : row = y := by omega
        rw [if_neg hA, if_pos hB]
        simp only [u8, h256, Nat.testBit_mod_two_pow, Nat.testBit_shiftLeft]
        have h7 : 7 - col % 8 < 8 := by omega
        simp only [h7, decide_True, Bool.true_and]
        by_cases hw : col < x % 64 + 8
        · have hwin : row = y ∧ x % 64 ≤ col ∧ col < x % 64 + 8 := ⟨hrow, by omega, hw⟩
          have hge : 7 - col % 8 ≥ 8 - x % 64 % 8 := by omega
          have hidx : 7 - col % 8 - (8 - x % 64 % 8) = 7 - (col - x % 64) := by omega
          simp only [hwin, and_self, decide_True, Bool.true_and, hge, hidx]
        · have hwin : ¬ (row = y ∧ x % 64 ≤ col ∧ col < x % 64 + 8) := fun h => hw h.2.2
          have hge : ¬ (7 - col % 8 ≥ 8 - x % 64 % 8) := by omega
          simp only [hwin, decide_False, Bool.false_and, hge]
      · have hwin : ¬ (row = y ∧ x % 64 ≤ col ∧ col < x % 64 + 8) := by
          rintro ⟨h1, h2, h3⟩
          subst h1
          by_cases hq : col / 8 = x % 64 / 8
          · exact hA (by omega)
          · exact hB ⟨by omega, by omega⟩
        rw [if_neg hA, if_neg hB]
        simp only [hwin, decide_False, Bool.false_and, Nat.zero_testBit]
  · simp only [hy, if_false, false_and, decide_False, Bool.false_and, Nat.zero_testBit]

namespace ch8Display

theorem pixelLit_eq_testBit (d : ch8Display) (col row : Nat) :
    d.pixelLit col row = (d.frameBuffer (row * 8 + col / 8)).testBit (7 - col % 8) := by
  unfold pixelLit
  rw [video_line_bytes]
  exact pixel_mask_testBit _ _ (Nat.mod_lt _ (by decide))

theorem blit_pixel (d : ch8Display) (hfb : ∀ i, d.frameBuffer i < 256) {b : Nat} (hb : b < 256)
    (x y col row : Nat) (hcol : col < 64) :
    (d.writeToBuffer b x y).1.pixelLit col row =
      (d.pixelLit col row ^^
        (decide (y < 32 ∧ row = y ∧ x % 64 ≤ col ∧ col < x % 64 + 8)
          && b.testBit (7 - (col - x % 64)))) := by
  rw [pixelLit_eq_testBit, pixelLit_eq_testBit, blit_frameBuffer d hfb, Nat.testBit_xor,
    blitMask_testBit hb x y col row hcol]

theorem blit_flag_eq (d : ch8Display) (b x : Nat) {y : Nat} (hy : y < 32) :
    (d.writeToBuffer b x y).2 =
      (((d.frameBuffer (y * 8 + x % 64 / 8) &&&
          bitNot ((d.writeToBuffer b x y).1.frameBuffer (y * 8 + x % 64 / 8))) != 0) ||
       ((d.frameBuffer (y * 8 + (x % 64 / 8 + 1) % 8) &&&
          bitNot ((d.writeToBuffer b x y).1.frameBuffer (y * 8 + (x % 64 / 8 + 1) % 8))) != 0)) := by
  unfold writeToBuffer
  simp only [video_line_bytes, VIDEO_HEIGHT, VIDEO_WIDTH, hy, if_true]

theorem blit_flag (d : ch8Display) (hfb : ∀ i, d.frameBuffer i < 256) (b x y : Nat) :
    (d.writeToBuffer b x y).2 = true ↔
      ∃ i, d.frameBuffer i &&& bitNot ((d.writeToBuffer b x y).1.frameBuffer i) ≠ 0 := by
  by_cases hy : y < 32
  · rw [blit_flag_eq d b x hy]
    constructor
    · intro h
      simp only [Bool.or_eq_true, bne_iff_ne] at h
      rcases h with h | h
      · exact ⟨_, h⟩
      · exact ⟨_, h⟩
    · rintro ⟨i, hi⟩
      have hm : blitMask b x y i ≠ 0 := by
        intro h0
        rw [blit_frameBuffer d hfb, h0, Nat.xor_zero] at hi
        exact hi (and_bitNot_self (hfb i))
      simp only [Bool.or_eq_true, bne_iff_ne]
      unfold blitMask at hm
      split_ifs at hm with h1 h2
      · left; rw [← h1]; exact hi
      · right
        have : (x % 64 / 8 + 1) % 8 = x % 64 / 8 + 1 := Nat.mod_eq_of_lt h2.2
        rw [this, ← h2.1]; exact hi
      · exact absurd rfl hm
  · rw [blit_outside d b x (Nat.le_of_not_lt hy)]
    simp [and_bitNot_self (hfb _)]

end ch8Display

/-! ## The draw loop -/

theorem rowsMask_lt (m : ch8Memory) (x row count addr i : Nat) :
    rowsMask m x row count addr i < 256 := by
  unfold rowsMask
  split_ifs
  · exact blitMask_lt _ _ _ _
  · decide

theorem rowsMask_zero (m : ch8Memory) (x row addr i : Nat) : rowsMask m x row 0 addr i = 0 := by
  unfold rowsMask
  have : ¬ (row ≤ i / 8 ∧ i / 8 < row + 0) := by omega
  rw [if_neg this]

theorem rowsMask_succ (m : ch8Memory) (x row count addr i : Nat) :
    rowsMask m x row (count + 1) addr i =
      blitMask (m.memory addr) x row i ^^^ rowsMask m x (row + 1) count (addr + 1) i := by
  unfold rowsMask
  by_cases h0 : i / 8 = row
  · have h1 : row ≤ i / 8 ∧ i / 8 < row + (count + 1) := by omega
    have h2 : ¬ (row + 1 ≤ i / 8 ∧ i / 8 < row + 1 + count) := by omega
    rw [if_pos h1, if_neg h2, Nat.xor_zero, h0, Nat.sub_self, Nat.add_zero]
  · have hb : blitMask (m.memory addr) x row i = 0 := by
      by_contra h
      exact h0 (blitMask_row h).1
    rw [hb, Nat.zero_xor]
    by_cases h1 : row ≤ i / 8 ∧ i / 8 < row + (count + 1)
    · have h2 : row + 1 ≤ i / 8 ∧ i / 8 < row + 1 + count := by omega
      have h3 : addr + 1 + (i / 8 - (row + 1)) = addr + (i / 8 - row) := by omega
      rw [if_pos h1, if_pos h2, h3]
    · have h2 : ¬ (row + 1 ≤ i / 8 ∧ i / 8 < row + 1 + count) := by omega
      rw [if_neg h1, if_neg h2]

theorem rowsMask_row {m : ch8Memory} {x row count addr i : Nat}
    (h : rowsMask m x row count addr i ≠ 0) : row ≤ i / 8 ∧ i / 8 < row + count ∧ i / 8 < 32 := by
  unfold rowsMask at h
  split_ifs at h with h1
  · exact ⟨h1.1, h1.2, (blitMask_row h).2⟩
  · exact absurd rfl h

namespace chip8

theorem drawLoop_frameBuffer (m : ch8Memory) (x y start : Nat) :
    ∀ (k iSprite : Nat) (d : ch8Display) (e : Bool), start ≤ iSprite →
      (k = 0 ∨ iSprite + k < 65536) →
      y + (iSprite - start) + k < 65536 → (∀ i, d.frameBuffer i < 256) →
      ∀ r, drawLoop m x y start k iSprite d e = .ok r →
        ∀ i, r.1.frameBuffer i =
          d.frameBuffer i ^^^ rowsMask m x (y + (iSprite - start)) k iSprite i := by
  intro k
  induction k with
  | zero =>
    intro iSprite d e _ _ _ _ r hr i
    simp only [drawLoop, Except.ok.injEq] at hr
    subst hr
    rw [rowsMask_zero, Nat.xor_zero]
  | succ k ih =>
    intro iSprite d e hs hk hy hfb r hr i
    simp only [drawLoop, ch8Memory.readAtPos] at hr
    split at hr
    · split_ifs at *
    · rename_i b hb
      have h16 : u16 (iSprite + 1) = iSprite + 1 := Nat.mod_eq_of_lt (by omega)
      have hy16 : u16 (y + (iSprite - start)) = y + (iSprite - start) :=
        Nat.mod_eq_of_lt (by omega)
      rw [h16, hy16] at hr
      have hb' : b = m.memory iSprite := by
        split_ifs at hb
        simp only [Except.ok.injEq] at hb
        exact hb.symm
      have hfb1 : ∀ i, (d.writeToBuffer b x (y + (iSprite - start))).1.frameBuffer i < 256 := by
        intro j
        rw [ch8Display.blit_frameBuffer d hfb]
        exact Nat.xor_lt_two_pow (n := 8) (hfb j) (blitMask_lt _ _ _ _)
      have := ih (iSprite + 1) _ _ (by omega) (by omega) (by omega) hfb1 r hr i
      rw [this, ch8Display.blit_frameBuffer d hfb, rowsMask_succ, Nat.xor_assoc, hb']
      have : y + (iSprite + 1 - start) = y + (iSprite - start) + 1 := by omega
      rw [this]

theorem drawLoop_total (m : ch8Memory) (x y start : Nat) :
    ∀ (k iSprite : Nat) (d : ch8Display) (e : Bool), (k = 0 ∨ iSprite + k ≤ 4096) →
      ∃ r, drawLoop m x y start k iSprite d e = .ok r := by
  intro k
  induction k with
  | zero => intro iSprite d e _; exact ⟨_, rfl⟩
  | succ k ih =>
    intro iSprite d e hk
    have h1 : ¬ iSprite > MEMORY_SIZE - 1 := by simp only [MEMORY_SIZE]; omega
    have h16 : u16 (iSprite + 1) = iSprite + 1 := Nat.mod_eq_of_lt (by omega)
    simp only [drawLoop, ch8Memory.readAtPos, if_neg h1, h16]
    exact ih _ _ _ (by omega)

theorem drawLoop_flag (m : ch8Memory) (x y start : Nat) :
    ∀ (k iSprite : Nat) (d : ch8Display) (e : Bool), start ≤ iSprite →
      (k = 0 ∨ iSprite + k < 65536) →
      y + (iSprite - start) + k < 65536 → (∀ i, d.frameBuffer i < 256) →
      ∀ r, drawLoop m x y start k iSprite d e = .ok r →
        (r.2 = true ↔
          e = true ∨ ∃ i, d.frameBuffer i &&& bitNot (r.1.frameBuffer i) ≠ 0) := by
  intro k
  induction k with
  | zero =>
    intro iSprite d e _ _ _ hfb r hr
    simp only [drawLoop, Except.ok.injEq] at hr
    subst hr
    simp [and_bitNot_self (hfb _)]
  | succ k ih =>
    intro iSprite d e hs hk hy hfb r hr
    simp only [drawLoop, ch8Memory.readAtPos] at hr
    split at hr
    · split_ifs at *
    · rename_i b hb
      have h16 : u16 (iSprite + 1) = iSprite + 1 := Nat.mod_eq_of_lt (by omega)
      have hy16 : u16 (y + (iSprite - start)) = y + (iSprite - start) :=
        Nat.mod_eq_of_lt (by omega)
      rw [h16, hy16] at hr
      have hfb1 : ∀ i, (d.writeToBuffer b x (y + (iSprite - start))).1.frameBuffer i < 256 := by
        intro j
        rw [ch8Display.blit_frameBuffer d hfb]
        exact Nat.xor_lt_two_pow (n := 8) (hfb j) (blitMask_lt _ _ _ _)
      have hrow : y + (iSprite + 1 - start) = y + (iSprite - start) + 1 := by omega
      have hIH := ih (iSprite + 1) _ _ (by omega) (by omega) (by omega) hfb1 r hr
      have hrest := drawLoop_frameBuffer m x y start k (iSprite + 1) _ _ (by omega) (by omega)
        (by omega) hfb1 r hr
      rw [hrow] at hrest
      have hfirst := ch8Display.blit_frameBuffer d hfb b x (y + (iSprite - start))
      have hflag := ch8Display.blit_flag d hfb b x (y + (iSprite - start))
      -- rows: the first blit touches row `Y` only, the rest rows below `Y` only
      have hrestRow : ∀ i, i / 8 = y + (iSprite - start) →
          r.1.frameBuffer i = (d.writeToBuffer b x (y + (iSprite - start))).1.frameBuffer i := by
        intro i hi
        have : rowsMask m x (y + (iSprite - start) + 1) k (iSprite + 1) i = 0 := by
          by_contra h
          have := (rowsMask_row h).1
          omega
        rw [hrest, this, Nat.xor_zero]
      have hfirstRow : ∀ i, i / 8 ≠ y + (iSprite - start) →
          (d.writeToBuffer b x (y + (iSprite - start))).1.frameBuffer i = d.frameBuffer i := by
        intro i hi
        have : blitMask b x (y + (iSprite - start)) i = 0 := by
          by_contra h
          exact hi (blitMask_row h).1
        rw [hfirst, this, Nat.xor_zero]
      rw [hIH, Bool.or_eq_true, hflag]
      constructor
      · rintro ((⟨i, hi⟩ | he) | ⟨i, hi⟩)
        · right
          by_cases hrow : i / 8 = y + (iSprite - start)
          · exact ⟨i, by rw [hrestRow i hrow]; exact hi⟩
          · rw [hfirstRow i hrow] at hi
            exact absurd (and_bitNot_self (hfb i)) hi
        · exact Or.inl he
        · right
          by_cases hrow : i / 8 = y + (iSprite - start)
          · rw [hrestRow i hrow] at hi
            exact absurd (and_bitNot_self (hfb1 i)) hi
          · exact ⟨i, by rw [← hfirstRow i hrow]; exact hi⟩
      · rintro (he | ⟨i, hi⟩)
        · exact Or.inl (Or.inr he)
        · by_cases hrow : i / 8 = y + (iSprite - start)
          · exact Or.inl (Or.inl ⟨i, by rw [← hrestRow i hrow]; exact hi⟩)
          · exact Or.inr ⟨i, by rw [hfirstRow i hrow]; exact hi⟩

end chip8

namespace ch8Display

theorem erased_iff_pixel (d d' : ch8Display) (hfb : ∀ i, d.frameBuffer i < 256)
    (hsame : ∀ i, 256 ≤ i → d'.frameBuffer i = d.frameBuffer i) :
    (∃ i, d.frameBuffer i &&& bitNot (d'.frameBuffer i) ≠ 0) ↔
      ∃ col row, col < 64 ∧ row < 32 ∧ d.pixelLit col row = true ∧
        d'.pixelLit col row = false := by
  constructor
  · rintro ⟨i, hi⟩
    have hi256 : i < 256 := by
      by_contra h
      rw [hsame i (Nat.le_of_not_lt h)] at hi
      exact hi (and_bitNot_self (hfb i))
    obtain ⟨j, hj, h1, h2⟩ := (and_bitNot_ne_zero_iff (hfb i)).1 hi
    refine ⟨i % 8 * 8 + (7 - j), i / 8, by omega, by omega, ?_, ?_⟩
    · rw [pixelLit_eq_testBit]
      have e1 : i / 8 * 8 + (i % 8 * 8 + (7 - j)) / 8 = i := by omega
      have e2 : 7 - (i % 8 * 8 + (7 - j)) % 8 = j := by omega
      rw [e1, e2]; exact h1
    · rw [pixelLit_eq_testBit]
      have e1 : i / 8 * 8 + (i % 8 * 8 + (7 - j)) / 8 = i := by omega
      have e2 : 7 - (i % 8 * 8 + (7 - j)) % 8 = j := by omega
      rw [e1, e2]; exact h2
  · rintro ⟨col, row, _, _, h1, h2⟩
    rw [pixelLit_eq_testBit] at h1 h2
    exact ⟨row * 8 + col / 8,
      (and_bitNot_ne_zero_iff (hfb _)).2 ⟨7 - col % 8, by omega, h1, h2⟩⟩

end ch8Display

namespace chip8

theorem exec_draw (c : chip8) (inp : Inputs) {x y n : Nat} (hx : x < 16) (hy : y < 16)
    (hn : n < 16) : executeInstruction c inp (opD x y n) = drawHandler c (opD x y n) := by
  obtain ⟨-, -, h, -⟩ := opD_fields x hx y hy n hn
  simp [executeInstruction, h]

/-- The number of iterations of the draw loop: none when `I + n` wraps around
in 16 bits, `n` otherwise. -/
theorem draw_count (regI n : Nat) (hn : n < 16) :
    (u16 (regI + n) - regI = 0) ∨ (u16 (regI + n) - regI = n ∧ regI + n < 65536) := by
  unfold u16
  omega

theorem drawHandler_ok {c c' : chip8} {x y n : Nat} (hx : x < 16) (hy : y < 16) (hn : n < 16)
    (h : drawHandler c (opD x y n) = .ok c') :
    ∃ r, drawLoop c.memory (c.regsVx x % 64) (c.regsVx y % 32) c.regI
        (u16 (c.regI + n) - c.regI) c.regI c.display false = .ok r ∧
      c'.display = r.1 ∧ c'.regsVx = arraySet c.regsVx 0xF (if r.2 then 1 else 0) ∧
      c'.memory = c.memory ∧ c'.regI = c.regI := by
  obtain ⟨fx, fy, -, fn⟩ := opD_fields x hx y hy n hn
  unfold drawHandler at h
  simp only [fx, fy, fn, VIDEO_WIDTH, VIDEO_HEIGHT] at h
  split at h
  · exact absurd h (by simp)
  · rename_i d e hr
    simp only [Except.ok.injEq] at h
    subst h
    refine ⟨(d, e), hr, by simp, ?_, by simp, by simp⟩
    cases e <;> simp

theorem drawHandler_total (c : chip8) {x y n : Nat} (hx : x < 16) (hy : y < 16) (hn : n < 16)
    (hmem : ∀ k, k < n → c.regI + k < 4096) : ∃ c', drawHandler c (opD x y n) = .ok c' := by
  obtain ⟨fx, fy, -, fn⟩ := opD_fields x hx y hy n hn
  have hcount : u16 (c.regI + n) - c.regI = 0 ∨ c.regI + (u16 (c.regI + n) - c.regI) ≤ 4096 := by
    rcases draw_count c.regI n hn with h | ⟨h, _⟩
    · exact Or.inl h
    · rw [h]
      rcases Nat.eq_zero_or_pos n with h0 | h0
      · exact Or.inl (by omega)
      · have := hmem (n - 1) (by omega)
        exact Or.inr (by omega)
  obtain ⟨r, hr⟩ := drawLoop_total c.memory (c.regsVx x % 64) (c.regsVx y % 32) c.regI
    (u16 (c.regI + n) - c.regI) c.regI c.display false hcount
  unfold drawHandler
  simp only [fx, fy, fn, VIDEO_WIDTH, VIDEO_HEIGHT, hr]
  exact ⟨_, rfl⟩

/-- Framebuffer after a successful draw: every element is the old element
XORed with the mask of the sprite row that lands in its framebuffer row. -/
theorem draw_frameBuffer {c c' : chip8} {x y n : Nat} (hx : x < 16) (hy : y < 16) (hn : n < 16)
    (hfb : ∀ i, c.display.frameBuffer i < 256) (h : drawHandler c (opD x y n) = .ok c') (i : Nat) :
    c'.display.frameBuffer i = c.display.frameBuffer i ^^^
      rowsMask c.memory (c.regsVx x % 64) (c.regsVx y % 32) (u16 (c.regI + n) - c.regI)
        c.regI i := by
  obtain ⟨r, hr, hd, -, -, -⟩ := drawHandler_ok hx hy hn h
  have hc := draw_count c.regI n hn
  have := drawLoop_frameBuffer c.memory (c.regsVx x % 64) (c.regsVx y % 32) c.regI
    (u16 (c.regI + n) - c.regI) c.regI c.display false (Nat.le_refl _) (by omega) (by omega)
    hfb r hr i
  rw [hd, this, Nat.sub_self, Nat.add_zero]

theorem draw_frameBuffer_lt {c c' : chip8} {x y n : Nat} (hx : x < 16) (hy : y < 16)
    (hn : n < 16) (hfb : ∀ i, c.display.frameBuffer i < 256)
    (h : drawHandler c (opD x y n) = .ok c') (i : Nat) : c'.display.frameBuffer i < 256 := by
  rw [draw_frameBuffer hx hy hn hfb h]
  exact Nat.xor_lt_two_pow (n := 8) (hfb i) (rowsMask_lt _ _ _ _ _ _)

/-- Collision flag after a successful draw, on framebuffer bytes. -/
theorem draw_flag_bytes {c c' : chip8} {x y n : Nat} (hx : x < 16) (hy : y < 16) (hn : n < 16)
    (hfb : ∀ i, c.display.frameBuffer i < 256) (h : drawHandler c (opD x y n) = .ok c') :
    (c'.regsVx 0xF = 1 ↔
      ∃ i, c.display.frameBuffer i &&& bitNot (c'.display.frameBuffer i) ≠ 0) ∧
    (c'.regsVx 0xF = 0 ↔
      ¬ ∃ i, c.display.frameBuffer i &&& bitNot (c'.display.frameBuffer i) ≠ 0) := by
  obtain ⟨r, hr, hd, hv, -, -⟩ := drawHandler_ok hx hy hn h
  have hc := draw_count c.regI n hn
  have := drawLoop_flag c.memory (c.regsVx x % 64) (c.regsVx y % 32) c.regI
    (u16 (c.regI + n) - c.regI) c.regI c.display false (Nat.le_refl _) (by omega) (by omega)
    hfb r hr
  simp only [Bool.false_eq_true, false_or] at this
  rw [hv, hd, arraySet_apply, if_pos rfl, ← this]
  by_cases he : r.2 = true
  · simp [he]
  · simp [he]

/-- Collision flag after a successful draw, on pixels. -/
theorem draw_flag {c c' : chip8} {x y n : Nat} (hx : x < 16) (hy : y < 16) (hn : n < 16)
    (hfb : ∀ i, c.display.frameBuffer i < 256) (h : drawHandler c (opD x y n) = .ok c') :
    (c'.regsVx 0xF = 1 ↔
      ∃ col row, col < 64 ∧ row < 32 ∧ c.display.pixelLit col row = true ∧
        c'.display.pixelLit col row = false) ∧
    (c'.regsVx 0xF = 0 ↔
      ¬ ∃ col row, col < 64 ∧ row < 32 ∧ c.display.pixelLit col row = true ∧
        c'.display.pixelLit col row = false) := by
  have hsame : ∀ i, 256 ≤ i → c'.display.frameBuffer i = c.display.frameBuffer i := by
    intro i hi
    rw [draw_frameBuffer hx hy hn hfb h]
    have : rowsMask c.memory (c.regsVx x % 64) (c.regsVx y % 32) (u16 (c.regI + n) - c.regI)
        c.regI i = 0 := by
      by_contra hne
      have := (rowsMask_row hne).2.2
      omega
    rw [this, Nat.xor_zero]
  rw [← ch8Display.erased_iff_pixel c.display c'.display hfb hsame]
  exact draw_flag_bytes hx hy hn hfb h

/-- Two draws in a row with the same operands, registers `x`, `y` not `VF`. -/
theorem draw_twice {c : chip8} {x y n : Nat} (hx : x < 16) (hy : y < 16) (hn : n < 16)
    (hxF : x ≠ 0xF) (hyF : y ≠ 0xF) (hfb : ∀ i, c.display.frameBuffer i < 256)
    (hmem : ∀ k, k < n → c.regI + k < 4096) :
    ∃ c1 c2, drawHandler c (opD x y n) = .ok c1 ∧ drawHandler c1 (opD x y n) = .ok c2 ∧
      (∀ i, c1.display.frameBuffer i < 256) ∧
      ∀ i, c2.display.frameBuffer i = c.display.frameBuffer i := by
  obtain ⟨c1, h1⟩ := drawHandler_total c hx hy hn hmem
  obtain ⟨r, -, -, hv, hm, hI⟩ := drawHandler_ok hx hy hn h1
  have hfb1 := draw_frameBuffer_lt hx hy hn hfb h1
  obtain ⟨c2, h2⟩ := drawHandler_total c1 hx hy hn (by rw [hI]; exact hmem)
  refine ⟨c1, c2, h1, h2, hfb1, fun i => ?_⟩
  have hvx : c1.regsVx x = c.regsVx x := by rw [hv, arraySet_apply, if_neg hxF]
  have hvy : c1.regsVx y = c.regsVx y := by rw [hv, arraySet_apply, if_neg hyF]
  rw [draw_frameBuffer hx hy hn hfb1 h2, draw_frameBuffer hx hy hn hfb h1, hvx, hvy, hm, hI,
    Nat.xor_assoc, Nat.xor_self, Nat.xor_zero]

/-- After a successful draw of a sprite that lies inside memory, framebuffer
row `y0 + r` holds the blit of sprite byte `r`. -/
theorem draw_row {c c' : chip8} {x y n : Nat} (hx : x < 16) (hy : y < 16) (hn : n < 16)
    (hfb : ∀ i, c.display.frameBuffer i < 256) (hmem : ∀ k, k < n → c.regI + k < 4096)
    (h : drawHandler c (opD x y n) = .ok c') {r i : Nat} (hr : r < n)
    (hi : i / 8 = c.regsVx y % 32 + r) :
    c'.display.frameBuffer i =
      (c.display.writeToBuffer (c.memory.memory (c.regI + r)) (c.regsVx x % 64)
        (c.regsVx y % 32 + r)).1.frameBuffer i := by
  have hc : u16 (c.regI + n) - c.regI = n := by
    have := hmem 0 (by omega)
    unfold u16
    omega
  rw [draw_frameBuffer hx hy hn hfb h, ch8Display.blit_frameBuffer c.display hfb, hc]
  unfold rowsMask
  have hin : c.regsVx y % 32 ≤ i / 8 ∧ i / 8 < c.regsVx y % 32 + n := by omega
  have hr' : i / 8 - c.regsVx y % 32 = r := by omega
  rw [if_pos hin, hr', hi]

end chip8

/-! ## Sprite drawing (`Dxyn`) -/

/-- C1 (as stated, refuted). On a blank framebuffer, `writeToBuffer(0xFF, 60, 0)`
does not toggle the pixel at column `0` of row `0`, although bit `k = 4` of
`0xFF` is set and `((60 mod 64) + 4) mod 64 = 0`: the part of the sprite byte
that passes the right edge is not wrapped into columns `0..3`. -/
theorem blit_wrap_counterexample :
    ¬ (((ch8Display.mk zeros).writeToBuffer 0xFF 60 0).1.pixelLit 0 0
          ≠ (ch8Display.mk zeros).pixelLit 0 0 ↔
        (0 = 0 ∧ ∃ k, k < 8 ∧ (0xFF).testBit (7 - k) = true ∧ 0 = (60 % 64 + k) % 64)) := by
  intro h
  have hr : (0 = 0 ∧ ∃ k, k < 8 ∧ (0xFF).testBit (7 - k) = true ∧ 0 = (60 % 64 + k) % 64) :=
    ⟨rfl, 4, by decide, by decide, by decide⟩
  exact h.2 hr (by decide)

/-- C1 (amended). For every sprite byte `b`, every row `y < 32` and every `x`,
`writeToBuffer(b, x, y)` toggles exactly the pixels in row `y` at the columns
`(x mod 64) + k` that are at most 63, for each set bit `k` of `b` (`k = 0` is
the most significant bit); every other pixel of the screen keeps its value.
Bits that would pass column 63 are clipped, not wrapped. -/
theorem blit_toggles_clipped (d : ch8Display) (hfb : ∀ i, d.frameBuffer i < 256) (b : Nat)
    (hb : b < 256) (x y : Nat) (hy : y < 32) (col row : Nat) (hcol : col < 64) :
    ((d.writeToBuffer b x y).1.pixelLit col row ≠ d.pixelLit col row ↔
      (row = y ∧ ∃ k, k < 8 ∧ b.testBit (7 - k) = true ∧ col = x % 64 + k)) := by
  rw [ch8Display.blit_pixel d hfb hb x y col row hcol]
  constructor
  · intro h
    have h1 : (decide (y < 32 ∧ row = y ∧ x % 64 ≤ col ∧ col < x % 64 + 8)
        && b.testBit (7 - (col - x % 64))) = true := by
      cases hp : d.pixelLit col row <;>
        cases hq : (decide (y < 32 ∧ row = y ∧ x % 64 ≤ col ∧ col < x % 64 + 8)
          && b.testBit (7 - (col - x % 64))) <;> simp_all
    simp only [Bool.and_eq_true, decide_eq_true_eq] at h1
    obtain ⟨⟨-, hrow, hlo, hhi⟩, hbit⟩ := h1
    exact ⟨hrow, col - x % 64, by omega, hbit, by omega⟩
  · rintro ⟨hrow, k, hk, hbit, hc⟩
    have hk' : col - x % 64 = k := by omega
    have h1 : (decide (y < 32 ∧ row = y ∧ x % 64 ≤ col ∧ col < x % 64 + 8)
        && b.testBit (7 - (col - x % 64))) = true := by
      simp only [Bool.and_eq_true, decide_eq_true_eq]
      exact ⟨⟨hy, hrow, by omega, by omega⟩, by rw [hk']; exact hbit⟩
    rw [h1]
    cases d.pixelLit col row <;> simp

/-- Instance of `blit_toggles_clipped` at `x = 60` with the byte `0xFF` on a blank
framebuffer: the columns `60..63` of row `0` are toggled and the columns `0..3`
are not. -/
theorem blit_toggles_clipped_witness :
    (∀ i, (ch8Display.mk zeros).frameBuffer i < 256) ∧ 0xFF < 256 ∧ 0 < 32 ∧
    (∀ col, 60 ≤ col → col < 64 →
      ((ch8Display.mk zeros).writeToBuffer 0xFF 60 0).1.pixelLit col 0
        ≠ (ch8Display.mk zeros).pixelLit col 0) ∧
    (∀ col, col < 4 →
      ((ch8Display.mk zeros).writeToBuffer 0xFF 60 0).1.pixelLit col 0
        = (ch8Display.mk zeros).pixelLit col 0) := by
  have hz : ∀ i, (ch8Display.mk zeros).frameBuffer i < 256 := fun _ => (by decide : (0 : Nat) < 256)
  refine ⟨hz, by decide, by decide, ?_, ?_⟩
  · intro col h1 h2
    refine (blit_toggles_clipped _ hz 0xFF (by decide) 60 0 (by decide) col 0 h2).2
      ⟨rfl, col - 60, by omega, ?_, by omega⟩
    have : col = 60 ∨ col = 61 ∨ col = 62 ∨ col = 63 := by omega
    rcases this with h | h | h | h <;> subst h <;> decide
  · intro col h1
    by_contra hne
    obtain ⟨-, k, -, -, hk⟩ :=
      (blit_toggles_clipped _ hz 0xFF (by decide) 60 0 (by decide) col 0 (by omega)).1 hne
    omega

/-- C2. Drawing twice is an involution on the framebuffer: when `x` and `y` are
not `0xF` and the `n` sprite bytes at `I .. I+n-1` lie inside memory, two `Dxyn`
cycles in succession both succeed and leave every framebuffer byte equal to
its value before the first draw. -/
theorem draw_twice_restores (c : chip8) (inp1 inp2 : Inputs) (x y n : Nat) (hx : x < 16)
    (hy : y < 16) (hn : n < 16) (hxF : x ≠ 0xF) (hyF : y ≠ 0xF)
    (hfb : ∀ i, c.display.frameBuffer i < 256) (hmem : ∀ k, k < n → c.regI + k < 4096) :
    ∃ c1 c2, chip8.executeInstruction c inp1 (opD x y n) = .ok c1 ∧
      chip8.executeInstruction c1 inp2 (opD x y n) = .ok c2 ∧
      ∀ i, c2.display.frameBuffer i = c.display.frameBuffer i := by
  obtain ⟨c1, c2, h1, h2, -, h⟩ := chip8.draw_twice hx hy hn hxF hyF hfb hmem
  exact ⟨c1, c2, by rw [chip8.exec_draw c inp1 hx hy hn, h1],
    by rw [chip8.exec_draw c1 inp2 hx hy hn, h2], h⟩

/-- Instance of `draw_twice_restores`: a 4-row sprite drawn twice at `(60, 31)` on
a framebuffer whose element `255` holds `0x0F`. -/
theorem draw_twice_restores_witness :
    (∀ i, (machineWith (regs2 60 31) (spriteAt300 0xFF 0x81 0x81 0xFF)
        (fun i => if i = 255 then 0x0F else 0) 0x300).display.frameBuffer i < 256) ∧
    (∀ k, k < 4 → (machineWith (regs2 60 31) (spriteAt300 0xFF 0x81 0x81 0xFF)
        (fun i => if i = 255 then 0x0F else 0) 0x300).regI + k < 4096) ∧
    ∃ c1 c2, chip8.executeInstruction (machineWith (regs2 60 31)
        (spriteAt300 0xFF 0x81 0x81 0xFF) (fun i => if i = 255 then 0x0F else 0) 0x300)
        noInputs (opD 0 1 4) = .ok c1 ∧
      chip8.executeInstruction c1 noInputs (opD 0 1 4) = .ok c2 ∧
      c2.display.frameBuffer 255 = 0x0F := by
  have hfb : ∀ i, (machineWith (regs2 60 31) (spriteAt300 0xFF 0x81 0x81 0xFF)
      (fun i => if i = 255 then 0x0F else 0) 0x300).display.frameBuffer i < 256 := by
    intro i
    show (if i = 255 then 0x0F else 0) < 256
    split <;> decide
  have hmem : ∀ k, k < 4 → (machineWith (regs2 60 31) (spriteAt300 0xFF 0x81 0x81 0xFF)
      (fun i => if i = 255 then 0x0F else 0) 0x300).regI + k < 4096 := by
    intro k hk
    show 0x300 + k < 4096
    omega
  obtain ⟨c1, c2, h1, h2, h⟩ := draw_twice_restores _ noInputs noInputs 0 1 4 (by decide)
    (by decide) (by decide) (by decide) (by decide) hfb hmem
  exact ⟨hfb, hmem, c1, c2, h1, h2, (h 255).trans (by decide)⟩

/-- C3 (as stated, refuted). From an all-zero framebuffer, with `V0 = 63`,
`V1 = 0` and the one-byte sprite `0x01` (non-zero, inside memory at `0x300`),
`D011` executed twice leaves `VF = 0` after the second draw as well: the only
set bit of the byte falls on column `63 + 7`, past the right edge, and is
clipped, so nothing is drawn and nothing is erased. -/
theorem second_draw_counterexample :
    (∀ i, (machineWith (regs2 63 0) (spriteAt300 0x01 0 0 0) zeros 0x300).display.frameBuffer i
      = 0) ∧
    (machineWith (regs2 63 0) (spriteAt300 0x01 0 0 0) zeros 0x300).memory.memory 0x300 ≠ 0 ∧
    ∃ c1 c2, chip8.executeInstruction (machineWith (regs2 63 0) (spriteAt300 0x01 0 0 0) zeros
        0x300) noInputs (opD 0 1 1) = .ok c1 ∧
      chip8.executeInstruction c1 noInputs (opD 0 1 1) = .ok c2 ∧
      c1.regsVx 0xF = 0 ∧ c2.regsVx 0xF = 0 ∧ c2.regsVx 0xF ≠ 1 := by
  refine ⟨fun _ => rfl, by decide, _, _, rfl, rfl, by decide, by decide, by decide⟩

/-- C3 (amended). From an all-zero framebuffer, for every position `(Vx, Vy)` with
`x`, `y` not `0xF` and every sprite of `n >= 1` bytes inside memory whose first
byte has a set bit `k` (`k = 0` the most significant) that lands on the screen,
`(Vx mod 64) + k <= 63`, both `Dxyn` cycles succeed, the first leaves `VF = 0`
and the immediately repeated one leaves `VF = 1`. -/
theorem second_draw_collides (c : chip8) (inp1 inp2 : Inputs) (x y n : Nat) (hx : x < 16)
    (hy : y < 16) (hn : n < 16) (hxF : x ≠ 0xF) (hyF : y ≠ 0xF) (hn1 : 1 ≤ n)
    (hblank : ∀ i, c.display.frameBuffer i = 0) (hmem : ∀ k, k < n → c.regI + k < 4096)
    (hbyte : c.memory.memory c.regI < 256)
    (hvis : ∃ k, k < 8 ∧ (c.memory.memory c.regI).testBit (7 - k) = true ∧
      c.regsVx x % 64 + k ≤ 63) :
    ∃ c1 c2, chip8.executeInstruction c inp1 (opD x y n) = .ok c1 ∧
      chip8.executeInstruction c1 inp2 (opD x y n) = .ok c2 ∧
      c1.regsVx 0xF = 0 ∧ c2.regsVx 0xF = 1 := by
  have hfb : ∀ i, c.display.frameBuffer i < 256 := fun i => by rw [hblank i]; decide
  have hdark : ∀ (d : ch8Display), (∀ i, d.frameBuffer i = 0) → ∀ col row,
      d.pixelLit col row = false := by
    intro d hd col row
    rw [ch8Display.pixelLit_eq_testBit, hd, Nat.zero_testBit]
  obtain ⟨c1, c2, h1, h2, hfb1, hback⟩ := chip8.draw_twice hx hy hn hxF hyF hfb hmem
  refine ⟨c1, c2, by rw [chip8.exec_draw c inp1 hx hy hn, h1],
    by rw [chip8.exec_draw c1 inp2 hx hy hn, h2], ?_, ?_⟩
  · refine (chip8.draw_flag hx hy hn hfb h1).2.2 ?_
    rintro ⟨col, row, -, -, hlit, -⟩
    rw [hdark c.display hblank] at hlit
    exact absurd hlit (by decide)
  · refine (chip8.draw_flag hx hy hn hfb1 h2).1.2 ?_
    obtain ⟨k, hk, hbit, hcol⟩ := hvis
    refine ⟨c.regsVx x % 64 + k, c.regsVx y % 32, by omega, Nat.mod_lt _ (by decide), ?_,
      hdark c2.display (fun i => by rw [hback i, hblank i]) _ _⟩
    have hrow : (c.regsVx y % 32 * 8 + (c.regsVx x % 64 + k) / 8) / 8 = c.regsVx y % 32 + 0 := by
      omega
    have hpix := ch8Display.blit_pixel c.display hfb hbyte (c.regsVx x % 64) (c.regsVx y % 32)
      (c.regsVx x % 64 + k) (c.regsVx y % 32) (by omega)
    rw [ch8Display.pixelLit_eq_testBit, chip8.draw_row hx hy hn hfb hmem h1 (by omega) hrow,
      Nat.add_zero, Nat.add_zero, ← ch8Display.pixelLit_eq_testBit, hpix,
      hdark c.display hblank]
    have hwin : c.regsVx y % 32 < 32 ∧ c.regsVx y % 32 = c.regsVx y % 32 ∧
        c.regsVx x % 64 % 64 ≤ c.regsVx x % 64 + k ∧
        c.regsVx x % 64 + k < c.regsVx x % 64 % 64 + 8 := by omega
    have hidx : c.regsVx x % 64 + k - c.regsVx x % 64 % 64 = k := by omega
    simp only [hwin, and_self, decide_True, hidx, hbit, Bool.and_self, Bool.false_bne]

/-- Instance of `second_draw_collides`: the one-byte sprite `0x81` drawn twice at
`(60, 31)` on a blank framebuffer (its bit `0` lands on column `60`). -/
theorem second_draw_collides_witness :
    (∀ i, (machineWith (regs2 60 31) (spriteAt300 0x81 0 0 0) zeros 0x300).display.frameBuffer i
      = 0) ∧
    (∃ k, k < 8 ∧ ((machineWith (regs2 60 31) (spriteAt300 0x81 0 0 0) zeros
        0x300).memory.memory 0x300).testBit (7 - k) = true ∧ 60 % 64 + k ≤ 63) ∧
    ∃ c1 c2, chip8.executeInstruction (machineWith (regs2 60 31) (spriteAt300 0x81 0 0 0) zeros
        0x300) noInputs (opD 0 1 1) = .ok c1 ∧
      chip8.executeInstruction c1 noInputs (opD 0 1 1) = .ok c2 ∧
      c1.regsVx 0xF = 0 ∧ c2.regsVx 0xF = 1 := by
  have hvis : ∃ k, k < 8 ∧ ((machineWith (regs2 60 31) (spriteAt300 0x81 0 0 0) zeros
      0x300).memory.memory 0x300).testBit (7 - k) = true ∧ 60 % 64 + k ≤ 63 :=
    ⟨0, by decide, by decide, by decide⟩
  exact ⟨fun _ => rfl, hvis,
    second_draw_collides (machineWith (regs2 60 31) (spriteAt300 0x81 0 0 0) zeros 0x300)
      noInputs noInputs 0 1 1 (by decide) (by decide) (by decide) (by decide) (by decide)
      (by decide) (fun _ => rfl) (fun k hk => by show 0x300 + k < 4096; omega) (by decide)
      hvis⟩

/-- C4. The collision flag is exact.  After a successful `Dxyn`, `VF = 1` if and
only if at least one pixel of the screen that was lit before the draw is unlit
after it, and `VF = 0` otherwise; in particular a draw onto an all-zero
framebuffer gives `VF = 0`.  When the sprite lies inside memory the draw
succeeds and every one of the `n` rows is blitted, whatever the earlier rows
reported: framebuffer row `y0 + r` holds the blit of sprite byte `r`.  The
second collision comparison, which indexes with `% 8`, gives the same result
as indexing with `VIDEO_LINE_BYTES`. -/
theorem collision_flag_exact (c : chip8) (inp : Inputs) (x y n : Nat) (hx : x < 16)
    (hy : y < 16) (hn : n < 16) (hfb : ∀ i, c.display.frameBuffer i < 256) :
    (∀ c', chip8.executeInstruction c inp (opD x y n) = .ok c' →
      (c'.regsVx 0xF = 1 ↔
        ∃ col row, col < 64 ∧ row < 32 ∧ c.display.pixelLit col row = true ∧
          c'.display.pixelLit col row = false) ∧
      (c'.regsVx 0xF = 0 ↔
        ¬ ∃ col row, col < 64 ∧ row < 32 ∧ c.display.pixelLit col row = true ∧
          c'.display.pixelLit col row = false) ∧
      ((∀ i, c.display.frameBuffer i = 0) → c'.regsVx 0xF = 0)) ∧
    ((∀ k, k < n → c.regI + k < 4096) →
      ∃ c', chip8.executeInstruction c inp (opD x y n) = .ok c' ∧
        ∀ r i, r < n → i / 8 = c.regsVx y % 32 + r →
          c'.display.frameBuffer i =
            (c.display.writeToBuffer (c.memory.memory (c.regI + r)) (c.regsVx x % 64)
              (c.regsVx y % 32 + r)).1.frameBuffer i) ∧
    (∀ (d : ch8Display) (b x' y' : Nat),
      d.writeToBuffer b x' y' = d.writeToBufferLineBytes b x' y') := by
  refine ⟨?_, ?_, fun _ _ _ _ => rfl⟩
  · intro c' h
    rw [chip8.exec_draw c inp hx hy hn] at h
    have hflag := chip8.draw_flag hx hy hn hfb h
    refine ⟨hflag.1, hflag.2, fun hblank => hflag.2.2 ?_⟩
    rintro ⟨col, row, -, -, hlit, -⟩
    rw [ch8Display.pixelLit_eq_testBit, hblank, Nat.zero_testBit] at hlit
    exact absurd hlit (by decide)
  · intro hmem
    obtain ⟨c', h⟩ := chip8.drawHandler_total c hx hy hn hmem
    refine ⟨c', by rw [chip8.exec_draw c inp hx hy hn, h], fun r i hr hi => ?_⟩
    exact chip8.draw_row hx hy hn hfb hmem h hr hi

/-- Instance of `collision_flag_exact`: the two-byte sprite `0xFF, 0xFF` drawn at
`(0, 0)` over a framebuffer whose element `0` holds `0x80` erases the pixel
`(0, 0)` with its first row, reports `VF = 1`, and still blits its second row
(framebuffer element `8`). -/
theorem collision_flag_exact_witness :
    (∀ i, (machineWith (regs2 0 0) (spriteAt300 0xFF 0xFF 0 0)
        (fun i => if i = 0 then 0x80 else 0) 0x300).display.frameBuffer i < 256) ∧
    ∃ c', chip8.executeInstruction (machineWith (regs2 0 0) (spriteAt300 0xFF 0xFF 0 0)
        (fun i => if i = 0 then 0x80 else 0) 0x300) noInputs (opD 0 1 2) = .ok c' ∧
      c'.regsVx 0xF = 1 ∧ c'.display.frameBuffer 0 = 0x7F ∧ c'.display.frameBuffer 8 = 0xFF := by
  have hfb : ∀ i, (machineWith (regs2 0 0) (spriteAt300 0xFF 0xFF 0 0)
      (fun i => if i = 0 then 0x80 else 0) 0x300).display.frameBuffer i < 256 := by
    intro i
    show (if i = 0 then 0x80 else 0) < 256
    split <;> decide
  obtain ⟨hflag, hrows, -⟩ := collision_flag_exact (machineWith (regs2 0 0)
    (spriteAt300 0xFF 0xFF 0 0) (fun i => if i = 0 then 0x80 else 0) 0x300) noInputs 0 1 2
    (by decide) (by decide) (by decide) hfb
  obtain ⟨c', h, hrow⟩ := hrows (fun k hk => by show 0x300 + k < 4096; omega)
  have h0 := hrow 0 0 (by decide) (by decide)
  have h8 := hrow 1 8 (by decide) (by decide)
  refine ⟨hfb, c', h, ?_, h0.trans (by decide), h8.trans (by decide)⟩
  refine (hflag c' h).1.2 ⟨0, 0, by decide, by decide, by decide, ?_⟩
  rw [ch8Display.pixelLit_eq_testBit, h0]
  decide

/-- C5. Vertical clipping, not wrapping.  A call of `writeToBuffer` with a row
past 31 changes nothing and reports no collision.  With `y0 = Vy mod 32`, a
successful `Dxyn` changes framebuffer elements only in the rows `y0 .. y0+n-1`
that are at most 31 (so no row above `y0` is touched: nothing wraps to the
top), and when the sprite lies inside memory the draw succeeds and row
`y0 + r` holds the blit of sprite byte `r`, which is the old row when
`y0 + r >= 32`. -/
theorem draw_clips_vertically (c : chip8) (inp : Inputs) (x y n : Nat) (hx : x < 16)
    (hy : y < 16) (hn : n < 16) (hfb : ∀ i, c.display.frameBuffer i < 256) :
    (∀ (d : ch8Display) (b x' y' : Nat), 32 ≤ y' → d.writeToBuffer b x' y' = (d, false)) ∧
    (∀ c', chip8.executeInstruction c inp (opD x y n) = .ok c' →
      ∀ i, c'.display.frameBuffer i ≠ c.display.frameBuffer i →
        c.regsVx y % 32 ≤ i / 8 ∧ i / 8 < c.regsVx y % 32 + n ∧ i / 8 ≤ 31) ∧
    ((∀ k, k < n → c.regI + k < 4096) →
      ∃ c', chip8.executeInstruction c inp (opD x y n) = .ok c' ∧
        ∀ r i, r < n → i / 8 = c.regsVx y % 32 + r →
          c'.display.frameBuffer i =
            (c.display.writeToBuffer (c.memory.memory (c.regI + r)) (c.regsVx x % 64)
              (c.regsVx y % 32 + r)).1.frameBuffer i ∧
          (32 ≤ c.regsVx y % 32 + r → c'.display.frameBuffer i = c.display.frameBuffer i)) := by
  refine ⟨fun d b x' y' h => ch8Display.blit_outside d b x' h, ?_, ?_⟩
  · intro c' h i hne
    rw [chip8.exec_draw c inp hx hy hn] at h
    rw [chip8.draw_frameBuffer hx hy hn hfb h] at hne
    have hm : rowsMask c.memory (c.regsVx x % 64) (c.regsVx y % 32)
        (u16 (c.regI + n) - c.regI) c.regI i ≠ 0 := by
      intro h0
      rw [h0, Nat.xor_zero] at hne
      exact hne rfl
    have := rowsMask_row hm
    have hc := chip8.draw_count c.regI n hn
    omega
  · intro hmem
    obtain ⟨c', h⟩ := chip8.drawHandler_total c hx hy hn hmem
    refine ⟨c', by rw [chip8.exec_draw c inp hx hy hn, h], fun r i hr hi => ?_⟩
    have hrow := chip8.draw_row hx hy hn hfb hmem h hr hi
    refine ⟨hrow, fun hout => ?_⟩
    rw [hrow, ch8Display.blit_outside _ _ _ hout]

/-- Instance of `draw_clips_vertically`: a 4-row sprite drawn at `y = 31` changes
row 31 (framebuffer element `248`) and leaves the rows `0..2` (elements
`0 .. 23`) untouched. -/
theorem draw_clips_vertically_witness :
    (∀ i, (machineWith (regs2 0 31) (spriteAt300 0xFF 0xFF 0xFF 0xFF) zeros
        0x300).display.frameBuffer i < 256) ∧
    ∃ c', chip8.executeInstruction (machineWith (regs2 0 31) (spriteAt300 0xFF 0xFF 0xFF 0xFF)
        zeros 0x300) noInputs (opD 0 1 4) = .ok c' ∧
      c'.display.frameBuffer 248 = 0xFF ∧
      ∀ i, i < 24 → c'.display.frameBuffer i = 0 := by
  have hfb : ∀ i, (machineWith (regs2 0 31) (spriteAt300 0xFF 0xFF 0xFF 0xFF) zeros
      0x300).display.frameBuffer i < 256 := fun _ => (by decide : (0 : Nat) < 256)
  obtain ⟨-, hframe, hrows⟩ := draw_clips_vertically (machineWith (regs2 0 31)
    (spriteAt300 0xFF 0xFF 0xFF 0xFF) zeros 0x300) noInputs 0 1 4
    (by decide) (by decide) (by decide) hfb
  obtain ⟨c', h, hrow⟩ := hrows (fun k hk => by show 0x300 + k < 4096; omega)
  refine ⟨hfb, c', h, ((hrow 0 248 (by decide) (by decide)).1).trans (by decide), ?_⟩
  intro i hi
  by_contra hne
  have := hframe c' h i hne
  have h31 : (machineWith (regs2 0 31) (spriteAt300 0xFF 0xFF 0xFF 0xFF) zeros 0x300).regsVx 1
      % 32 = 31 := by decide
  omega

/-! ## Arithmetic and logic instructions (`8xy1` .. `8xyE`) -/

/-- C6. `8xy4` (add with carry): for all register indices `x`, `y` and byte
register values the cycle succeeds, `VF = 1` exactly when the true sum
`old Vx + old Vy` exceeds 255 and `VF = 0` otherwise; when `x` is not `0xF`,
`Vx = (old Vx + old Vy) mod 256`; the test of the code, `old Vx > new Vx`,
holds exactly when the sum exceeds 255 (also for `x = y`); no register other
than `Vx` and `VF` changes. -/
theorem add_with_carry (c : chip8) (inp : Inputs) (x y : Nat) (hx : x < 16) (hy : y < 16)
    (hbx : c.regsVx x < 256) (hby : c.regsVx y < 256) :
    ∃ c', chip8.executeInstruction c inp (op8 x y 4) = .ok c' ∧
      (c'.regsVx 0xF = 1 ↔ c.regsVx x + c.regsVx y > 255) ∧
      (c'.regsVx 0xF = 0 ↔ ¬ c.regsVx x + c.regsVx y > 255) ∧
      (x ≠ 0xF → c'.regsVx x = (c.regsVx x + c.regsVx y) % 256) ∧
      (c.regsVx x > u8 (c.regsVx x + c.regsVx y) ↔ c.regsVx x + c.regsVx y > 255) ∧
      (∀ i, i ≠ x → i ≠ 0xF → c'.regsVx i = c.regsVx i) := by
  obtain ⟨fx, fy, -, -⟩ := op8_fields x hx y hy 4 (by decide)
  refine ⟨_, chip8.exec_add c inp hx hy, ?_⟩
  have key : c.regsVx x > u8 (c.regsVx x + c.regsVx y) ↔ c.regsVx x + c.regsVx y > 255 := by
    unfold u8; omega
  simp only [chip8.addHandler, chip8.explain_regsVx, fx, fy]
  simp only [arraySet_apply, if_true]
  unfold u8 at key ⊢
  refine ⟨?_, ?_, ?_, key, ?_⟩
  · split_ifs <;> simp_all [arraySet_apply]
  · split_ifs <;> simp_all [arraySet_apply]
  · intro hxf; split_ifs <;> simp_all [arraySet_apply]
  · intro i hi hif; split_ifs <;> simp_all [arraySet_apply]

/-- Instances of `add_with_carry`: `0xFF + 0x01` gives `Vx = 0x00`, `VF = 1`, and
`0x01 + 0x01` gives `Vx = 0x02`, `VF = 0`. -/
theorem add_with_carry_witness :
    (∃ c', chip8.executeInstruction (machineWith (regs2 0xFF 0x01) zeros zeros 0) noInputs
        (op8 0 1 4) = .ok c' ∧ c'.regsVx 0 = 0x00 ∧ c'.regsVx 0xF = 1) ∧
    (∃ c', chip8.executeInstruction (machineWith (regs2 0x01 0x01) zeros zeros 0) noInputs
        (op8 0 1 4) = .ok c' ∧ c'.regsVx 0 = 0x02 ∧ c'.regsVx 0xF = 0) := by
  constructor
  · obtain ⟨c', h, h1, -, hv, -, -⟩ := add_with_carry
      (machineWith (regs2 0xFF 0x01) zeros zeros 0) noInputs 0 1
      (by decide) (by decide) (by decide) (by decide)
    exact ⟨c', h, (hv (by decide)).trans (by decide), h1.2 (by decide)⟩
  · obtain ⟨c', h, -, h0, hv, -, -⟩ := add_with_carry
      (machineWith (regs2 0x01 0x01) zeros zeros 0) noInputs 0 1
      (by decide) (by decide) (by decide) (by decide)
    exact ⟨c', h, (hv (by decide)).trans (by decide), h0.2 (by decide)⟩

/-- C7. `8xy5` and `8xy7` (subtract): the flag is computed from the values
before the operation.  `8xy5` gives `VF = 1` iff `old Vx >= old Vy` (else 0)
and, for `x` not `0xF`, `Vx = (old Vx - old Vy) mod 256`; `8xy7` gives `VF = 1`
iff `old Vy >= old Vx` (else 0) and, for `x` not `0xF`,
`Vx = (old Vy - old Vx) mod 256`; when `x = 0xF` the register holds the flag. -/
theorem sub_flags (c : chip8) (inp : Inputs) (x y : Nat) (hx : x < 16) (hy : y < 16) :
    (∃ c', chip8.executeInstruction c inp (op8 x y 5) = .ok c' ∧
      (c'.regsVx 0xF = 1 ↔ c.regsVx x ≥ c.regsVx y) ∧
      (c'.regsVx 0xF = 0 ↔ c.regsVx x < c.regsVx y) ∧
      (x ≠ 0xF → (c'.regsVx x : Int) = ((c.regsVx x : Int) - c.regsVx y) % 256) ∧
      (x = 0xF → c'.regsVx x = if c.regsVx x ≥ c.regsVx y then 1 else 0)) ∧
    (∃ c', chip8.executeInstruction c inp (op8 x y 7) = .ok c' ∧
      (c'.regsVx 0xF = 1 ↔ c.regsVx y ≥ c.regsVx x) ∧
      (c'.regsVx 0xF = 0 ↔ c.regsVx y < c.regsVx x) ∧
      (x ≠ 0xF → (c'.regsVx x : Int) = ((c.regsVx y : Int) - c.regsVx x) % 256) ∧
      (x = 0xF → c'.regsVx x = if c.regsVx y ≥ c.regsVx x then 1 else 0)) := by
  obtain ⟨fx, fy, -, -⟩ := op8_fields x hx y hy 5 (by decide)
  obtain ⟨gx, gy, -, -⟩ := op8_fields x hx y hy 7 (by decide)
  constructor
  · refine ⟨_, chip8.exec_subtract c inp hx hy, ?_⟩
    simp only [chip8.subtractHandler, chip8.explain_regsVx, fx, fy, u8OfInt]
    refine ⟨?_, ?_, ?_, ?_⟩
    · split_ifs <;> simp_all [arraySet_apply]
    · split_ifs <;> simp_all [arraySet_apply]
    · intro hxf; split_ifs <;> simp_all [arraySet_apply] <;> omega
    · intro hxf
      split_ifs <;> simp_all [arraySet_apply]
      omega
  · refine ⟨_, chip8.exec_subtractNegative c inp hx hy, ?_⟩
    simp only [chip8.subtractNegativeHandler, chip8.explain_regsVx, gx, gy, u8OfInt]
    refine ⟨?_, ?_, ?_, ?_⟩
    · split_ifs <;> simp_all [arraySet_apply]
    · split_ifs <;> simp_all [arraySet_apply]
    · intro hxf; split_ifs <;> simp_all [arraySet_apply] <;> omega
    · intro hxf
      split_ifs <;> simp_all [arraySet_apply]
      omega

/-- Instances of `sub_flags`: `Vx = 0x05, Vy = 0x03` gives `Vx = 0x02`, `VF = 1`, and
`Vx = 0x01, Vy = 0x03` gives `Vx = 0xFE`, `VF = 0`. -/
theorem sub_flags_witness :
    (∃ c', chip8.executeInstruction (machineWith (regs2 0x05 0x03) zeros zeros 0) noInputs
        (op8 0 1 5) = .ok c' ∧ c'.regsVx 0 = 0x02 ∧ c'.regsVx 0xF = 1) ∧
    (∃ c', chip8.executeInstruction (machineWith (regs2 0x01 0x03) zeros zeros 0) noInputs
        (op8 0 1 5) = .ok c' ∧ c'.regsVx 0 = 0xFE ∧ c'.regsVx 0xF = 0) := by
  constructor
  · obtain ⟨⟨c', h, h1, -, hv, -⟩, -⟩ := sub_flags
      (machineWith (regs2 0x05 0x03) zeros zeros 0) noInputs 0 1 (by decide) (by decide)
    refine ⟨c', h, ?_, h1.2 (by decide)⟩
    have := hv (by decide)
    simp [machineWith, regs2] at this
    omega
  · obtain ⟨⟨c', h, -, h0, hv, -⟩, -⟩ := sub_flags
      (machineWith (regs2 0x01 0x03) zeros zeros 0) noInputs 0 1 (by decide) (by decide)
    refine ⟨c', h, ?_, h0.2 (by decide)⟩
    have := hv (by decide)
    simp [machineWith, regs2] at this
    omega

/-- C8. `8xy1`, `8xy2`, `8xy3` (OR, AND, XOR): for every `x`, `y` (also `0xF`) and
every prior value of `VF` the cycle succeeds and leaves `VF = 0`; when `x` is
not `0xF`, `Vx` holds the bitwise OR / AND / XOR of the old `Vx` and the old
`Vy` (byte values); no register other than `Vx` and `VF` changes. -/
theorem logic_ops_reset_flag (c : chip8) (inp : Inputs) (x y : Nat) (hx : x < 16)
    (hy : y < 16) :
    (∃ c', chip8.executeInstruction c inp (op8 x y 1) = .ok c' ∧ c'.regsVx 0xF = 0 ∧
      (x ≠ 0xF → c.regsVx x < 256 → c.regsVx y < 256 →
        c'.regsVx x = c.regsVx x ||| c.regsVx y) ∧
      (∀ i, i ≠ x → i ≠ 0xF → c'.regsVx i = c.regsVx i)) ∧
    (∃ c', chip8.executeInstruction c inp (op8 x y 2) = .ok c' ∧ c'.regsVx 0xF = 0 ∧
      (x ≠ 0xF → c.regsVx x < 256 → c.regsVx y < 256 →
        c'.regsVx x = c.regsVx x &&& c.regsVx y) ∧
      (∀ i, i ≠ x → i ≠ 0xF → c'.regsVx i = c.regsVx i)) ∧
    (∃ c', chip8.executeInstruction c inp (op8 x y 3) = .ok c' ∧ c'.regsVx 0xF = 0 ∧
      (x ≠ 0xF → c.regsVx x < 256 → c.regsVx y < 256 →
        c'.regsVx x = c.regsVx x ^^^ c.regsVx y) ∧
      (∀ i, i ≠ x → i ≠ 0xF → c'.regsVx i = c.regsVx i)) := by
  obtain ⟨f1x, f1y, -, -⟩ := op8_fields x hx y hy 1 (by decide)
  obtain ⟨f2x, f2y, -, -⟩ := op8_fields x hx y hy 2 (by decide)
  obtain ⟨f3x, f3y, -, -⟩ := op8_fields x hx y hy 3 (by decide)
  refine ⟨⟨_, chip8.exec_or c inp hx hy, ?_, ?_, ?_⟩, ⟨_, chip8.exec_and c inp hx hy, ?_, ?_, ?_⟩,
    ⟨_, chip8.exec_xor c inp hx hy, ?_, ?_, ?_⟩⟩
  · simp [chip8.orHandler, arraySet_apply]
  · intro hxf hbx hby
    simp [chip8.orHandler, arraySet_apply, f1x, f1y, hxf, or_byte hbx hby]
  · intro i hi hif
    simp [chip8.orHandler, arraySet_apply, f1x, hi, hif]
  · simp [chip8.andHandler, arraySet_apply]
  · intro hxf _ hby
    simp [chip8.andHandler, arraySet_apply, f2x, f2y, hxf, and_byte hby]
  · intro i hi hif
    simp [chip8.andHandler, arraySet_apply, f2x, hi, hif]
  · simp [chip8.xorHandler, arraySet_apply]
  · intro hxf hbx hby
    simp [chip8.xorHandler, arraySet_apply, f3x, f3y, hxf, xor_byte hbx hby]
  · intro i hi hif
    simp [chip8.xorHandler, arraySet_apply, f3x, hi, hif]

/-- Instance of `logic_ops_reset_flag` with `V0 = 0x0C`, `V1 = 0x0A` and a prior
`VF = 1`: OR gives `0x0E`, AND gives `0x08`, XOR gives `0x06`, each with `VF = 0`. -/
theorem logic_ops_reset_flag_witness :
    (∃ c', chip8.executeInstruction (machineWith (regs2F 0x0C 0x0A 1) zeros zeros 0) noInputs
        (op8 0 1 1) = .ok c' ∧ c'.regsVx 0xF = 0 ∧ c'.regsVx 0 = 0x0E) ∧
    (∃ c', chip8.executeInstruction (machineWith (regs2F 0x0C 0x0A 1) zeros zeros 0) noInputs
        (op8 0 1 2) = .ok c' ∧ c'.regsVx 0xF = 0 ∧ c'.regsVx 0 = 0x08) ∧
    (∃ c', chip8.executeInstruction (machineWith (regs2F 0x0C 0x0A 1) zeros zeros 0) noInputs
        (op8 0 1 3) = .ok c' ∧ c'.regsVx 0xF = 0 ∧ c'.regsVx 0 = 0x06) := by
  obtain ⟨⟨c1, h1, f1, v1, -⟩, ⟨c2, h2, f2, v2, -⟩, ⟨c3, h3, f3, v3, -⟩⟩ :=
    logic_ops_reset_flag (machineWith (regs2F 0x0C 0x0A 1) zeros zeros 0) noInputs 0 1
      (by decide) (by decide)
  exact ⟨⟨c1, h1, f1, (v1 (by decide) (by decide) (by decide)).trans (by decide)⟩,
    ⟨c2, h2, f2, (v2 (by decide) (by decide) (by decide)).trans (by decide)⟩,
    ⟨c3, h3, f3, (v3 (by decide) (by decide) (by decide)).trans (by decide)⟩⟩

/-- C9. `8xy6` (shift right) reads `Vy`, not `Vx`: for all `x`, `y` and a byte
value of `Vy` the cycle succeeds with `VF = (old Vy) & 1` and, when `x` is not
`0xF`, `Vx = (old Vy) >> 1`, whatever the old value of `Vx`; no register other
than `Vx` and `VF` changes. -/
theorem shift_right_reads_vy (c : chip8) (inp : Inputs) (x y : Nat) (hx : x < 16)
    (hy : y < 16) (hby : c.regsVx y < 256) :
    ∃ c', chip8.executeInstruction c inp (op8 x y 6) = .ok c' ∧
      c'.regsVx 0xF = c.regsVx y &&& 1 ∧
      (x ≠ 0xF → c'.regsVx x = c.regsVx y >>> 1) ∧
      (∀ i, i ≠ x → i ≠ 0xF → c'.regsVx i = c.regsVx i) := by
  obtain ⟨fx, fy, -, -⟩ := op8_fields x hx y hy 6 (by decide)
  have h1 : u8 (c.regsVx y % 2) = c.regsVx y % 2 := by
    unfold u8; omega
  have h2 : u8 (c.regsVx y >>> 1) = c.regsVx y >>> 1 := by
    rw [Nat.shiftRight_eq_div_pow]; unfold u8; omega
  refine ⟨_, chip8.exec_shiftRight c inp hx hy, ?_, ?_, ?_⟩
  · simp [chip8.shiftRightHandler, arraySet_apply, fy, h1]
  · intro hxf
    simp [chip8.shiftRightHandler, arraySet_apply, fx, fy, hxf, h2]
  · intro i hi hif
    simp [chip8.shiftRightHandler, arraySet_apply, fx, hi, hif]

/-- Instance of `shift_right_reads_vy`: `Vx = 0xFF`, `Vy = 0b00000011` gives
`Vx = 0b00000001`, `VF = 1`. -/
theorem shift_right_reads_vy_witness :
    ∃ c', chip8.executeInstruction (machineWith (regs2 0xFF 0b00000011) zeros zeros 0) noInputs
        (op8 0 1 6) = .ok c' ∧ c'.regsVx 0 = 0b00000001 ∧ c'.regsVx 0xF = 1 := by
  obtain ⟨c', h, hf, hv, -⟩ := shift_right_reads_vy
    (machineWith (regs2 0xFF 0b00000011) zeros zeros 0) noInputs 0 1
    (by decide) (by decide) (by decide)
  exact ⟨c', h, (hv (by decide)).trans (by decide), hf.trans (by decide)⟩

/-- C10. `8xyE` (shift left) reads `Vy`, with 8-bit wraparound: for all `x`, `y`
and a byte value of `Vy` the cycle succeeds with `VF` equal to bit 7 of the old
`Vy` (0 or 1) and, when `x` is not `0xF`, `Vx = (old Vy * 2) mod 256`, whatever
the old value of `Vx`; no register other than `Vx` and `VF` changes. -/
theorem shift_left_reads_vy (c : chip8) (inp : Inputs) (x y : Nat) (hx : x < 16)
    (hy : y < 16) (hby : c.regsVx y < 256) :
    ∃ c', chip8.executeInstruction c inp (op8 x y 0xE) = .ok c' ∧
      c'.regsVx 0xF = c.regsVx y / 128 ∧
      (c'.regsVx 0xF = 1 ↔ (c.regsVx y).testBit 7 = true) ∧
      (c'.regsVx 0xF = 0 ↔ (c.regsVx y).testBit 7 = false) ∧
      (x ≠ 0xF → c'.regsVx x = (c.regsVx y * 2) % 256) ∧
      (∀ i, i ≠ x → i ≠ 0xF → c'.regsVx i = c.regsVx i) := by
  obtain ⟨fx, fy, -, -⟩ := op8_fields x hx y hy 0xE (by decide)
  have h1 := high_bit_byte (c.regsVx y) hby
  have h2 : u8 (c.regsVx y <<< 1) = (c.regsVx y * 2) % 256 := by
    rw [Nat.shiftLeft_eq]; rfl
  have hvf : (chip8.shiftLeftHandler c (op8 x y 0xE)).regsVx 0xF = c.regsVx y / 128 := by
    simp [chip8.shiftLeftHandler, arraySet_apply, fy, h1]
  have hbit : (c.regsVx y).testBit 7 = decide (c.regsVx y / 128 % 2 = 1) :=
    Nat.testBit_to_div_mod
  refine ⟨_, chip8.exec_shiftLeft c inp hx hy, hvf, ?_, ?_, ?_, ?_⟩
  · rw [hvf, hbit]; simp; omega
  · rw [hvf, hbit]; simp; omega
  · intro hxf
    simp [chip8.shiftLeftHandler, arraySet_apply, fx, fy, hxf, h2]
  · intro i hi hif
    simp [chip8.shiftLeftHandler, arraySet_apply, fx, hi, hif]

/-- Instance of `shift_left_reads_vy`: `Vx = 0xFF`, `Vy = 0x81` gives `Vx = 0x02`,
`VF = 1`. -/
theorem shift_left_reads_vy_witness :
    ∃ c', chip8.executeInstruction (machineWith (regs2 0xFF 0x81) zeros zeros 0) noInputs
        (op8 0 1 0xE) = .ok c' ∧ c'.regsVx 0 = 0x02 ∧ c'.regsVx 0xF = 1 := by
  obtain ⟨c', h, hf, -, -, hv, -⟩ := shift_left_reads_vy
    (machineWith (regs2 0xFF 0x81) zeros zeros 0) noInputs 0 1
    (by decide) (by decide) (by decide)
  exact ⟨c', h, (hv (by decide)).trans (by decide), hf.trans (by decide)⟩

/-! ## Memory -/

/-- C14. Memory write/read round trip: for every address `a < 4096` and every
value `b` (in particular every byte), `writeAtPos(a, b)` succeeds, a following
`readAtPos(a)` returns `b`, and the write leaves the byte at every other
address unchanged (in the array and as read by `readAtPos`). -/
theorem write_read_roundtrip (m : ch8Memory) (a b : Nat) (ha : a < 4096) :
    ∃ m', m.writeAtPos a b = .ok m' ∧ m'.readAtPos a = .ok b ∧
      (∀ a', a' ≠ a → m'.memory a' = m.memory a') ∧
      (∀ a', a' ≠ a → m'.readAtPos a' = m.readAtPos a') := by
  have h : ¬ a > MEMORY_SIZE - 1 := by simp only [MEMORY_SIZE]; omega
  refine ⟨⟨arraySet m.memory a b⟩, by simp only [ch8Memory.writeAtPos, if_neg h], ?_, ?_, ?_⟩
  · simp only [ch8Memory.readAtPos, if_neg h, arraySet_apply, if_true]
  · intro a' ha'
    simp only [arraySet_apply, if_neg ha']
  · intro a' ha'
    simp only [ch8Memory.readAtPos, arraySet_apply, if_neg ha']

/-- Instance of `write_read_roundtrip`: writing `0xAB` at the last address `4095`
of an empty memory. -/
theorem write_read_roundtrip_witness :
    4095 < 4096 ∧
    ∃ m', (ch8Memory.mk zeros).writeAtPos 4095 0xAB = .ok m' ∧ m'.readAtPos 4095 = .ok 0xAB ∧
      m'.memory 4094 = 0 := by
  obtain ⟨m', h1, h2, h3, -⟩ := write_read_roundtrip (ch8Memory.mk zeros) 4095 0xAB (by decide)
  exact ⟨by decide, m', h1, h2, (h3 4094 (by decide)).trans rfl⟩

/-- C15. Memory bounds: for every address `a` (in particular every 16-bit one),
`writeAtPos(a, b)` fails if and only if `a >= 4096`, and then with the
write-out-of-range error; `readAtPos(a)` fails if and only if `a >= 4096`, and
then with the read-out-of-range error; a failing write leaves the memory
array as it was (`writeAtPosExit` gives the array at the `throw` and agrees
with `writeAtPos` on the outcome). -/
theorem memory_bounds (m : ch8Memory) (a b : Nat) :
    ((∃ e, m.writeAtPos a b = .error e) ↔ a ≥ 4096) ∧
    (m.writeAtPos a b = .error .writeOutsideMemory ↔ a ≥ 4096) ∧
    ((∃ e, m.readAtPos a = .error e) ↔ a ≥ 4096) ∧
    (m.readAtPos a = .error .readOutsideMemory ↔ a ≥ 4096) ∧
    (a ≥ 4096 → m.writeAtPosExit a b = (m, some .writeOutsideMemory)) ∧
    (m.writeAtPos a b =
      match m.writeAtPosExit a b with
      | (m', none) => .ok m'
      | (_, some e) => .error e) := by
  by_cases h : a > MEMORY_SIZE - 1
  · have h' : a ≥ 4096 := by simp only [MEMORY_SIZE] at h; omega
    simp only [ch8Memory.writeAtPos, ch8Memory.readAtPos, ch8Memory.writeAtPosExit, if_pos h]
    simp [h']
  · have h' : ¬ a ≥ 4096 := by simp only [MEMORY_SIZE] at h; omega
    simp only [ch8Memory.writeAtPos, ch8Memory.readAtPos, ch8Memory.writeAtPosExit, if_neg h]
    simp [h']

theorem shl8_or {x y : Nat} (hy : y < 256) : (x <<< 8) ||| y = x * 256 + y := by
  rw [Nat.shiftLeft_eq, Nat.mul_comm x (2 ^ 8)]
  exact (Nat.mul_add_lt_is_or (i := 8) hy x).symm

/-- C16. Instruction fetch is big-endian and bounds-checked: with byte-valued
memory, for every address `a <= 4094`, `readInstuctionAtPos(a)` returns
`memory[a] * 256 + memory[a + 1]`; for every `a >= 4095` it fails with the
instruction-out-of-range error (so address 4095 is rejected). -/
theorem fetch_big_endian (m : ch8Memory) (hbytes : ∀ i, m.memory i < 256) (a : Nat) :
    (a ≤ 4094 → m.readInstuctionAtPos a = .ok (m.memory a * 256 + m.memory (a + 1))) ∧
    (a ≥ 4095 → m.readInstuctionAtPos a = .error .readInstructionOutsideMemory) := by
  constructor
  · intro ha
    have h : ¬ a > MEMORY_SIZE - 2 := by simp only [MEMORY_SIZE]; omega
    have h1 := hbytes a
    have h2 := hbytes (a + 1)
    simp only [ch8Memory.readInstuctionAtPos, if_neg h, shl8_or h2, u16]
    rw [Nat.mod_eq_of_lt (by omega)]
  · intro ha
    have h : a > MEMORY_SIZE - 2 := by simp only [MEMORY_SIZE]; omega
    simp only [ch8Memory.readInstuctionAtPos, if_pos h]

/-- Instance of `fetch_big_endian`: the bytes `0x12, 0x34` at `0x200` are fetched
as `0x1234`, and a fetch at `4095` fails. -/
theorem fetch_big_endian_witness :
    (∀ i, (ch8Memory.mk (bytesAt200 0x12 0x34)).memory i < 256) ∧
    (ch8Memory.mk (bytesAt200 0x12 0x34)).readInstuctionAtPos 0x200 = .ok 0x1234 ∧
    (ch8Memory.mk (bytesAt200 0x12 0x34)).readInstuctionAtPos 4095
      = .error .readInstructionOutsideMemory := by
  have hb : ∀ i, (ch8Memory.mk (bytesAt200 0x12 0x34)).memory i < 256 := by
    intro i
    show (if i = 0x200 then 0x12 else if i = 0x201 then 0x34 else 0) < 256
    split_ifs <;> decide
  obtain ⟨h1, h2⟩ := fetch_big_endian _ hb 0x200
  obtain ⟨-, h3⟩ := fetch_big_endian _ hb 4095
  exact ⟨hb, (h1 (by decide)).trans rfl, h3 (by decide)⟩

/-! ## Control flow: jump, call, return -/

set_option maxRecDepth 100000 in
theorem op1_nibbles : ∀ a < 16, ∀ b < 16, ∀ d < 16,
    op1 (a * 256 + b * 16 + d) &&& 0xF000 = 0x1000 ∧
    op1 (a * 256 + b * 16 + d) &&& 0x0FFF = a * 256 + b * 16 + d := by decide

set_option maxRecDepth 100000 in
theorem op2_nibbles : ∀ a < 16, ∀ b < 16, ∀ d < 16,
    op2 (a * 256 + b * 16 + d) &&& 0xF000 = 0x2000 ∧
    op2 (a * 256 + b * 16 + d) &&& 0x0FFF = a * 256 + b * 16 + d := by decide

theorem nibbles_of_lt {n : Nat} (h : n < 4096) :
    n / 256 < 16 ∧ n / 16 % 16 < 16 ∧ n % 16 < 16 ∧
      n / 256 * 256 + n / 16 % 16 * 16 + n % 16 = n := by
  omega

theorem op1_fields {n : Nat} (h : n < 4096) :
    op1 n &&& 0xF000 = 0x1000 ∧ op1 n &&& 0x0FFF = n := by
  obtain ⟨h1, h2, h3, h4⟩ := nibbles_of_lt h
  have := op1_nibbles _ h1 _ h2 _ h3
  rwa [h4] at this

theorem op2_fields {n : Nat} (h : n < 4096) :
    op2 n &&& 0xF000 = 0x2000 ∧ op2 n &&& 0x0FFF = n := by
  obtain ⟨h1, h2, h3, h4⟩ := nibbles_of_lt h
  have := op2_nibbles _ h1 _ h2 _ h3
  rwa [h4] at this

namespace chip8

@[simp] theorem explain_regPC (c : chip8) (t : String) : (c.explain t).regPC = c.regPC := by
  unfold explain addNewExplanation; split <;> rfl

@[simp] theorem explain_regSP (c : chip8) (t : String) : (c.explain t).regSP = c.regSP := by
  unfold explain addNewExplanation; split <;> rfl

@[simp] theorem explain_stack (c : chip8) (t : String) : (c.explain t).stack = c.stack := by
  unfold explain addNewExplanation; split <;> rfl

@[simp] theorem explain_regDT (c : chip8) (t : String) : (c.explain t).regDT = c.regDT := by
  unfold explain addNewExplanation; split <;> rfl

@[simp] theorem explain_regST (c : chip8) (t : String) : (c.explain t).regST = c.regST := by
  unfold explain addNewExplanation; split <;> rfl

/-- The state handed to the handler by a cycle: the state at the start of the
cycle, with the fetched word recorded when explanations are enabled. -/
theorem recorded_eq (c : chip8) (w : Nat) :
    ∃ l, (if c.enableExplanations then c.updateLastInstructions w else c)
      = { c with lastInstructions := l } := by
  unfold updateLastInstructions
  split
  · exact ⟨_, rfl⟩
  · exact ⟨c.lastInstructions, rfl⟩

theorem jump_pc {nnn : Nat} (h : nnn < 4096) :
    u16 (u16OfInt ((nnn : Int) - INSTRUCTION_BYTES) + INSTRUCTION_BYTES) = nnn := by
  simp only [u16, u16OfInt, INSTRUCTION_BYTES]
  omega

end chip8

/-- C11. Jump lands on `nnn`: for every 12-bit address `nnn` (also `0` and `1`,
where `nnn - 2` wraps around in 16 bits), a cycle that fetches `1nnn` succeeds
and leaves `PC = nnn` exactly, so that the next fetch reads the instruction at
address `nnn`; registers, `I`, stack, stack pointer, timers, memory and
framebuffer are unchanged. -/
theorem jump_lands_on_target (c : chip8) (inp : Inputs) (nnn : Nat) (hnnn : nnn < 4096)
    (hfetch : c.memory.readInstuctionAtPos c.regPC = .ok (op1 nnn)) :
    ∃ c', chip8.cycle c inp = .ok c' ∧ c'.regPC = nnn ∧
      c'.memory.readInstuctionAtPos c'.regPC = c.memory.readInstuctionAtPos nnn ∧
      c'.regsVx = c.regsVx ∧ c'.regI = c.regI ∧ c'.stack = c.stack ∧ c'.regSP = c.regSP ∧
      c'.regDT = c.regDT ∧ c'.regST = c.regST ∧ c'.memory = c.memory ∧
      c'.display = c.display := by
  obtain ⟨h1, h2⟩ := op1_fields hnnn
  obtain ⟨l, hl⟩ := chip8.recorded_eq c (op1 nnn)
  simp only [chip8.cycle, hfetch, hl, chip8.executeInstruction, h1, if_true]
  refine ⟨_, rfl, ?_, ?_, ?_, ?_, ?_, ?_, ?_, ?_, ?_, ?_⟩
  · simp only [chip8.jumpHandler, chip8.explain_regPC, h2]
    exact chip8.jump_pc hnnn
  · simp only [chip8.jumpHandler, chip8.explain_regPC, chip8.explain_memory, h2,
      chip8.jump_pc hnnn]
  all_goals simp [chip8.jumpHandler]
namespace chip8

theorem fetch_le {m : ch8Memory} {a w : Nat} (h : m.readInstuctionAtPos a = .ok w) :
    a ≤ 4094 := by
  unfold ch8Memory.readInstuctionAtPos at h
  split_ifs at h with h1
  simp only [MEMORY_SIZE] at h1
  omega

/-- A cycle whose fetch succeeds: the handler runs on the state with the word
recorded in the history, then the program counter advances. -/
theorem cycle_of_fetch (c : chip8) (inp : Inputs) {w : Nat}
    (hfetch : c.memory.readInstuctionAtPos c.regPC = .ok w) :
    ∃ l, cycle c inp =
      match executeInstruction { c with lastInstructions := l } inp w with
      | .error e => .error e
      | .ok c2 => .ok { c2 with regPC := u16 (c2.regPC + INSTRUCTION_BYTES) } := by
  obtain ⟨l, hl⟩ := recorded_eq c w
  exact ⟨l, by simp only [cycle, hfetch, hl]⟩

theorem exec_jump (c : chip8) (inp : Inputs) {nnn : Nat} (hnnn : nnn < 4096) :
    executeInstruction c inp (op1 nnn) = .ok (jumpHandler c (op1 nnn)) := by
  simp [executeInstruction, (op1_fields hnnn).1]

theorem exec_call (c : chip8) (inp : Inputs) {nnn : Nat} (hnnn : nnn < 4096) :
    executeInstruction c inp (op2 nnn) = callHandler c (op2 nnn) := by
  simp [executeInstruction, (op2_fields hnnn).1]

theorem exec_return (c : chip8) (inp : Inputs) :
    executeInstruction c inp opReturn = returnHandler c := by
  have h0 : opReturn &&& 0xF000 = 0 := by decide
  have h1 : ¬ opReturn = 0x00E0 := by decide
  have h2 : opReturn = 0x00EE := rfl
  simp only [executeInstruction, h0, executeMatchFullInstruction, if_neg h1, if_pos h2]
  simp

/-- A cycle that fetches a call with room on the stack. -/
theorem cycle_call (c : chip8) (inp : Inputs) {nnn : Nat} (hnnn : nnn < 4096)
    (hsp : c.regSP < 16) (hfetch : c.memory.readInstuctionAtPos c.regPC = .ok (op2 nnn)) :
    ∃ c', cycle c inp = .ok c' ∧ c'.regPC = nnn ∧ c'.regSP = c.regSP + 1 ∧
      c'.stack = arraySet c.stack c.regSP c.regPC ∧ c'.memory = c.memory ∧
      c'.regsVx = c.regsVx ∧ c'.regI = c.regI ∧ c'.display = c.display ∧
      c'.regDT = c.regDT ∧ c'.regST = c.regST := by
  obtain ⟨l, hl⟩ := cycle_of_fetch c inp hfetch
  have hne : ¬ c.regSP = STACK_SIZE := by simp only [STACK_SIZE]; omega
  have hsp1 : u8 (c.regSP + 1) = c.regSP + 1 := Nat.mod_eq_of_lt (by omega)
  rw [hl, exec_call _ inp hnnn]
  simp only [callHandler, if_neg hne]
  refine ⟨_, rfl, ?_, ?_, ?_, ?_, ?_, ?_, ?_, ?_, ?_⟩
  · simp only [explain_regPC, (op2_fields hnnn).2]
    exact jump_pc hnnn
  all_goals simp [hsp1]

/-- A cycle that fetches a return with a non-empty stack. -/
theorem cycle_return (c : chip8) (inp : Inputs) (hsp0 : c.regSP ≠ 0) (hsp : c.regSP ≤ 16)
    (hfetch : c.memory.readInstuctionAtPos c.regPC = .ok opReturn) :
    ∃ c', cycle c inp = .ok c' ∧
      c'.regPC = u16 (c.stack (c.regSP - 1) + INSTRUCTION_BYTES) ∧
      c'.regSP = c.regSP - 1 ∧ c'.stack = c.stack ∧ c'.memory = c.memory ∧
      c'.regsVx = c.regsVx ∧ c'.regI = c.regI ∧ c'.display = c.display ∧
      c'.regDT = c.regDT ∧ c'.regST = c.regST := by
  obtain ⟨l, hl⟩ := cycle_of_fetch c inp hfetch
  have hsp1 : u8OfInt ((c.regSP : Int) - 1) = c.regSP - 1 := by
    simp only [u8OfInt]; omega
  rw [hl, exec_return]
  simp only [returnHandler, if_neg hsp0]
  refine ⟨_, rfl, ?_, ?_, ?_, ?_, ?_, ?_, ?_, ?_, ?_⟩
  all_goals simp [hsp1]

theorem cycle_call_overflow (c : chip8) (inp : Inputs) {nnn : Nat} (hnnn : nnn < 4096)
    (hsp : c.regSP = 16) (hfetch : c.memory.readInstuctionAtPos c.regPC = .ok (op2 nnn)) :
    cycle c inp = .error .stackOverflow := by
  obtain ⟨l, hl⟩ := cycle_of_fetch c inp hfetch
  have he : c.regSP = STACK_SIZE := hsp
  rw [hl, exec_call _ inp hnnn]
  simp only [callHandler, if_pos he]

theorem cycle_return_underflow (c : chip8) (inp : Inputs) (hsp : c.regSP = 0)
    (hfetch : c.memory.readInstuctionAtPos c.regPC = .ok opReturn) :
    cycle c inp = .error .stackUnderflow := by
  obtain ⟨l, hl⟩ := cycle_of_fetch c inp hfetch
  rw [hl, exec_return]
  simp only [returnHandler, if_pos hsp]

end chip8
namespace chip8

theorem runCycles_add (inp : Nat → Inputs) :
    ∀ (a b i : Nat) (c : chip8),
      runCycles inp (a + b) i c =
        match runCycles inp a i c with
        | .error e => .error e
        | .ok c1 => runCycles inp b (i + a) c1 := by
  intro a
  induction a with
  | zero => intro b i c; simp [runCycles]
  | succ a ih =>
    intro b i c
    have : a + 1 + b = (a + b) + 1 := by omega
    rw [this]
    simp only [runCycles]
    cases h : cycle c (inp i) with
    | error e => rfl
    | ok c1 =>
      simp only []
      rw [ih b (i + 1) c1]
      have : i + 1 + a = i + (a + 1) := by omega
      rw [this]

/-- `k` nested calls: the word at `t j` is a call to `t (j + 1)`. -/
theorem calls_chain (inp : Nat → Inputs) :
    ∀ (k i0 : Nat) (t : Nat → Nat) (c : chip8), c.regSP + k ≤ 16 →
      (∀ j, j ≤ k → t j < 4096) → c.regPC = t 0 →
      (∀ j, j < k → c.memory.readInstuctionAtPos (t j) = .ok (op2 (t (j + 1)))) →
      ∃ c', runCycles inp k i0 c = .ok c' ∧ c'.regPC = t k ∧ c'.regSP = c.regSP + k ∧
        c'.memory = c.memory ∧ (∀ j, j < k → c'.stack (c.regSP + j) = t j) ∧
        (∀ s, s < c.regSP → c'.stack s = c.stack s) := by
  intro k
  induction k with
  | zero =>
    intro i0 t c _ _ hpc _
    exact ⟨c, rfl, hpc, rfl, rfl, fun j hj => absurd hj (Nat.not_lt_zero j), fun _ _ => rfl⟩
  | succ k ih =>
    intro i0 t c hsp ht hpc hmem
    have hf : c.memory.readInstuctionAtPos c.regPC = .ok (op2 (t 1)) := by
      rw [hpc]; exact hmem 0 (by omega)
    obtain ⟨c1, h1, hpc1, hsp1, hst1, hm1, -⟩ :=
      cycle_call c (inp i0) (ht 1 (by omega)) (by omega) hf
    obtain ⟨c', h', hpc', hsp', hm', hst', hlow'⟩ := ih (i0 + 1) (fun j => t (j + 1)) c1
      (by omega) (fun j hj => ht (j + 1) (by omega)) hpc1
      (fun j hj => by rw [hm1]; exact hmem (j + 1) (by omega))
    refine ⟨c', by simp only [runCycles, h1, h'], hpc', by omega, by rw [hm', hm1], ?_, ?_⟩
    · intro j hj
      rcases Nat.eq_zero_or_pos j with h0 | h0
      · subst h0
        rw [Nat.add_zero, hlow' c.regSP (by omega), hst1, arraySet_apply, if_pos rfl, hpc]
      · have := hst' (j - 1) (by omega)
        have e1 : c1.regSP + (j - 1) = c.regSP + j := by omega
        have e2 : j - 1 + 1 = j := by omega
        rw [e1, e2] at this
        exact this
    · intro s hs
      rw [hlow' s (by omega), hst1, arraySet_apply, if_neg (by omega)]

/-- `k + 1` returns in a row: a return is found after each of the calls that
are returned to on the way; the program counter ends after the call whose
address is in the last slot popped. -/
theorem returns_chain (inp : Nat → Inputs) :
    ∀ (k i0 : Nat) (c : chip8), k + 1 ≤ c.regSP → c.regSP ≤ 16 →
      (∀ j, c.regSP - (k + 1) ≤ j → j < c.regSP → c.stack j ≤ 4094) →
      c.memory.readInstuctionAtPos c.regPC = .ok opReturn →
      (∀ j, c.regSP - (k + 1) < j → j < c.regSP →
        c.memory.readInstuctionAtPos (c.stack j + 2) = .ok opReturn) →
      ∃ c', runCycles inp (k + 1) i0 c = .ok c' ∧
        c'.regPC = c.stack (c.regSP - (k + 1)) + 2 ∧
        c'.regSP = c.regSP - (k + 1) ∧ c'.stack = c.stack ∧ c'.memory = c.memory := by
  intro k
  induction k with
  | zero =>
    intro i0 c hk hsp ht hf _
    obtain ⟨c1, h1, hpc1, hsp1, hst1, hm1, -⟩ := cycle_return c (inp i0) (by omega) hsp hf
    refine ⟨c1, by simp only [runCycles, h1], ?_, hsp1, hst1, hm1⟩
    have := ht (c.regSP - 1) (by omega) (by omega)
    have e0 : c.regSP - (0 + 1) = c.regSP - 1 := by omega
    rw [hpc1, e0]
    simp only [u16, INSTRUCTION_BYTES]
    omega
  | succ k ih =>
    intro i0 c hk hsp ht hf hret
    obtain ⟨c1, h1, hpc1, hsp1, hst1, hm1, -⟩ := cycle_return c (inp i0) (by omega) hsp hf
    have hpc1' : c1.regPC = c.stack (c.regSP - 1) + 2 := by
      have := ht (c.regSP - 1) (by omega) (by omega)
      rw [hpc1]
      simp only [u16, INSTRUCTION_BYTES]
      omega
    obtain ⟨c', h', hpc', hsp', hst', hm'⟩ := ih (i0 + 1) c1 (by omega) (by omega)
      (fun j hj1 hj2 => by rw [hst1]; exact ht j (by omega) (by omega))
      (by rw [hpc1', hm1]; exact hret (c.regSP - 1) (by omega) (by omega))
      (fun j h1 h2 => by rw [hm1, hst1]; exact hret j (by omega) (by omega))
    refine ⟨c', ?_, ?_, by omega, by rw [hst', hst1], by rw [hm', hm1]⟩
    · rw [runCycles, h1]
      exact h'
    · rw [hpc', hst1]
      have : c1.regSP - (k + 1) = c.regSP - (k + 1 + 1) := by omega
      rw [this]

end chip8
/-- Instances of `jump_lands_on_target` for the targets `0` and `1`, where the
handler sets the program counter to `0xFFFE` and `0xFFFF` before the
increment. -/
theorem jump_lands_on_target_witness :
    (∃ c', chip8.cycle (machineWith zeros (bytesAt200 0x10 0x00) zeros 0) noInputs = .ok c' ∧
      c'.regPC = 0) ∧
    (∃ c', chip8.cycle (machineWith zeros (bytesAt200 0x10 0x01) zeros 0) noInputs = .ok c' ∧
      c'.regPC = 1) := by
  obtain ⟨c0, h0, p0, -⟩ := jump_lands_on_target (machineWith zeros (bytesAt200 0x10 0x00) zeros 0)
    noInputs 0 (by decide) rfl
  obtain ⟨c1, h1, p1, -⟩ := jump_lands_on_target (machineWith zeros (bytesAt200 0x10 0x01) zeros 0)
    noInputs 1 (by decide) rfl
  exact ⟨⟨c0, h0, p0⟩, ⟨c1, h1, p1⟩⟩

/-- C12. Stack limits.  From an empty stack (`SP = 0`), in a program whose next
16 fetched words are calls (the word at `t j` calls `t (j + 1)`), the first
`k <= 16` cycles all succeed and leave `SP = k`, so 16 calls leave `SP = 16`;
if the next word is a call too, the 17th cycle fails with the stack-overflow
error.  In any state with `SP = 16` a call cycle fails with stack overflow,
and in any state with `SP = 0` a return cycle fails with stack underflow; in
both cases the handler throws before any assignment, so the engine state,
with `PC`, `SP` and the stack, is what it was (`callHandlerExit`,
`returnHandlerExit` give the state at the `throw` and agree with the handlers
on the outcome). -/
theorem stack_limits (c : chip8) (inp : Nat → Inputs) (t : Nat → Nat) (hsp : c.regSP = 0)
    (hpc : c.regPC = t 0) (ht : ∀ j, j ≤ 16 → t j < 4096)
    (hcalls : ∀ j, j < 16 → c.memory.readInstuctionAtPos (t j) = .ok (op2 (t (j + 1)))) :
    (∀ k, k ≤ 16 → ∃ c', chip8.runCycles inp k 0 c = .ok c' ∧ c'.regSP = k ∧ c'.regPC = t k) ∧
    (∀ nnn, nnn < 4096 → c.memory.readInstuctionAtPos (t 16) = .ok (op2 nnn) →
      chip8.runCycles inp 17 0 c = .error .stackOverflow) ∧
    (∀ (s : chip8) (i : Inputs) (nnn : Nat), nnn < 4096 → s.regSP = 16 →
      s.memory.readInstuctionAtPos s.regPC = .ok (op2 nnn) →
      chip8.cycle s i = .error .stackOverflow) ∧
    (∀ (s : chip8) (i : Inputs), s.regSP = 0 →
      s.memory.readInstuctionAtPos s.regPC = .ok opReturn →
      chip8.cycle s i = .error .stackUnderflow) ∧
    (∀ (s : chip8) (w : Nat), s.regSP = 16 →
      s.callHandler w = .error .stackOverflow ∧
      s.callHandlerExit w = (s, some .stackOverflow)) ∧
    (∀ (s : chip8), s.regSP = 0 →
      s.returnHandler = .error .stackUnderflow ∧
      s.returnHandlerExit = (s, some .stackUnderflow)) ∧
    (∀ (s : chip8) (w : Nat),
      s.callHandler w = match s.callHandlerExit w with
        | (s', none) => .ok s'
        | (_, some e) => .error e) ∧
    (∀ (s : chip8),
      s.returnHandler = match s.returnHandlerExit with
        | (s', none) => .ok s'
        | (_, some e) => .error e) := by
  have hchain : ∀ k, k ≤ 16 → ∃ c', chip8.runCycles inp k 0 c = .ok c' ∧ c'.regSP = k ∧
      c'.regPC = t k ∧ c'.memory = c.memory := by
    intro k hk
    obtain ⟨c', h, hp, hs, hm, -⟩ := chip8.calls_chain inp k 0 t c (by omega)
      (fun j hj => ht j (by omega)) hpc (fun j hj => hcalls j (by omega))
    exact ⟨c', h, by omega, hp, hm⟩
  refine ⟨?_, ?_, ?_, ?_, ?_, ?_, ?_, ?_⟩
  · intro k hk
    obtain ⟨c', h, hs, hp, -⟩ := hchain k hk
    exact ⟨c', h, hs, hp⟩
  · intro nnn hnnn hf
    obtain ⟨c', h, hs, hp, hm⟩ := hchain 16 (Nat.le_refl _)
    have := chip8.runCycles_add inp 16 1 0 c
    rw [h] at this
    simp only [Nat.reduceAdd] at this
    rw [this]
    simp only [chip8.runCycles]
    rw [chip8.cycle_call_overflow c' (inp (0 + 16)) hnnn hs (by rw [hp, hm]; exact hf)]
  · intro s i nnn hnnn hs hf
    exact chip8.cycle_call_overflow s i hnnn hs hf
  · intro s i hs hf
    exact chip8.cycle_return_underflow s i hs hf
  · intro s w hs
    have he : s.regSP = STACK_SIZE := hs
    exact ⟨by simp only [chip8.callHandler, if_pos he],
      by simp only [chip8.callHandlerExit, if_pos he]⟩
  · intro s hs
    exact ⟨by simp only [chip8.returnHandler, if_pos hs],
      by simp only [chip8.returnHandlerExit, if_pos hs]⟩
  · intro s w
    unfold chip8.callHandler chip8.callHandlerExit
    split <;> rfl
  · intro s
    unfold chip8.returnHandler chip8.returnHandlerExit
    split <;> rfl

/-- Instance of `stack_limits`: the program `0x200: call 0x200` started with an
empty stack; 16 calls succeed and leave `SP = 16`, the 17th fails with stack
overflow, and a return on the empty stack fails with stack underflow. -/
theorem stack_limits_witness :
    (machineWith zeros (bytesAt200 0x22 0x00) zeros 0).regSP = 0 ∧
    (∃ c', chip8.runCycles (fun _ => noInputs) 16 0
        (machineWith zeros (bytesAt200 0x22 0x00) zeros 0) = .ok c' ∧ c'.regSP = 16) ∧
    chip8.runCycles (fun _ => noInputs) 17 0 (machineWith zeros (bytesAt200 0x22 0x00) zeros 0)
      = .error .stackOverflow ∧
    chip8.cycle (machineWith zeros (bytesAt200 0x00 0xEE) zeros 0) noInputs
      = .error .stackUnderflow := by
  have f0 : (machineWith zeros (bytesAt200 0x22 0x00) zeros 0).memory.readInstuctionAtPos 0x200
      = .ok (op2 0x200) := rfl
  have hf : ∀ j, j < 16 → (machineWith zeros (bytesAt200 0x22 0x00) zeros 0).memory.readInstuctionAtPos
      ((fun _ => 0x200) j) = .ok (op2 ((fun _ => 0x200) (j + 1))) := fun _ _ => f0
  obtain ⟨h16, h17, -, hunder, -⟩ := stack_limits
    (machineWith zeros (bytesAt200 0x22 0x00) zeros 0) (fun _ => noInputs) (fun _ => 0x200)
    rfl rfl (fun _ _ => (by decide : (0x200 : Nat) < 4096)) hf
  obtain ⟨c', h, hs, -⟩ := h16 16 (Nat.le_refl _)
  exact ⟨rfl, ⟨c', h, hs⟩, h17 0x200 (by decide) rfl,
    hunder (machineWith zeros (bytesAt200 0x00 0xEE) zeros 0) noInputs rfl rfl⟩
/-- C13. Call and return are a LIFO pair.  In a state with `SP < 16`, a cycle that
fetches `2nnn` at address `a = PC` succeeds and leaves `PC = nnn` and `SP + 1`;
a later return cycle at that stack depth (stack pointer `SP + 1`, slot `SP`
still holding what the call stored) leaves `PC = a + 2`, the instruction after
the call, and the stack pointer at its pre-call value.  For `k` nested calls
(the word at `t j` calls `t (j + 1)`, `t 0 = a`) followed by returns, the
`r`-th return lands on `t (k - r) + 2`: the return addresses come back in the
reverse order of the calls. -/
theorem call_return_lifo (c : chip8) (inp : Inputs) (nnn : Nat) (hnnn : nnn < 4096)
    (hsp : c.regSP < 16) (hfetch : c.memory.readInstuctionAtPos c.regPC = .ok (op2 nnn)) :
    (∃ c1, chip8.cycle c inp = .ok c1 ∧ c1.regPC = nnn ∧ c1.regSP = c.regSP + 1 ∧
      ∀ (c2 : chip8) (inp2 : Inputs), c2.regSP = c1.regSP →
        c2.stack c.regSP = c1.stack c.regSP →
        c2.memory.readInstuctionAtPos c2.regPC = .ok opReturn →
        ∃ c3, chip8.cycle c2 inp2 = .ok c3 ∧ c3.regPC = c.regPC + 2 ∧ c3.regSP = c.regSP) ∧
    (∀ (inps : Nat → Inputs) (t : Nat → Nat) (k : Nat), 1 ≤ k → c.regSP + k ≤ 16 →
      c.regPC = t 0 → (∀ j, j ≤ k → t j < 4096) →
      (∀ j, j < k → c.memory.readInstuctionAtPos (t j) = .ok (op2 (t (j + 1)))) →
      c.memory.readInstuctionAtPos (t k) = .ok opReturn →
      (∀ j, 1 ≤ j → j < k → c.memory.readInstuctionAtPos (t j + 2) = .ok opReturn) →
      ∀ r, 1 ≤ r → r ≤ k →
        ∃ c', chip8.runCycles inps (k + r) 0 c = .ok c' ∧ c'.regPC = t (k - r) + 2 ∧
          c'.regSP = c.regSP + k - r) := by
  constructor
  · obtain ⟨c1, h1, hpc1, hsp1, hst1, -⟩ := chip8.cycle_call c inp hnnn hsp hfetch
    refine ⟨c1, h1, hpc1, hsp1, ?_⟩
    intro c2 inp2 hsp2 hst2 hf2
    obtain ⟨c3, h3, hpc3, hsp3, -⟩ := chip8.cycle_return c2 inp2 (by omega) (by omega) hf2
    refine ⟨c3, h3, ?_, by omega⟩
    have ha := chip8.fetch_le hfetch
    have e : c2.regSP - 1 = c.regSP := by omega
    rw [hpc3, e, hst2, hst1, arraySet_apply, if_pos rfl]
    simp only [u16, INSTRUCTION_BYTES]
    omega
  · intro inps t k hk hroom hpc ht hcalls hret hrets r hr1 hrk
    obtain ⟨ck, h, hp, hs, hm, hst, -⟩ := chip8.calls_chain inps k 0 t c hroom ht hpc hcalls
    have hstk : ∀ j, c.regSP + k - r ≤ j → j < c.regSP + k → ck.stack j = t (j - c.regSP) := by
      intro j h1 h2
      have := hst (j - c.regSP) (by omega)
      have e : c.regSP + (j - c.regSP) = j := by omega
      rwa [e] at this
    obtain ⟨c', h', hp', hs', -⟩ := chip8.returns_chain inps (r - 1) (0 + k) ck (by omega)
      (by omega)
      (fun j h1 h2 => by
        rw [hstk j (by omega) (by omega)]
        exact chip8.fetch_le (hcalls (j - c.regSP) (by omega)))
      (by rw [hp, hm]; exact hret)
      (fun j h1 h2 => by
        rw [hstk j (by omega) (by omega), hm]
        exact hrets (j - c.regSP) (by omega) (by omega))
    have e1 : r - 1 + 1 = r := by omega
    rw [e1] at h' hp' hs'
    refine ⟨c', ?_, ?_, by omega⟩
    · rw [chip8.runCycles_add inps k r 0 c, h]
      exact h'
    · have e2 : ck.regSP - r = c.regSP + k - r := by omega
      have e3 : c.regSP + k - r - c.regSP = k - r := by omega
      rw [hp', e2, hstk _ (Nat.le_refl _) (by omega), e3]

/-- Instance of `call_return_lifo`: the program `0x200: call 0x204`,
`0x204: return`; after the call `PC = 0x204`, `SP = 1`, and after the return
`PC = 0x202`, `SP = 0`. -/
theorem call_return_lifo_witness :
    (machineWith zeros callReturnProgram zeros 0).regSP < 16 ∧
    (machineWith zeros callReturnProgram zeros 0).memory.readInstuctionAtPos 0x200
      = .ok (op2 0x204) ∧
    (∃ c1, chip8.cycle (machineWith zeros callReturnProgram zeros 0) noInputs = .ok c1 ∧
      c1.regPC = 0x204 ∧ c1.regSP = 1) ∧
    (∃ c', chip8.runCycles (fun _ => noInputs) 2 0 (machineWith zeros callReturnProgram zeros 0)
      = .ok c' ∧ c'.regPC = 0x202 ∧ c'.regSP = 0) := by
  obtain ⟨⟨c1, h1, hp1, hs1, -⟩, hnest⟩ := call_return_lifo
    (machineWith zeros callReturnProgram zeros 0) noInputs 0x204 (by decide) (by decide) rfl
  have f1 : (machineWith zeros callReturnProgram zeros 0).memory.readInstuctionAtPos 0x204
      = .ok opReturn := rfl
  obtain ⟨c', h', hp', hs'⟩ := hnest (fun _ => noInputs)
    (fun j => if j = 0 then 0x200 else 0x204) 1 (by decide) (by decide) rfl
    (fun j _ => by show (if j = 0 then 0x200 else 0x204) < 4096; split <;> decide)
    (fun j hj => by
      have : j = 0 := by omega
      subst this
      rfl)
    f1 (fun j h1 h2 => by omega) 1 (by decide) (by decide)
  exact ⟨by decide, rfl, ⟨c1, h1, hp1, hs1⟩, ⟨c', h', hp', hs'⟩⟩

/-! ## ROM loading -/

namespace chip8

theorem loadROMLoop_ok :
    ∀ (r : List Nat) (position : Nat) (m : ch8Memory), position + r.length ≤ 4096 →
      ∃ m', loadROMLoop r position m = .ok m' ∧
        (∀ i, i < r.length → m'.memory (position + i) = u8 (r.getD i 0)) ∧
        (∀ a, a < position ∨ position + r.length ≤ a → m'.memory a = m.memory a) := by
  intro r
  induction r with
  | nil =>
    intro position m _
    exact ⟨m, rfl, fun i hi => absurd hi (Nat.not_lt_zero i), fun _ _ => rfl⟩
  | cons b rest ih =>
    intro position m hlen
    simp only [List.length_cons] at hlen
    have hw : ¬ position > MEMORY_SIZE - 1 := by simp only [MEMORY_SIZE]; omega
    have h16 : u16 (position + 1) = position + 1 := Nat.mod_eq_of_lt (by omega)
    obtain ⟨m', h', hin, hout⟩ := ih (position + 1) ⟨arraySet m.memory position (u8 b)⟩
      (by omega)
    refine ⟨m', by simp only [loadROMLoop, ch8Memory.writeAtPos, if_neg hw, h16, h'], ?_, ?_⟩
    · intro i hi
      simp only [List.length_cons] at hi
      rcases Nat.eq_zero_or_pos i with h0 | h0
      · subst h0
        rw [Nat.add_zero, hout position (Or.inl (by omega))]
        show arraySet m.memory position (u8 b) position = _
        rw [arraySet_apply, if_pos rfl]
        rfl
      · obtain ⟨j, rfl⟩ : ∃ j, i = j + 1 := ⟨i - 1, by omega⟩
        have := hin j (by omega)
        have e : position + 1 + j = position + (j + 1) := by omega
        rw [e] at this
        rw [this, List.getD_cons_succ]
    · intro a ha
      simp only [List.length_cons] at ha
      rw [hout a (by omega)]
      show arraySet m.memory position (u8 b) a = _
      rw [arraySet_apply, if_neg (by omega)]

theorem loadROMLoop_fail :
    ∀ (r : List Nat) (position : Nat) (m : ch8Memory), position ≤ 4096 →
      4096 < position + r.length → loadROMLoop r position m = .error .writeOutsideMemory := by
  intro r
  induction r with
  | nil =>
    intro position m h1 h2
    simp only [List.length_nil] at h2
    omega
  | cons b rest ih =>
    intro position m h1 h2
    simp only [List.length_cons] at h2
    by_cases hw : position > MEMORY_SIZE - 1
    · simp only [loadROMLoop, ch8Memory.writeAtPos, if_pos hw]
    · have hp : position < 4096 := by simp only [MEMORY_SIZE] at hw; omega
      have h16 : u16 (position + 1) = position + 1 := Nat.mod_eq_of_lt (by omega)
      simp only [loadROMLoop, ch8Memory.writeAtPos, if_neg hw, h16]
      exact ih (position + 1) _ (by omega) (by omega)

theorem loadROMLoop_append :
    ∀ (xs ys : List Nat) (position : Nat) (m : ch8Memory), position + xs.length < 65536 →
      loadROMLoop (xs ++ ys) position m =
        match loadROMLoop xs position m with
        | .error e => .error e
        | .ok m1 => loadROMLoop ys (position + xs.length) m1 := by
  intro xs
  induction xs with
  | nil => intro ys position m _; simp [loadROMLoop]
  | cons b rest ih =>
    intro ys position m h
    simp only [List.length_cons] at h
    have h16 : u16 (position + 1) = position + 1 := Nat.mod_eq_of_lt (by omega)
    simp only [List.cons_append, loadROMLoop, h16]
    cases hw : m.writeAtPos position (u8 b) with
    | error e => rfl
    | ok m1 =>
      simp only []
      have e : position + (b :: rest).length = position + 1 + rest.length := by
        simp only [List.length_cons]; omega
      rw [e]
      exact ih ys (position + 1) m1 (by omega)

end chip8

/-- C17. ROM placement: for every byte sequence `r` of length at most 3584
(`= 4096 - 0x200`), loading `r` succeeds and leaves `memory[0x200 + i] = r[i]`
for every `i < |r|` and every other address, the font area below `0x200`
included, unchanged; nothing but the memory changes. -/
theorem rom_placement (c : chip8) (r : List Nat) (hlen : r.length ≤ 3584)
    (hbytes : ∀ i, i < r.length → r.getD i 0 < 256) :
    ∃ c', chip8.loadROM c r = .ok c' ∧
      (∀ i, i < r.length → c'.memory.memory (0x200 + i) = r.getD i 0) ∧
      (∀ a, a < 0x200 ∨ 0x200 + r.length ≤ a → c'.memory.memory a = c.memory.memory a) ∧
      c'.regPC = c.regPC ∧ c'.regI = c.regI ∧ c'.regsVx = c.regsVx ∧ c'.regSP = c.regSP ∧
      c'.stack = c.stack ∧ c'.display = c.display := by
  obtain ⟨m', h, hin, hout⟩ := chip8.loadROMLoop_ok r PC_START_ADDRESS c.memory
    (by simp only [PC_START_ADDRESS]; omega)
  refine ⟨{ c with memory := m' }, by simp only [chip8.loadROM, h], ?_, hout, rfl, rfl, rfl, rfl,
    rfl, rfl⟩
  intro i hi
  rw [hin i hi]
  exact Nat.mod_eq_of_lt (hbytes i hi)

/-- Instance of `rom_placement`: after loading `[0x12, 0x34]` into an empty
memory, the instruction fetched at `0x200` is `0x1234`. -/
theorem rom_placement_witness :
    [0x12, 0x34].length ≤ 3584 ∧
    ∃ c', chip8.loadROM (machineWith zeros zeros zeros 0) [0x12, 0x34] = .ok c' ∧
      c'.memory.memory 0x200 = 0x12 ∧ c'.memory.memory 0x201 = 0x34 ∧
      c'.memory.readInstuctionAtPos 0x200 = .ok 0x1234 := by
  obtain ⟨c', h, hin, -⟩ := rom_placement (machineWith zeros zeros zeros 0) [0x12, 0x34]
    (by decide) (by decide)
  have h0 : c'.memory.memory 0x200 = 0x12 := hin 0 (by decide)
  have h1 : c'.memory.memory 0x201 = 0x34 := hin 1 (by decide)
  refine ⟨by decide, c', h, h0, h1, ?_⟩
  have hle : ¬ (0x200 : Nat) > MEMORY_SIZE - 2 := by decide
  simp only [ch8Memory.readInstuctionAtPos, if_neg hle, h0, h1]
  rfl

/-- C18. An oversized ROM is rejected: for every byte sequence `r`, loading `r`
fails if and only if `|r| > 3584`, and then with the memory write-bounds
error.  The failure is raised by the write to address 4096: the first 3584
bytes are stored at `0x200 .. 0xFFF`, the loop then runs on the remaining
bytes from position 4096, where `writeAtPos` throws; nothing is written
below `0x200` and the load does not end successfully with a shortened ROM. -/
theorem oversized_rom_rejected (c : chip8) (r : List Nat) :
    ((∃ e, chip8.loadROM c r = .error e) ↔ r.length > 3584) ∧
    (chip8.loadROM c r = .error .writeOutsideMemory ↔ r.length > 3584) ∧
    (r.length > 3584 →
      ∃ m', chip8.loadROMLoop (r.take 3584) PC_START_ADDRESS c.memory = .ok m' ∧
        chip8.loadROMLoop r PC_START_ADDRESS c.memory
          = chip8.loadROMLoop (r.drop 3584) 4096 m' ∧
        (∀ b, m'.writeAtPos 4096 b = .error .writeOutsideMemory) ∧
        (∀ a, a < 0x200 → m'.memory a = c.memory.memory a)) := by
  have hfail : r.length > 3584 → chip8.loadROM c r = .error .writeOutsideMemory := by
    intro h
    simp only [chip8.loadROM, chip8.loadROMLoop_fail r PC_START_ADDRESS c.memory (by decide)
      (by simp only [PC_START_ADDRESS]; omega)]
  have hok : ¬ r.length > 3584 → ∃ c', chip8.loadROM c r = .ok c' := by
    intro h
    obtain ⟨m', h', -⟩ := chip8.loadROMLoop_ok r PC_START_ADDRESS c.memory
      (by simp only [PC_START_ADDRESS]; omega)
    exact ⟨{ c with memory := m' }, by simp only [chip8.loadROM, h']⟩
  refine ⟨⟨?_, fun h => ⟨_, hfail h⟩⟩, ⟨?_, hfail⟩, ?_⟩
  · rintro ⟨e, he⟩
    by_contra h
    obtain ⟨c', hc'⟩ := hok h
    rw [hc'] at he
    exact absurd he (by simp)
  · intro he
    by_contra h
    obtain ⟨c', hc'⟩ := hok h
    rw [hc'] at he
    exact absurd he (by simp)
  · intro h
    have hlen : (r.take 3584).length = 3584 := by
      rw [List.length_take]; omega
    obtain ⟨m', h', -, hout⟩ := chip8.loadROMLoop_ok (r.take 3584) PC_START_ADDRESS c.memory
      (by rw [hlen])
    refine ⟨m', h', ?_, ?_, ?_⟩
    · have := chip8.loadROMLoop_append (r.take 3584) (r.drop 3584) PC_START_ADDRESS c.memory
        (by rw [hlen]; decide)
      rw [List.take_append_drop, h', hlen] at this
      exact this
    · intro b
      have hw : (4096 : Nat) > MEMORY_SIZE - 1 := by decide
      simp only [ch8Memory.writeAtPos, if_pos hw]
    · intro a ha
      exact hout a (Or.inl ha)

/-! ## Block store and load (`Fx55`, `Fx65`) -/

set_option maxRecDepth 100000 in
theorem opF_store_fields : ∀ x < 16,
    fieldX (opF x 0x55) = x ∧ opF x 0x55 &&& 0xF000 = 0xF000 ∧
      opF x 0x55 &&& 0xF0FF = 0xF055 := by decide

set_option maxRecDepth 100000 in
theorem opF_load_fields : ∀ x < 16,
    fieldX (opF x 0x65) = x ∧ opF x 0x65 &&& 0xF000 = 0xF000 ∧
      opF x 0x65 &&& 0xF0FF = 0xF065 := by decide

namespace chip8

theorem exec_storeRegs (c : chip8) (inp : Inputs) {x : Nat} (hx : x < 16) :
    executeInstruction c inp (opF x 0x55) = storeRegsToMemoryHandler c (opF x 0x55) := by
  obtain ⟨-, h1, h2⟩ := opF_store_fields x hx
  simp [executeInstruction, executeMatchLastTwoInstruction, h1, h2]

theorem exec_loadRegs (c : chip8) (inp : Inputs) {x : Nat} (hx : x < 16) :
    executeInstruction c inp (opF x 0x65) = loadRegsFromMemoryHandler c (opF x 0x65) := by
  obtain ⟨-, h1, h2⟩ := opF_load_fields x hx
  simp [executeInstruction, executeMatchLastTwoInstruction, h1, h2]

theorem storeRegsLoop_ok (regI : Nat) (regs : Nat → Nat) :
    ∀ (k i : Nat) (m : ch8Memory), regI + i + k ≤ 4096 →
      ∃ m', storeRegsLoop regI regs k i m = .ok m' ∧
        (∀ j, i ≤ j → j < i + k → m'.memory (regI + j) = regs j) ∧
        (∀ a, a < regI + i ∨ regI + i + k ≤ a → m'.memory a = m.memory a) := by
  intro k
  induction k with
  | zero =>
    intro i m _
    exact ⟨m, rfl, fun j h1 h2 => by omega, fun _ _ => rfl⟩
  | succ k ih =>
    intro i m h
    have ha : u16 (regI + i) = regI + i := Nat.mod_eq_of_lt (by omega)
    have hi : u16 (i + 1) = i + 1 := Nat.mod_eq_of_lt (by omega)
    have hw : ¬ regI + i > MEMORY_SIZE - 1 := by simp only [MEMORY_SIZE]; omega
    obtain ⟨m', h', hin, hout⟩ := ih (i + 1) ⟨arraySet m.memory (regI + i) (regs i)⟩ (by omega)
    refine ⟨m', by simp only [storeRegsLoop, ha, hi, ch8Memory.writeAtPos, if_neg hw, h'], ?_, ?_⟩
    · intro j h1 h2
      by_cases hj : j = i
      · subst hj
        rw [hout (regI + j) (Or.inl (by omega))]
        show arraySet m.memory (regI + j) (regs j) (regI + j) = _
        rw [arraySet_apply, if_pos rfl]
      · exact hin j (by omega) (by omega)
    · intro a ha'
      rw [hout a (by omega)]
      show arraySet m.memory (regI + i) (regs i) a = _
      rw [arraySet_apply, if_neg (by omega)]

theorem loadRegsLoop_ok (regI : Nat) (m : ch8Memory) :
    ∀ (k i : Nat) (regs : Nat → Nat), regI + i + k ≤ 4096 →
      ∃ regs', loadRegsLoop regI m k i regs = .ok regs' ∧
        (∀ j, i ≤ j → j < i + k → regs' j = m.memory (regI + j)) ∧
        (∀ j, j < i ∨ i + k ≤ j → regs' j = regs j) := by
  intro k
  induction k with
  | zero =>
    intro i regs _
    exact ⟨regs, rfl, fun j h1 h2 => by omega, fun _ _ => rfl⟩
  | succ k ih =>
    intro i regs h
    have ha : u16 (regI + i) = regI + i := Nat.mod_eq_of_lt (by omega)
    have hi : u16 (i + 1) = i + 1 := Nat.mod_eq_of_lt (by omega)
    have hw : ¬ regI + i > MEMORY_SIZE - 1 := by simp only [MEMORY_SIZE]; omega
    obtain ⟨regs', h', hin, hout⟩ := ih (i + 1) (arraySet regs i (m.memory (regI + i)))
      (by omega)
    refine ⟨regs', by simp only [loadRegsLoop, ha, hi, ch8Memory.readAtPos, if_neg hw, h'],
      ?_, ?_⟩
    · intro j h1 h2
      by_cases hj : j = i
      · subst hj
        rw [hout j (Or.inl (by omega)), arraySet_apply, if_pos rfl]
      · exact hin j (by omega) (by omega)
    · intro j hj
      rw [hout j (by omega), arraySet_apply, if_neg (by omega)]

/-- A block store that succeeds wrote its first byte at `I` itself. -/
theorem storeRegs_ok_le {c c' : chip8} {w : Nat} (hI : c.regI < 65536)
    (h : storeRegsToMemoryHandler c w = .ok c') : c.regI ≤ 4095 := by
  unfold storeRegsToMemoryHandler at h
  simp only [storeRegsLoop, ch8Memory.writeAtPos, Nat.add_zero] at h
  have h16 : u16 c.regI = c.regI := Nat.mod_eq_of_lt hI
  rw [h16] at h
  by_contra hgt
  have hw : c.regI > MEMORY_SIZE - 1 := by simp only [MEMORY_SIZE]; omega
  simp only [if_pos hw] at h
  exact absurd h (by simp)

/-- A block load that succeeds read its first byte at `I` itself. -/
theorem loadRegs_ok_le {c c' : chip8} {w : Nat} (hI : c.regI < 65536)
    (h : loadRegsFromMemoryHandler c w = .ok c') : c.regI ≤ 4095 := by
  unfold loadRegsFromMemoryHandler at h
  simp only [loadRegsLoop, ch8Memory.readAtPos, Nat.add_zero] at h
  have h16 : u16 c.regI = c.regI := Nat.mod_eq_of_lt hI
  rw [h16] at h
  by_contra hgt
  have hw : c.regI > MEMORY_SIZE - 1 := by simp only [MEMORY_SIZE]; omega
  simp only [if_pos hw] at h
  exact absurd h (by simp)

theorem storeRegs_regI {c c' : chip8} {w : Nat} (h : storeRegsToMemoryHandler c w = .ok c') :
    c'.regI = u16 (c.regI + 1) := by
  unfold storeRegsToMemoryHandler at h
  split at h
  · exact absurd h (by simp)
  · simp only [Except.ok.injEq] at h
    subst h
    simp

theorem loadRegs_regI {c c' : chip8} {w : Nat} (h : loadRegsFromMemoryHandler c w = .ok c') :
    c'.regI = u16 (c.regI + 1) := by
  unfold loadRegsFromMemoryHandler at h
  split at h
  · exact absurd h (by simp)
  · simp only [Except.ok.injEq] at h
    subst h
    simp

end chip8
namespace chip8

/-- A block store inside memory (`I + x <= 4095`): outcome and effect. -/
theorem storeRegs_spec (c : chip8) {x : Nat} (hx : x < 16) (hI : c.regI + x ≤ 4095) :
    ∃ c', storeRegsToMemoryHandler c (opF x 0x55) = .ok c' ∧ c'.regI = c.regI + 1 ∧
      (∀ i, i ≤ x → c'.memory.memory (c.regI + i) = c.regsVx i) ∧
      (∀ a, a < c.regI ∨ c.regI + x < a → c'.memory.memory a = c.memory.memory a) ∧
      c'.regsVx = c.regsVx := by
  obtain ⟨fx, -, -⟩ := opF_store_fields x hx
  obtain ⟨m', h', hin, hout⟩ := storeRegsLoop_ok c.regI c.regsVx (x + 1) 0 c.memory (by omega)
  have h16 : u16 (c.regI + 1) = c.regI + 1 := Nat.mod_eq_of_lt (by omega)
  have hres : storeRegsToMemoryHandler c (opF x 0x55) =
      .ok (explain { c with memory := m', regI := u16 (c.regI + 1) }
        ("Store registers V0 through V" ++ hexStr x ++ " in memory starting at location I")) := by
    simp only [storeRegsToMemoryHandler, fx, h']
  refine ⟨_, hres, ?_, ?_, ?_, ?_⟩
  · simp [h16]
  · intro i hi
    simp only [explain_memory]
    exact hin i (Nat.zero_le _) (by omega)
  · intro a ha
    simp only [explain_memory]
    exact hout a (by omega)
  · simp

/-- A block load inside memory (`I + x <= 4095`): outcome and effect. -/
theorem loadRegs_spec (c : chip8) {x : Nat} (hx : x < 16) (hI : c.regI + x ≤ 4095) :
    ∃ c', loadRegsFromMemoryHandler c (opF x 0x65) = .ok c' ∧ c'.regI = c.regI + 1 ∧
      (∀ i, i ≤ x → c'.regsVx i = c.memory.memory (c.regI + i)) ∧
      (∀ i, x < i → c'.regsVx i = c.regsVx i) ∧ c'.memory = c.memory := by
  obtain ⟨fx, -, -⟩ := opF_load_fields x hx
  obtain ⟨regs', h', hin, hout⟩ := loadRegsLoop_ok c.regI c.memory (x + 1) 0 c.regsVx (by omega)
  have h16 : u16 (c.regI + 1) = c.regI + 1 := Nat.mod_eq_of_lt (by omega)
  have hres : loadRegsFromMemoryHandler c (opF x 0x65) =
      .ok (explain { c with regsVx := regs', regI := u16 (c.regI + 1) }
        ("Read registers V0 through V" ++ hexStr x ++ " from memory starting at location I")) := by
    simp only [loadRegsFromMemoryHandler, fx, h']
  refine ⟨_, hres, ?_, ?_, ?_, ?_⟩
  · simp [h16]
  · intro i hi
    simp only [explain_regsVx]
    exact hin i (Nat.zero_le _) (by omega)
  · intro i hi
    simp only [explain_regsVx]
    exact hout i (by omega)
  · simp

end chip8

/-- C19. Block store and block load increment `I` by exactly 1: for every `x` in
`0..15` and every `I` with `I + x <= 4095`, `Fx55` and `Fx65` succeed and each
leaves `I = old I + 1`, whatever `x` is; and whenever `Fx55` or `Fx65` succeeds
from a 16-bit `I`, the new `I` is `old I + 1`. -/
theorem block_transfer_increments_I (c : chip8) (inp : Inputs) (x : Nat) (hx : x < 16) :
    (c.regI + x ≤ 4095 →
      (∃ c', chip8.executeInstruction c inp (opF x 0x55) = .ok c' ∧ c'.regI = c.regI + 1) ∧
      (∃ c', chip8.executeInstruction c inp (opF x 0x65) = .ok c' ∧ c'.regI = c.regI + 1)) ∧
    (∀ c', c.regI < 65536 → chip8.executeInstruction c inp (opF x 0x55) = .ok c' →
      c'.regI = c.regI + 1) ∧
    (∀ c', c.regI < 65536 → chip8.executeInstruction c inp (opF x 0x65) = .ok c' →
      c'.regI = c.regI + 1) := by
  refine ⟨fun hI => ⟨?_, ?_⟩, ?_, ?_⟩
  · obtain ⟨c', h, hi, -⟩ := chip8.storeRegs_spec c hx hI
    exact ⟨c', by rw [chip8.exec_storeRegs c inp hx, h], hi⟩
  · obtain ⟨c', h, hi, -⟩ := chip8.loadRegs_spec c hx hI
    exact ⟨c', by rw [chip8.exec_loadRegs c inp hx, h], hi⟩
  · intro c' h16 h
    rw [chip8.exec_storeRegs c inp hx] at h
    have := chip8.storeRegs_ok_le h16 h
    rw [chip8.storeRegs_regI h]
    exact Nat.mod_eq_of_lt (by omega)
  · intro c' h16 h
    rw [chip8.exec_loadRegs c inp hx] at h
    have := chip8.loadRegs_ok_le h16 h
    rw [chip8.loadRegs_regI h]
    exact Nat.mod_eq_of_lt (by omega)

/-- Instance of `block_transfer_increments_I`: `F355` and `F365` with `I = 0x300`
both leave `I = 0x301` (not `0x304`, not `0x300`). -/
theorem block_transfer_increments_I_witness :
    (∃ c', chip8.executeInstruction (machineWith (regs2 0x11 0x22) zeros zeros 0x300) noInputs
        (opF 3 0x55) = .ok c' ∧ c'.regI = 0x301) ∧
    (∃ c', chip8.executeInstruction (machineWith (regs2 0x11 0x22) zeros zeros 0x300) noInputs
        (opF 3 0x65) = .ok c' ∧ c'.regI = 0x301) := by
  obtain ⟨h, -, -⟩ := block_transfer_increments_I
    (machineWith (regs2 0x11 0x22) zeros zeros 0x300) noInputs 3 (by decide)
  exact h (by decide)

/-- C20. Block store and block load transfer exactly `V0..Vx`, inclusive.  With
`I + x <= 4095` (`I` the value before the instruction), `Fx55` succeeds, sets
`memory[I + i] = Vi` for every `0 <= i <= x`, and changes no other memory byte
and no register; `Fx65` succeeds, sets `Vi = memory[I + i]` for every
`0 <= i <= x`, and changes no register with index above `x` and no memory
byte. -/
theorem block_transfer_exact (c : chip8) (inp : Inputs) (x : Nat) (hx : x < 16)
    (hI : c.regI + x ≤ 4095) :
    (∃ c', chip8.executeInstruction c inp (opF x 0x55) = .ok c' ∧
      (∀ i, i ≤ x → c'.memory.memory (c.regI + i) = c.regsVx i) ∧
      (∀ a, a < c.regI ∨ c.regI + x < a → c'.memory.memory a = c.memory.memory a) ∧
      c'.regsVx = c.regsVx) ∧
    (∃ c', chip8.executeInstruction c inp (opF x 0x65) = .ok c' ∧
      (∀ i, i ≤ x → c'.regsVx i = c.memory.memory (c.regI + i)) ∧
      (∀ i, x < i → c'.regsVx i = c.regsVx i) ∧
      c'.memory = c.memory) := by
  constructor
  · obtain ⟨c', h, -, h1, h2, h3⟩ := chip8.storeRegs_spec c hx hI
    exact ⟨c', by rw [chip8.exec_storeRegs c inp hx, h], h1, h2, h3⟩
  · obtain ⟨c', h, -, h1, h2, h3⟩ := chip8.loadRegs_spec c hx hI
    exact ⟨c', by rw [chip8.exec_loadRegs c inp hx, h], h1, h2, h3⟩

/-- Instance of `block_transfer_exact`: `F155` with `V0 = 0x11`, `V1 = 0x22`,
`I = 0x300` stores `0x11, 0x22` at `0x300, 0x301` and leaves `0x302` alone;
`F065` on the sprite memory loads `V0 = 0xAB` and leaves `V1 = 0x22`. -/
theorem block_transfer_exact_witness :
    (∃ c', chip8.executeInstruction (machineWith (regs2 0x11 0x22) zeros zeros 0x300) noInputs
        (opF 1 0x55) = .ok c' ∧ c'.memory.memory 0x300 = 0x11 ∧ c'.memory.memory 0x301 = 0x22 ∧
        c'.memory.memory 0x302 = 0) ∧
    (∃ c', chip8.executeInstruction
        (machineWith (regs2 0x11 0x22) (spriteAt300 0xAB 0xCD 0 0) zeros 0x300) noInputs
        (opF 0 0x65) = .ok c' ∧ c'.regsVx 0 = 0xAB ∧ c'.regsVx 1 = 0x22) := by
  obtain ⟨⟨c1, h1, hm, hout, -⟩, -⟩ := block_transfer_exact
    (machineWith (regs2 0x11 0x22) zeros zeros 0x300) noInputs 1 (by decide) (by decide)
  obtain ⟨-, ⟨c2, h2, hr, hkeep, -⟩⟩ := block_transfer_exact
    (machineWith (regs2 0x11 0x22) (spriteAt300 0xAB 0xCD 0 0) zeros 0x300) noInputs 0
    (by decide) (by decide)
  exact ⟨⟨c1, h1, hm 0 (by decide), hm 1 (by decide), hout 0x302 (Or.inr (by decide))⟩,
    ⟨c2, h2, hr 0 (by decide), hkeep 1 (by decide)⟩⟩

/-! ## Frames and timers -/

namespace chip8

theorem emulateOneFrame_of_run {c c1 : chip8} {inp : Nat → Inputs} {IPC : Nat}
    (h : runCycles inp IPC 0 c = .ok c1) :
    emulateOneFrame c inp IPC = .ok (tickTimers c1) := by
  simp only [emulateOneFrame, h]

theorem u8_pred {d : Nat} (h0 : d ≠ 0) (h : d < 256) : u8OfInt ((d : Int) - 1) = d - 1 := by
  simp only [u8OfInt]
  omega

end chip8

/-- C23. Timers tick exactly once per frame: for every number `IPC` of
instructions per frame (in particular every `IPC >= 1`) and every state in
which the frame's instructions succeed, `emulateOneFrame(IPC)` succeeds and
leaves the delay countdown equal to `d - 1` if `d > 0` and to `0` if `d = 0`,
where `d` is its (byte) value after the frame's last instruction, and
likewise for the tone-trigger countdown; the tick changes nothing else, so
it happens once, after the instructions, and never wraps from 0 to 255. -/
theorem timers_tick_once (c : chip8) (inp : Nat → Inputs) (IPC : Nat) (c1 : chip8)
    (hrun : chip8.runCycles inp IPC 0 c = .ok c1) (hdt : c1.regDT < 256)
    (hst : c1.regST < 256) :
    ∃ c' b, chip8.emulateOneFrame c inp IPC = .ok (c', b) ∧
      c'.regDT = (if c1.regDT > 0 then c1.regDT - 1 else 0) ∧
      c'.regST = (if c1.regST > 0 then c1.regST - 1 else 0) ∧
      c'.regPC = c1.regPC ∧ c'.regI = c1.regI ∧ c'.regsVx = c1.regsVx ∧
      c'.regSP = c1.regSP ∧ c'.stack = c1.stack ∧ c'.memory = c1.memory ∧
      c'.display = c1.display := by
  refine ⟨(chip8.tickTimers c1).1, (chip8.tickTimers c1).2,
    chip8.emulateOneFrame_of_run hrun, ?_⟩
  unfold chip8.tickTimers
  by_cases h1 : c1.regDT = 0 <;> by_cases h2 : c1.regST = 0
  · simp [h1, h2]
  · simp [h1, h2, chip8.u8_pred h2 hst, Nat.pos_of_ne_zero h2]
  · simp [h1, h2, chip8.u8_pred h1 hdt, Nat.pos_of_ne_zero h1]
  · simp [h1, h2, chip8.u8_pred h1 hdt, chip8.u8_pred h2 hst, Nat.pos_of_ne_zero h1,
      Nat.pos_of_ne_zero h2]

/-- Instance of `timers_tick_once`: a frame of 14 instructions, and a frame of one
instruction, both take the delay countdown from 5 to 4 and leave the
tone-trigger countdown at 0. -/
theorem timers_tick_once_witness :
    (∃ c' b, chip8.emulateOneFrame (timerMachine 5 0) (fun _ => noInputs) 14 = .ok (c', b) ∧
      c'.regDT = 4 ∧ c'.regST = 0) ∧
    (∃ c' b, chip8.emulateOneFrame (timerMachine 5 0) (fun _ => noInputs) 1 = .ok (c', b) ∧
      c'.regDT = 4 ∧ c'.regST = 0) := by
  constructor
  · obtain ⟨c', b, h, hd, hs, -⟩ := timers_tick_once (timerMachine 5 0) (fun _ => noInputs) 14 _
      rfl (by decide) (by decide)
    exact ⟨c', b, h, hd.trans (by decide), hs.trans (by decide)⟩
  · obtain ⟨c', b, h, hd, hs, -⟩ := timers_tick_once (timerMachine 5 0) (fun _ => noInputs) 1 _
      rfl (by decide) (by decide)
    exact ⟨c', b, h, hd.trans (by decide), hs.trans (by decide)⟩

/-- C24. The tone-stop signal fires exactly on the 1-to-0 frame: when the frame's
instructions have succeeded, `emulateOneFrame` calls `stopBuzzer` if and only
if the tone-trigger countdown (a byte) equals 1 when the timer tick begins,
never when it is already 0 or stays non-zero after the tick; it calls
`updateBuzzer` (tone playing) if and only if the countdown was non-zero when
the tick began. -/
theorem tone_stop_on_last_frame (c : chip8) (inp : Nat → Inputs) (IPC : Nat) (c1 : chip8)
    (hrun : chip8.runCycles inp IPC 0 c = .ok c1) (hst : c1.regST < 256) :
    ∃ c' b, chip8.emulateOneFrame c inp IPC = .ok (c', b) ∧
      (b.stopBuzzer = true ↔ c1.regST = 1) ∧
      (b.updateBuzzer = true ↔ c1.regST ≠ 0) ∧
      (c1.regST = 0 → b.stopBuzzer = false) ∧
      (c'.regST ≠ 0 → b.stopBuzzer = false) := by
  refine ⟨(chip8.tickTimers c1).1, (chip8.tickTimers c1).2,
    chip8.emulateOneFrame_of_run hrun, ?_⟩
  unfold chip8.tickTimers
  by_cases h2 : c1.regST = 0
  · simp [h2]
  · simp only [ne_eq, h2, not_false_eq_true, if_true, chip8.u8_pred h2 hst]
    simp only [decide_eq_true_eq, decide_eq_false_iff_not, not_true_eq_false, false_implies,
      true_and, true_iff]
    omega

/-- Instance of `tone_stop_on_last_frame`: with the countdown at 1 the frame calls
`updateBuzzer` and `stopBuzzer`; at 2 it calls `updateBuzzer` only; at 0 it
calls neither. -/
theorem tone_stop_on_last_frame_witness :
    (∃ c', chip8.emulateOneFrame (timerMachine 0 1) (fun _ => noInputs) 3
      = .ok (c', ⟨true, true⟩)) ∧
    (∃ c', chip8.emulateOneFrame (timerMachine 0 2) (fun _ => noInputs) 3
      = .ok (c', ⟨true, false⟩)) ∧
    (∃ c', chip8.emulateOneFrame (timerMachine 0 0) (fun _ => noInputs) 3
      = .ok (c', ⟨false, false⟩)) := by
  refine ⟨?_, ?_, ?_⟩
  · obtain ⟨c', b, h, hs, hu, -⟩ := tone_stop_on_last_frame (timerMachine 0 1)
      (fun _ => noInputs) 3 _ rfl (by decide)
    have e : b = ⟨true, true⟩ := by
      cases b
      simp only [chip8.BuzzerCalls.mk.injEq]
      exact ⟨hu.2 (by decide), hs.2 (by decide)⟩
    exact ⟨c', by rw [h, e]⟩
  · obtain ⟨c', b, h, hs, hu, -⟩ := tone_stop_on_last_frame (timerMachine 0 2)
      (fun _ => noInputs) 3 _ rfl (by decide)
    have e : b = ⟨true, false⟩ := by
      cases hb : b with
      | mk u s =>
        rw [hb] at hs hu
        simp only [chip8.BuzzerCalls.mk.injEq]
        refine ⟨hu.2 (by decide), ?_⟩
        cases s
        · rfl
        · exact absurd (hs.1 rfl) (by decide)
    exact ⟨c', by rw [h, e]⟩
  · obtain ⟨c', b, h, hs, hu, -⟩ := tone_stop_on_last_frame (timerMachine 0 0)
      (fun _ => noInputs) 3 _ rfl (by decide)
    have e : b = ⟨false, false⟩ := by
      cases hb : b with
      | mk u s =>
        rw [hb] at hs hu
        simp only [chip8.BuzzerCalls.mk.injEq]
        constructor
        · cases u
          · rfl
          · exact absurd rfl (hu.1 rfl)
        · cases s
          · rfl
          · exact absurd (hs.1 rfl) (by decide)
    exact ⟨c', by rw [h, e]⟩

/-! ## Skips, key wait, digit sprite, BCD -/

set_option maxRecDepth 100000 in
theorem op3_nibbles : ∀ x < 16, ∀ a < 16, ∀ b < 16,
    fieldX (op3 x (a * 16 + b)) = x ∧ op3 x (a * 16 + b) &&& 0xF000 = 0x3000 ∧
      op3 x (a * 16 + b) &&& 0x00FF = a * 16 + b := by decide

set_option maxRecDepth 100000 in
theorem op4_nibbles : ∀ x < 16, ∀ a < 16, ∀ b < 16,
    fieldX (op4 x (a * 16 + b)) = x ∧ op4 x (a * 16 + b) &&& 0xF000 = 0x4000 ∧
      op4 x (a * 16 + b) &&& 0x00FF = a * 16 + b := by decide

theorem byte_nibbles {n : Nat} (h : n < 256) : n / 16 < 16 ∧ n % 16 < 16 ∧ n / 16 * 16 + n % 16 = n := by
  omega

theorem op3_fields {x nn : Nat} (hx : x < 16) (hnn : nn < 256) :
    fieldX (op3 x nn) = x ∧ op3 x nn &&& 0xF000 = 0x3000 ∧ op3 x nn &&& 0x00FF = nn := by
  obtain ⟨h1, h2, h3⟩ := byte_nibbles hnn
  have := op3_nibbles x hx _ h1 _ h2
  rwa [h3] at this

theorem op4_fields {x nn : Nat} (hx : x < 16) (hnn : nn < 256) :
    fieldX (op4 x nn) = x ∧ op4 x nn &&& 0xF000 = 0x4000 ∧ op4 x nn &&& 0x00FF = nn := by
  obtain ⟨h1, h2, h3⟩ := byte_nibbles hnn
  have := op4_nibbles x hx _ h1 _ h2
  rwa [h3] at this

set_option maxRecDepth 100000 in
theorem op5_fields : ∀ x < 16, ∀ y < 16,
    fieldX (op5 x y) = x ∧ fieldY (op5 x y) = y ∧ op5 x y &&& 0xF000 = 0x5000 ∧
      op5 x y &&& 0xF00F = 0x5000 := by decide

set_option maxRecDepth 100000 in
theorem op9_fields : ∀ x < 16, ∀ y < 16,
    fieldX (op9 x y) = x ∧ fieldY (op9 x y) = y ∧ op9 x y &&& 0xF000 = 0x9000 ∧
      op9 x y &&& 0xF00F = 0x9000 := by decide

namespace chip8

theorem exec_skipIfEqual (c : chip8) (inp : Inputs) {x nn : Nat} (hx : x < 16) (hnn : nn < 256) :
    executeInstruction c inp (op3 x nn) = .ok (skipIfEqualHandler c (op3 x nn)) := by
  simp [executeInstruction, (op3_fields hx hnn).2.1]

theorem exec_skipIfNotEqual (c : chip8) (inp : Inputs) {x nn : Nat} (hx : x < 16)
    (hnn : nn < 256) :
    executeInstruction c inp (op4 x nn) = .ok (skipIfNotEqualHandler c (op4 x nn)) := by
  simp [executeInstruction, (op4_fields hx hnn).2.1]

theorem exec_skipIfRegsEqual (c : chip8) (inp : Inputs) {x y : Nat} (hx : x < 16) (hy : y < 16) :
    executeInstruction c inp (op5 x y) = .ok (skipIfRegsEqualHandler c (op5 x y)) := by
  obtain ⟨-, -, h1, h2⟩ := op5_fields x hx y hy
  simp [executeInstruction, executeMatchLastOneInstruction, h1, h2]

theorem exec_skipIfRegsNotEqual (c : chip8) (inp : Inputs) {x y : Nat} (hx : x < 16)
    (hy : y < 16) :
    executeInstruction c inp (op9 x y) = .ok (skipIfRegsNotEqualHandler c (op9 x y)) := by
  obtain ⟨-, -, h1, h2⟩ := op9_fields x hx y hy
  simp [executeInstruction, executeMatchLastOneInstruction, h1, h2]

/-- A cycle whose handler is a conditional skip: the program counter advances
by 4 when the condition holds and by 2 otherwise, nothing else of the
machine changes. -/
theorem cycle_skip (c : chip8) (inp : Inputs) {w : Nat} (cond : Prop) [Decidable cond] (t : String)
    (hfetch : c.memory.readInstuctionAtPos c.regPC = .ok w)
    (hexec : ∀ l, executeInstruction { c with lastInstructions := l } inp w =
      .ok (explain (if cond then { c with lastInstructions := l,
                                          regPC := u16 (c.regPC + INSTRUCTION_BYTES) }
                    else { c with lastInstructions := l }) t)) :
    ∃ c', cycle c inp = .ok c' ∧ c'.regPC = (if cond then c.regPC + 4 else c.regPC + 2) ∧
      c'.regsVx = c.regsVx ∧ c'.regI = c.regI ∧ c'.regSP = c.regSP ∧ c'.stack = c.stack ∧
      c'.memory = c.memory ∧ c'.display = c.display ∧ c'.regDT = c.regDT ∧
      c'.regST = c.regST := by
  obtain ⟨l, hl⟩ := cycle_of_fetch c inp hfetch
  have hpc := fetch_le hfetch
  rw [hl, hexec]
  refine ⟨_, rfl, ?_, ?_⟩
  · simp only [explain_regPC]
    by_cases hc : cond
    · simp only [if_pos hc, u16, INSTRUCTION_BYTES]
      omega
    · simp only [if_neg hc, u16, INSTRUCTION_BYTES]
      omega
  · by_cases hc : cond <;> simp [hc]

end chip8

/-- C27. Skip instructions skip exactly one instruction: a cycle that fetches
`3xnn`, `4xnn`, `5xy0` or `9xy0` succeeds and leaves `PC = old PC + 4` when the
condition holds (`Vx = nn`, `Vx ≠ nn`, `Vx = Vy`, `Vx ≠ Vy` respectively) and
`PC = old PC + 2` otherwise; registers, `I`, stack pointer, stack, memory,
framebuffer and timers are unchanged. -/
theorem skips_skip_one (c : chip8) (inp : Inputs) (x y nn w : Nat) (hx : x < 16) (hy : y < 16)
    (hnn : nn < 256) (hfetch : c.memory.readInstuctionAtPos c.regPC = .ok w) :
    (w = op3 x nn → ∃ c', chip8.cycle c inp = .ok c' ∧
        c'.regPC = (if c.regsVx x = nn then c.regPC + 4 else c.regPC + 2) ∧
        c'.regsVx = c.regsVx ∧ c'.regI = c.regI ∧ c'.regSP = c.regSP ∧ c'.stack = c.stack ∧
        c'.memory = c.memory ∧ c'.display = c.display ∧ c'.regDT = c.regDT ∧
        c'.regST = c.regST) ∧
    (w = op4 x nn → ∃ c', chip8.cycle c inp = .ok c' ∧
        c'.regPC = (if c.regsVx x ≠ nn then c.regPC + 4 else c.regPC + 2) ∧
        c'.regsVx = c.regsVx ∧ c'.regI = c.regI ∧ c'.regSP = c.regSP ∧ c'.stack = c.stack ∧
        c'.memory = c.memory ∧ c'.display = c.display ∧ c'.regDT = c.regDT ∧
        c'.regST = c.regST) ∧
    (w = op5 x y → ∃ c', chip8.cycle c inp = .ok c' ∧
        c'.regPC = (if c.regsVx x = c.regsVx y then c.regPC + 4 else c.regPC + 2) ∧
        c'.regsVx = c.regsVx ∧ c'.regI = c.regI ∧ c'.regSP = c.regSP ∧ c'.stack = c.stack ∧
        c'.memory = c.memory ∧ c'.display = c.display ∧ c'.regDT = c.regDT ∧
        c'.regST = c.regST) ∧
    (w = op9 x y → ∃ c', chip8.cycle c inp = .ok c' ∧
        c'.regPC = (if c.regsVx x ≠ c.regsVx y then c.regPC + 4 else c.regPC + 2) ∧
        c'.regsVx = c.regsVx ∧ c'.regI = c.regI ∧ c'.regSP = c.regSP ∧ c'.stack = c.stack ∧
        c'.memory = c.memory ∧ c'.display = c.display ∧ c'.regDT = c.regDT ∧
        c'.regST = c.regST) := by
  refine ⟨?_, ?_, ?_, ?_⟩ <;> intro hw <;> subst hw
  · obtain ⟨f1, -, f2⟩ := op3_fields hx hnn
    exact chip8.cycle_skip c inp (c.regsVx x = nn) _ hfetch (fun l => by
      rw [chip8.exec_skipIfEqual _ inp hx hnn]
      simp only [chip8.skipIfEqualHandler, f1, f2]
      rfl)
  · obtain ⟨f1, -, f2⟩ := op4_fields hx hnn
    exact chip8.cycle_skip c inp (c.regsVx x ≠ nn) _ hfetch (fun l => by
      rw [chip8.exec_skipIfNotEqual _ inp hx hnn]
      simp only [chip8.skipIfNotEqualHandler, f1, f2]
      rfl)
  · obtain ⟨f1, f2, -, -⟩ := op5_fields x hx y hy
    exact chip8.cycle_skip c inp (c.regsVx x = c.regsVx y) _ hfetch (fun l => by
      rw [chip8.exec_skipIfRegsEqual _ inp hx hy]
      simp only [chip8.skipIfRegsEqualHandler, f1, f2]
      rfl)
  · obtain ⟨f1, f2, -, -⟩ := op9_fields x hx y hy
    exact chip8.cycle_skip c inp (c.regsVx x ≠ c.regsVx y) _ hfetch (fun l => by
      rw [chip8.exec_skipIfRegsNotEqual _ inp hx hy]
      simp only [chip8.skipIfRegsNotEqualHandler, f1, f2]
      rfl)

/-- Instance of `skips_skip_one`: with `V0 = 7`, `V1 = 9` the word `3007` at
`0x200` skips (`PC = 0x204`) and the word `5010` does not (`PC = 0x202`). -/
theorem skips_skip_one_witness :
    (∃ c', chip8.cycle (machineWith (regs2 7 9) (bytesAt200 0x30 0x07) zeros 0) noInputs = .ok c' ∧
      c'.regPC = 0x204) ∧
    (∃ c', chip8.cycle (machineWith (regs2 7 9) (bytesAt200 0x50 0x10) zeros 0) noInputs = .ok c' ∧
      c'.regPC = 0x202) := by
  constructor
  · obtain ⟨c', h, hpc, -⟩ := (skips_skip_one (machineWith (regs2 7 9) (bytesAt200 0x30 0x07) zeros 0)
      noInputs 0 0 7 (op3 0 7) (by decide) (by decide) (by decide) rfl).1 rfl
    exact ⟨c', h, hpc⟩
  · obtain ⟨c', h, hpc, -⟩ := (skips_skip_one (machineWith (regs2 7 9) (bytesAt200 0x50 0x10) zeros 0)
      noInputs 0 1 0 (op5 0 1) (by decide) (by decide) (by decide) rfl).2.2.1 rfl
    exact ⟨c', h, hpc⟩

set_option maxRecDepth 100000 in
theorem opF_key_fields : ∀ x < 16,
    fieldX (opF x 0x0A) = x ∧ opF x 0x0A &&& 0xF000 = 0xF000 ∧
      opF x 0x0A &&& 0xF0FF = 0xF00A := by decide

set_option maxRecDepth 100000 in
theorem opF_digit_fields : ∀ x < 16,
    fieldX (opF x 0x29) = x ∧ opF x 0x29 &&& 0xF000 = 0xF000 ∧
      opF x 0x29 &&& 0xF0FF = 0xF029 := by decide

set_option maxRecDepth 100000 in
theorem opF_bcd_fields : ∀ x < 16,
    fieldX (opF x 0x33) = x ∧ opF x 0x33 &&& 0xF000 = 0xF000 ∧
      opF x 0x33 &&& 0xF0FF = 0xF033 := by decide

/-- The first element of `s, s + 1, ..., s + n - 1` that satisfies `p`. -/
theorem find_range_first (p : Nat → Bool) :
    ∀ (n s k : Nat), s ≤ k → k < s + n → p k = true → (∀ j, s ≤ j → j < k → p j = false) →
      (List.range' s n).find? p = some k := by
  intro n
  induction n with
  | zero => intro s k h1 h2; omega
  | succ n ih =>
    intro s k h1 h2 hk hlow
    rw [List.range'_succ, List.find?_cons]
    by_cases hs : s = k
    · subst hs
      rw [hk]
    · rw [hlow s (Nat.le_refl _) (by omega)]
      exact ih (s + 1) k (by omega) (by omega) hk (fun j h3 h4 => hlow j (by omega) h4)

namespace chip8

theorem getKeypadPressed_none (inp : Inputs) (h : ∀ k, k < 16 → inp.keyPressed k = false) :
    getKeypadPressed inp = 255 := by
  have : (List.range KEYPAD_KEYS).find? inp.keyPressed = none := by
    rw [List.find?_eq_none]
    intro k hk
    rw [List.mem_range] at hk
    simp [h k hk]
  rw [getKeypadPressed, this]
  rfl

theorem getKeypadPressed_first (inp : Inputs) {k : Nat} (hk : k < 16)
    (hp : inp.keyPressed k = true) (hlow : ∀ j, j < k → inp.keyPressed j = false) :
    getKeypadPressed inp = k := by
  rw [getKeypadPressed, List.range_eq_range',
    find_range_first inp.keyPressed KEYPAD_KEYS 0 k (Nat.zero_le _) (by simpa [KEYPAD_KEYS] using hk)
      hp (fun j _ h => hlow j h)]
  rfl

theorem exec_loadKey (c : chip8) (inp : Inputs) {x : Nat} (hx : x < 16) :
    executeInstruction c inp (opF x 0x0A) = .ok (loadKeyHandler c inp (opF x 0x0A)) := by
  obtain ⟨-, h1, h2⟩ := opF_key_fields x hx
  simp [executeInstruction, executeMatchLastTwoInstruction, h1, h2]

theorem exec_loadDigit (c : chip8) (inp : Inputs) {x : Nat} (hx : x < 16) :
    executeInstruction c inp (opF x 0x29) = loadDigitHandler c (opF x 0x29) := by
  obtain ⟨-, h1, h2⟩ := opF_digit_fields x hx
  simp [executeInstruction, executeMatchLastTwoInstruction, h1, h2]

theorem exec_storeBCD (c : chip8) (inp : Inputs) {x : Nat} (hx : x < 16) :
    executeInstruction c inp (opF x 0x33) = storeBCDHandler c (opF x 0x33) := by
  obtain ⟨-, h1, h2⟩ := opF_bcd_fields x hx
  simp [executeInstruction, executeMatchLastTwoInstruction, h1, h2]

theorem rewind_pc {pc : Nat} (h : pc < 65536) :
    u16 (u16OfInt ((pc : Int) - INSTRUCTION_BYTES) + INSTRUCTION_BYTES) = pc := by
  simp only [u16, u16OfInt, INSTRUCTION_BYTES]
  omega

end chip8

/-- C26. Key wait is a PC rewind: a cycle that fetches `Fx0A` always succeeds;
when no key of the keypad is reported pressed, `PC` after the cycle equals `PC`
before it, so that the same word is fetched again, and registers, `I`, stack
pointer, stack, memory, framebuffer and timers are unchanged; when some key is
reported pressed, `Vx` becomes the lowest-indexed pressed key `k` (`k ≤ 15`),
the other registers keep their values and `PC` advances by 2. -/
theorem key_wait_rewinds (c : chip8) (inp : Inputs) (x : Nat) (hx : x < 16)
    (hfetch : c.memory.readInstuctionAtPos c.regPC = .ok (opF x 0x0A)) :
    ((∀ k, k < 16 → inp.keyPressed k = false) →
      ∃ c', chip8.cycle c inp = .ok c' ∧ c'.regPC = c.regPC ∧
        c'.memory.readInstuctionAtPos c'.regPC = .ok (opF x 0x0A) ∧
        c'.regsVx = c.regsVx ∧ c'.regI = c.regI ∧ c'.regSP = c.regSP ∧ c'.stack = c.stack ∧
        c'.memory = c.memory ∧ c'.display = c.display ∧ c'.regDT = c.regDT ∧
        c'.regST = c.regST) ∧
    (∀ k, k < 16 → inp.keyPressed k = true → (∀ j, j < k → inp.keyPressed j = false) →
      ∃ c', chip8.cycle c inp = .ok c' ∧ c'.regPC = c.regPC + 2 ∧
        c'.regsVx x = k ∧ (∀ r, r ≠ x → c'.regsVx r = c.regsVx r) ∧
        c'.regI = c.regI ∧ c'.regSP = c.regSP ∧ c'.stack = c.stack ∧
        c'.memory = c.memory ∧ c'.display = c.display ∧ c'.regDT = c.regDT ∧
        c'.regST = c.regST) := by
  obtain ⟨l, hl⟩ := chip8.cycle_of_fetch c inp hfetch
  have hpc := chip8.fetch_le hfetch
  obtain ⟨f1, -, -⟩ := opF_key_fields x hx
  rw [chip8.exec_loadKey _ inp hx] at hl
  constructor
  · intro hnone
    have hk := chip8.getKeypadPressed_none inp hnone
    have hpc' : ∀ c' : chip8, c'.regPC = c.regPC → c'.memory = c.memory →
        c'.memory.readInstuctionAtPos c'.regPC = .ok (opF x 0x0A) := by
      intro c' h1 h2
      rw [h1, h2, hfetch]
    refine ⟨_, hl, ?_, ?_, ?_⟩
    · simp only [chip8.loadKeyHandler, hk, chip8.explain_regPC]
      exact chip8.rewind_pc (by omega)
    · apply hpc'
      · simp only [chip8.loadKeyHandler, hk, chip8.explain_regPC]
        exact chip8.rewind_pc (by omega)
      · simp [chip8.loadKeyHandler, hk]
    · simp [chip8.loadKeyHandler, hk]
  · intro k hk hp hlow
    have hkey := chip8.getKeypadPressed_first inp hk hp hlow
    have hle : ¬ k > 15 := by omega
    refine ⟨_, hl, ?_, ?_, ?_, ?_⟩
    · simp only [chip8.loadKeyHandler, hkey, chip8.explain_regPC, if_neg hle, u16,
        INSTRUCTION_BYTES]
      omega
    · simp [chip8.loadKeyHandler, hkey, hle, f1, arraySet_apply]
    · intro r hr
      simp [chip8.loadKeyHandler, hkey, hle, f1, arraySet_apply, hr]
    · simp [chip8.loadKeyHandler, hkey, hle]

/-- Instance of `key_wait_rewinds`: the word `F00A` at `0x200`; with no key
pressed the cycle ends with `PC = 0x200`, with the keys 3 and 7 pressed it ends
with `V0 = 3` and `PC = 0x202`. -/
theorem key_wait_rewinds_witness :
    (∃ c', chip8.cycle (machineWith zeros (bytesAt200 0xF0 0x0A) zeros 0) noInputs = .ok c' ∧
      c'.regPC = 0x200) ∧
    (∃ c', chip8.cycle (machineWith zeros (bytesAt200 0xF0 0x0A) zeros 0)
        (keysPressed (fun k => decide (k = 3 ∨ k = 7))) = .ok c' ∧
      c'.regPC = 0x202 ∧ c'.regsVx 0 = 3) := by
  constructor
  · obtain ⟨c', h, hpc, -⟩ := (key_wait_rewinds (machineWith zeros (bytesAt200 0xF0 0x0A) zeros 0)
      noInputs 0 (by decide) rfl).1 (fun _ _ => rfl)
    exact ⟨c', h, hpc⟩
  · obtain ⟨c', h, hpc, hv, -⟩ := (key_wait_rewinds (machineWith zeros (bytesAt200 0xF0 0x0A) zeros 0)
      (keysPressed (fun k => decide (k = 3 ∨ k = 7))) 0 (by decide) rfl).2 3 (by decide)
      (by decide) (by decide)
    exact ⟨c', h, hpc, hv⟩

/-- C28. Digit sprite lookup: `Fx29` reaches `loadDigitHandler`; when `Vx ≤ 15`
it succeeds with `I = font base + 5 * Vx = 5 * Vx`, the start of a 5-byte glyph
inside `[0x000, 0x050)`, and changes nothing else; when `Vx > 15` it fails with
the font-symbol error and the state at the throw is the state before the
instruction, so `I` is unchanged.  The test is on the whole of `Vx`: a value
above 15 fails whatever its low nibble is. -/
theorem digit_sprite_lookup (c : chip8) (inp : Inputs) (x : Nat) (hx : x < 16) :
    chip8.executeInstruction c inp (opF x 0x29) = chip8.loadDigitHandler c (opF x 0x29) ∧
    (c.regsVx x ≤ 15 →
      ∃ c', chip8.executeInstruction c inp (opF x 0x29) = .ok c' ∧
        c'.regI = FONTSET_START_ADDRESS + 5 * c.regsVx x ∧ c'.regI = 5 * c.regsVx x ∧
        c'.regI + 5 ≤ 0x50 ∧
        c'.regsVx = c.regsVx ∧ c'.regPC = c.regPC ∧ c'.regSP = c.regSP ∧ c'.stack = c.stack ∧
        c'.memory = c.memory ∧ c'.display = c.display ∧ c'.regDT = c.regDT ∧
        c'.regST = c.regST) ∧
    (c.regsVx x > 15 →
      chip8.executeInstruction c inp (opF x 0x29) = .error .fontSymbolOutOfRange ∧
      chip8.loadDigitHandlerExit c (opF x 0x29) = (c, some .fontSymbolOutOfRange)) ∧
    (chip8.loadDigitHandler c (opF x 0x29) =
      match chip8.loadDigitHandlerExit c (opF x 0x29) with
      | (s, none) => .ok s
      | (_, some e) => .error e) := by
  obtain ⟨f1, -, -⟩ := opF_digit_fields x hx
  refine ⟨chip8.exec_loadDigit c inp hx, ?_, ?_, ?_⟩
  · intro hv
    have hn : ¬ c.regsVx x > FONTSET_CHAR_COUNT - 1 := by
      simp only [FONTSET_CHAR_COUNT]
      omega
    rw [chip8.exec_loadDigit c inp hx]
    simp only [chip8.loadDigitHandler, f1, if_neg hn]
    refine ⟨_, rfl, ?_, ?_, ?_, ?_⟩
    · simp only [chip8.explain_regI, u16, FONTSET_START_ADDRESS, CHARACTER_BYTES]
      omega
    · simp only [chip8.explain_regI, u16, FONTSET_START_ADDRESS, CHARACTER_BYTES]
      omega
    · have hlt : 5 * c.regsVx x < 65536 := by omega
      simp only [chip8.explain_regI, u16, FONTSET_START_ADDRESS, CHARACTER_BYTES, Nat.zero_add,
        Nat.mod_eq_of_lt hlt]
      omega
    · simp
  · intro hv
    have hp : c.regsVx x > FONTSET_CHAR_COUNT - 1 := by
      simp only [FONTSET_CHAR_COUNT]
      omega
    rw [chip8.exec_loadDigit c inp hx]
    simp only [chip8.loadDigitHandler, chip8.loadDigitHandlerExit, f1, if_pos hp, and_self]
  · unfold chip8.loadDigitHandler chip8.loadDigitHandlerExit
    split_ifs <;> rfl

/-- Instance of `digit_sprite_lookup`: with `V0 = 0xA` the word `F029` sets
`I = 50`; with `V0 = 0x1A`, whose low nibble is also `0xA`, it fails. -/
theorem digit_sprite_lookup_witness :
    (∃ c', chip8.executeInstruction (machineWith (regs2 0xA 0) zeros zeros 7) noInputs (opF 0 0x29)
        = .ok c' ∧ c'.regI = 50) ∧
    chip8.executeInstruction (machineWith (regs2 0x1A 0) zeros zeros 7) noInputs (opF 0 0x29)
      = .error .fontSymbolOutOfRange := by
  constructor
  · obtain ⟨c', h, -, hI, -⟩ := (digit_sprite_lookup (machineWith (regs2 0xA 0) zeros zeros 7)
      noInputs 0 (by decide)).2.1 (by decide)
    exact ⟨c', h, hI⟩
  · exact ((digit_sprite_lookup (machineWith (regs2 0x1A 0) zeros zeros 7)
      noInputs 0 (by decide)).2.2.1 (by decide)).1

namespace chip8

/-- The three digits computed by `storeBCDHandler` from a byte. -/
theorem bcd_digits {v : Nat} (hv : v < 256) :
    u8 (v / 100) = v / 100 ∧
    u8OfInt (((v : Int) - ((u8 (v / 100) : Nat) * 100)) / 10) = (v / 10) % 10 ∧
    u8OfInt ((v : Int) - (((u8 (v / 100) : Nat) * 100)
      + ((u8OfInt (((v : Int) - ((u8 (v / 100) : Nat) * 100)) / 10) : Nat) * 10))) = v % 10 := by
  have h1 : u8 (v / 100) = v / 100 := by
    simp only [u8]
    omega
  have h2 : u8OfInt (((v : Int) - ((u8 (v / 100) : Nat) * 100)) / 10) = (v / 10) % 10 := by
    rw [h1]
    simp only [u8OfInt]
    omega
  refine ⟨h1, h2, ?_⟩
  rw [h2, h1]
  simp only [u8OfInt]
  have e : v = 100 * (v / 100) + 10 * (v / 10 % 10) + v % 10 := by omega
  have e1 : v / 100 ≤ 2 := by omega
  have e2 : v / 10 % 10 ≤ 9 := by omega
  have e3 : v % 10 ≤ 9 := by omega
  generalize v / 100 = h at e e1
  generalize v / 10 % 10 = t at e e2
  generalize v % 10 = o at e e3
  subst e
  omega

end chip8

namespace chip8

theorem writeAtPos_ok (m : ch8Memory) {pos : Nat} (val : Nat) (h : pos ≤ 4095) :
    m.writeAtPos pos val = .ok ⟨arraySet m.memory pos val⟩ := by
  have hn : ¬ pos > MEMORY_SIZE - 1 := by
    simp only [MEMORY_SIZE]
    omega
  simp only [ch8Memory.writeAtPos, if_neg hn]

theorem storeBCD_ok (c : chip8) (w : Nat) (hv : c.regsVx (fieldX w) < 256)
    (hI : c.regI + 2 ≤ 4095) :
    storeBCDHandler c w = .ok (explain { c with memory :=
      ⟨arraySet (arraySet (arraySet c.memory.memory c.regI (c.regsVx (fieldX w) / 100))
        (c.regI + 1) (c.regsVx (fieldX w) / 10 % 10)) (c.regI + 2) (c.regsVx (fieldX w) % 10)⟩ }
      ("Store BCD representation of V" ++ hexStr (fieldX w)
        ++ " in memory locations I, I+1 and I+2")) := by
  obtain ⟨d1, d2, d3⟩ := bcd_digits hv
  have a1 : u16 (c.regI + 1) = c.regI + 1 := by
    simp only [u16]
    omega
  have a2 : u16 (c.regI + 2) = c.regI + 2 := by
    simp only [u16]
    omega
  rw [d1] at d2 d3
  rw [d2] at d3
  simp only [storeBCDHandler, d1, a1, a2]
  rw [writeAtPos_ok _ _ (by omega : c.regI ≤ 4095)]
  simp only
  rw [writeAtPos_ok _ _ (by omega : c.regI + 1 ≤ 4095)]
  simp only
  rw [writeAtPos_ok _ _ (by omega : c.regI + 2 ≤ 4095)]
  simp only [d2, d3]

end chip8

/-- C25. BCD store is the decimal expansion: for `v = Vx ≤ 255` and
`I + 2 ≤ 4095`, `Fx33` succeeds and writes `h = v / 100`, `t = (v / 10) mod 10`,
`o = v mod 10` to `memory[I]`, `memory[I+1]`, `memory[I+2]`; these satisfy
`100 * h + 10 * t + o = v` with every digit at most 9; `I`, all registers, every
other memory byte and the rest of the machine are unchanged. -/
theorem bcd_store_decimal (c : chip8) (inp : Inputs) (x : Nat) (hx : x < 16)
    (hv : c.regsVx x < 256) (hI : c.regI + 2 ≤ 4095) :
    ∃ c', chip8.executeInstruction c inp (opF x 0x33) = .ok c' ∧
      c'.memory.memory c.regI = c.regsVx x / 100 ∧
      c'.memory.memory (c.regI + 1) = (c.regsVx x / 10) % 10 ∧
      c'.memory.memory (c.regI + 2) = c.regsVx x % 10 ∧
      100 * c'.memory.memory c.regI + 10 * c'.memory.memory (c.regI + 1)
        + c'.memory.memory (c.regI + 2) = c.regsVx x ∧
      c'.memory.memory c.regI ≤ 9 ∧ c'.memory.memory (c.regI + 1) ≤ 9 ∧
      c'.memory.memory (c.regI + 2) ≤ 9 ∧
      (∀ a, a ≠ c.regI → a ≠ c.regI + 1 → a ≠ c.regI + 2 →
        c'.memory.memory a = c.memory.memory a) ∧
      c'.regI = c.regI ∧ c'.regsVx = c.regsVx ∧ c'.regPC = c.regPC ∧ c'.regSP = c.regSP ∧
      c'.stack = c.stack ∧ c'.display = c.display ∧ c'.regDT = c.regDT ∧
      c'.regST = c.regST := by
  obtain ⟨f1, -, -⟩ := opF_bcd_fields x hx
  have hres := chip8.storeBCD_ok c (opF x 0x33) (by rw [f1]; exact hv) hI
  rw [f1] at hres
  rw [chip8.exec_storeBCD c inp hx, hres]
  have m0 : ∀ t : String, ∀ s : chip8, (s.explain t).memory.memory = s.memory.memory := by
    intro t s
    rw [chip8.explain_memory]
  refine ⟨_, rfl, ?_, ?_, ?_, ?_, ?_, ?_, ?_, ?_, ?_⟩
  · simp [arraySet_apply]
  · simp [arraySet_apply]
  · simp [arraySet_apply]
  · simp only [m0, arraySet_apply]
    simp
    omega
  · simp only [m0, arraySet_apply]
    simp
    omega
  · simp only [m0, arraySet_apply]
    simp
    omega
  · simp only [m0, arraySet_apply]
    simp
    omega
  · intro a h1 h2 h3
    simp [arraySet_apply, h1, h2, h3]
  · simp

/-- Instance of `bcd_store_decimal`: `V0 = 254`, `I = 0x300`; the word `F033` stores
`2, 5, 4`. -/
theorem bcd_store_decimal_witness :
    ∃ c', chip8.executeInstruction (machineWith (regs2 254 0) zeros zeros 0x300) noInputs
        (opF 0 0x33) = .ok c' ∧
      c'.memory.memory 0x300 = 2 ∧ c'.memory.memory 0x301 = 5 ∧ c'.memory.memory 0x302 = 4 := by
  obtain ⟨c', h, h0, h1, h2, -⟩ := bcd_store_decimal (machineWith (regs2 254 0) zeros zeros 0x300)
    noInputs 0 (by decide) (by decide) (by decide)
  exact ⟨c', h, h0, h1, h2⟩

/-! ## Sprite reads past the end of memory -/

namespace chip8

/-- The draw loop fails at the first sprite address outside the memory. -/
theorem drawLoop_fail (m : ch8Memory) (x y start : Nat) :
    ∀ (k iSprite : Nat) (d : ch8Display) (e : Bool), 1 ≤ k → iSprite + k ≤ 65536 →
      4096 ≤ iSprite + k - 1 →
      drawLoop m x y start k iSprite d e = .error .readOutsideMemory := by
  intro k
  induction k with
  | zero => intro iSprite d e h; omega
  | succ k ih =>
    intro iSprite d e _ h2 h3
    by_cases h : iSprite > MEMORY_SIZE - 1
    · simp only [drawLoop, ch8Memory.readAtPos, if_pos h]
    · simp only [MEMORY_SIZE] at h
      have h16 : u16 (iSprite + 1) = iSprite + 1 := Nat.mod_eq_of_lt (by omega)
      have h' : ¬ iSprite > MEMORY_SIZE - 1 := by simp only [MEMORY_SIZE]; omega
      simp only [drawLoop, ch8Memory.readAtPos, if_neg h', h16]
      exact ih _ _ _ (by omega) (by omega) (by omega)

theorem drawHandler_fail (c : chip8) {x y n : Nat} (hx : x < 16) (hy : y < 16) (hn : n < 16)
    (hlt : c.regI + n < 65536) (hout : ∃ k, k < n ∧ 4096 ≤ c.regI + k) :
    drawHandler c (opD x y n) = .error .readOutsideMemory := by
  obtain ⟨fx, fy, -, fn⟩ := opD_fields x hx y hy n hn
  obtain ⟨k, hk, hk'⟩ := hout
  have hcount : u16 (c.regI + n) - c.regI = n := by
    simp only [u16]
    omega
  simp only [drawHandler, fn, hcount]
  rw [drawLoop_fail _ _ _ _ _ _ _ _ (by omega) (by omega) (by omega)]

theorem drawHandler_wrap (c : chip8) {x y n : Nat} (hx : x < 16) (hy : y < 16) (hn : n < 16)
    (hI : c.regI < 65536) (hwrap : 65536 ≤ c.regI + n) :
    drawHandler c (opD x y n) = .ok (explain { c with regsVx := arraySet c.regsVx 0xF 0 }
      ("Draw " ++ toString n ++ "-byte sprite starting at memory location I at (V" ++ hexStr x
        ++ ", V" ++ hexStr y ++ ")")) := by
  obtain ⟨fx, fy, -, fn⟩ := opD_fields x hx y hy n hn
  have hcount : u16 (c.regI + n) - c.regI = 0 := by
    simp only [u16]
    omega
  simp only [drawHandler, fn, fx, fy, hcount, drawLoop]
  rfl

end chip8

/-- C22. Sprite reads past the end of memory, for a cycle that fetches `Dxyn`
with `n ≥ 1`.  When `I + n` fits in 16 bits and some sprite address `I + k`
(`k < n`) is at least 4096, the cycle fails with the read-outside-memory error.
When `I + n` exceeds 16 bits, the loop bound `spriteEnd = (I + n) mod 2^16` lies
below `spriteStart = I`, no sprite byte is read, and the cycle completes
successfully: framebuffer, memory and `I` are unchanged, `VF` is set to `0` and
`PC` advances by 2, although every address `I + k` is at least 4096. -/
theorem draw_wrap_reads_nothing (c : chip8) (inp : Inputs) (x y n : Nat) (hx : x < 16)
    (hy : y < 16) (hn : n < 16) (hn1 : 1 ≤ n) (hI : c.regI < 65536)
    (hfetch : c.memory.readInstuctionAtPos c.regPC = .ok (opD x y n)) :
    (c.regI + n < 65536 → (∃ k, k < n ∧ 4096 ≤ c.regI + k) →
      chip8.cycle c inp = .error .readOutsideMemory) ∧
    (65536 ≤ c.regI + n →
      (∀ k, k < n → 4096 ≤ c.regI + k) ∧
      ∃ c', chip8.cycle c inp = .ok c' ∧ c'.display = c.display ∧
        c'.regsVx = arraySet c.regsVx 0xF 0 ∧ c'.regPC = c.regPC + 2 ∧
        c'.memory = c.memory ∧ c'.regI = c.regI) := by
  obtain ⟨l, hl⟩ := chip8.cycle_of_fetch c inp hfetch
  have hpc := chip8.fetch_le hfetch
  rw [chip8.exec_draw _ inp hx hy hn] at hl
  constructor
  · intro hlt hout
    rw [hl, chip8.drawHandler_fail { c with lastInstructions := l } hx hy hn hlt hout]
  · intro hwrap
    refine ⟨fun k hk => by omega, ?_⟩
    rw [chip8.drawHandler_wrap { c with lastInstructions := l } hx hy hn hI hwrap] at hl
    refine ⟨_, hl, ?_, ?_, ?_, ?_, ?_⟩
    · simp
    · simp
    · simp only [chip8.explain_regPC, u16, INSTRUCTION_BYTES]
      omega
    · simp
    · simp

/-- Instance of `draw_wrap_reads_nothing`: with `I = 4095` the word `D002` at `0x200`
fails on its second sprite byte; with `I = 0xFFFF` the word `D001` succeeds
without reading the sprite byte at address 65535. -/
theorem draw_wrap_reads_nothing_witness :
    chip8.cycle (machineWith zeros (bytesAt200 0xD0 0x02) zeros 4095) noInputs
      = .error .readOutsideMemory ∧
    (∃ c', chip8.cycle (machineWith zeros (bytesAt200 0xD0 0x01) zeros 0xFFFF) noInputs = .ok c' ∧
      c'.display = (machineWith zeros (bytesAt200 0xD0 0x01) zeros 0xFFFF).display ∧
      c'.regPC = 0x202) := by
  constructor
  · exact (draw_wrap_reads_nothing (machineWith zeros (bytesAt200 0xD0 0x02) zeros 4095) noInputs
      0 0 2 (by decide) (by decide) (by decide) (by decide) (by decide) rfl).1 (by decide)
      ⟨1, by decide, by decide⟩
  · obtain ⟨c', h, hd, -, hpc, -⟩ := ((draw_wrap_reads_nothing
      (machineWith zeros (bytesAt200 0xD0 0x01) zeros 0xFFFF) noInputs
      0 0 1 (by decide) (by decide) (by decide) (by decide) (by decide) rfl).2 (by decide)).2
    exact ⟨c', h, hd, hpc⟩

/-! ## Decoding -/

/-- Bitwise "and" acts separately on the digits above and below position `i`. -/
theorem and_split {i : Nat} (a b c d : Nat) (hb : b < 2 ^ i) (hd : d < 2 ^ i) :
    (2 ^ i * a + b) &&& (2 ^ i * c + d) = 2 ^ i * (a &&& c) + (b &&& d) := by
  have hbd : b &&& d < 2 ^ i := Nat.and_lt_two_pow _ hd
  apply Nat.eq_of_testBit_eq
  intro j
  rw [Nat.testBit_and, Nat.testBit_mul_pow_two_add _ hb, Nat.testBit_mul_pow_two_add _ hd,
    Nat.testBit_mul_pow_two_add _ hbd]
  split_ifs <;> simp [Nat.testBit_and]

theorem mask_F000 {w : Nat} (hw : w < 65536) : w &&& 0xF000 = 4096 * (w / 4096) := by
  have h := and_split (i := 12) (w / 4096) (w % 4096) 15 0 (Nat.mod_lt _ (by decide)) (by decide)
  have e1 : 2 ^ 12 * (w / 4096) + w % 4096 = w := by omega
  have e2 : w / 4096 &&& 15 = w / 4096 := by
    have := Nat.and_pow_two_sub_one_eq_mod (w / 4096) 4
    simp only [Nat.reducePow, Nat.add_one_sub_one] at this
    rw [this]
    omega
  rw [e1, e2] at h
  simpa using h

theorem mask_F00F {w : Nat} (hw : w < 65536) : w &&& 0xF00F = 4096 * (w / 4096) + w % 16 := by
  have h := and_split (i := 12) (w / 4096) (w % 4096) 15 15 (Nat.mod_lt _ (by decide)) (by decide)
  have e1 : 2 ^ 12 * (w / 4096) + w % 4096 = w := by omega
  have e2 : w / 4096 &&& 15 = w / 4096 := by
    have := Nat.and_pow_two_sub_one_eq_mod (w / 4096) 4
    simp only [Nat.reducePow, Nat.add_one_sub_one] at this
    rw [this]
    omega
  have e3 : w % 4096 &&& 15 = w % 16 := by
    have := Nat.and_pow_two_sub_one_eq_mod (w % 4096) 4
    simp only [Nat.reducePow, Nat.add_one_sub_one] at this
    rw [this]
    omega
  rw [e1, e2, e3] at h
  simpa using h

theorem mask_F0FF {w : Nat} (hw : w < 65536) : w &&& 0xF0FF = 4096 * (w / 4096) + w % 256 := by
  have h := and_split (i := 12) (w / 4096) (w % 4096) 15 255 (Nat.mod_lt _ (by decide))
    (by decide)
  have e1 : 2 ^ 12 * (w / 4096) + w % 4096 = w := by omega
  have e2 : w / 4096 &&& 15 = w / 4096 := by
    have := Nat.and_pow_two_sub_one_eq_mod (w / 4096) 4
    simp only [Nat.reducePow, Nat.add_one_sub_one] at this
    rw [this]
    omega
  have e3 : w % 4096 &&& 255 = w % 256 := by
    have := Nat.and_pow_two_sub_one_eq_mod (w % 4096) 8
    simp only [Nat.reducePow, Nat.add_one_sub_one] at this
    rw [this]
    omega
  rw [e1, e2, e3] at h
  simpa using h

namespace chip8

theorem exec_eq_listed_lastOne (c : chip8) (inp : Inputs) {w : Nat} (hw : w < 65536)
    (hA : w / 4096 = 5 ∨ w / 4096 = 8 ∨ w / 4096 = 9) :
    executeInstruction c inp w =
      match listedOpcode w with
      | some op => op.handler c inp w
      | none => .error .unknownInstruction := by
  have h1 : w ≠ 0x00E0 := by omega
  have h2 : w ≠ 0x00EE := by omega
  have hd : w % 16 < 16 := Nat.mod_lt _ (by decide)
  have m1 := mask_F000 hw
  have m2 := mask_F00F hw
  generalize hD : w % 16 = d at hd m2
  rcases hA with hA | hA | hA <;> rw [hA] at m1 m2 <;> interval_cases d <;>
    simp [listedOpcode, hA, hD, h1, h2, executeInstruction, executeMatchLastOneInstruction,
      m1, m2, Opcode.handler]

theorem exec_eq_listed_direct (c : chip8) (inp : Inputs) {w : Nat} (hw : w < 65536)
    (hA : w / 4096 = 1 ∨ w / 4096 = 2 ∨ w / 4096 = 3 ∨ w / 4096 = 4 ∨ w / 4096 = 6 ∨
      w / 4096 = 7 ∨ w / 4096 = 10 ∨ w / 4096 = 11 ∨ w / 4096 = 12 ∨ w / 4096 = 13) :
    executeInstruction c inp w =
      match listedOpcode w with
      | some op => op.handler c inp w
      | none => .error .unknownInstruction := by
  have h1 : w ≠ 0x00E0 := by omega
  have h2 : w ≠ 0x00EE := by omega
  have m1 := mask_F000 hw
  rcases hA with hA | hA | hA | hA | hA | hA | hA | hA | hA | hA <;> rw [hA] at m1 <;>
    simp [listedOpcode, hA, h1, h2, executeInstruction, m1, Opcode.handler]

theorem exec_eq_listed_full (c : chip8) (inp : Inputs) {w : Nat} (hA : w / 4096 = 0) :
    executeInstruction c inp w =
      match listedOpcode w with
      | some op => op.handler c inp w
      | none => .error .unknownInstruction := by
  have hw : w < 65536 := by omega
  have m1 := mask_F000 hw
  rw [hA] at m1
  by_cases h1 : w = 0x00E0
  · subst h1
    rfl
  · by_cases h2 : w = 0x00EE
    · subst h2
      rfl
    · simp [listedOpcode, hA, h1, h2, executeInstruction, executeMatchFullInstruction, m1]

theorem exec_eq_listed_keys (c : chip8) (inp : Inputs) {w : Nat} (hw : w < 65536)
    (hA : w / 4096 = 14) :
    executeInstruction c inp w =
      match listedOpcode w with
      | some op => op.handler c inp w
      | none => .error .unknownInstruction := by
  have h1 : w ≠ 0x00E0 := by omega
  have h2 : w ≠ 0x00EE := by omega
  have m1 := mask_F000 hw
  have m3 := mask_F0FF hw
  rw [hA] at m1 m3
  have hk : w % 256 = 0x9E ∨ w % 256 = 0xA1 ∨ (w % 256 ≠ 0x9E ∧ w % 256 ≠ 0xA1) := by omega
  rcases hk with hk | hk | ⟨k1, k2⟩
  · rw [hk] at m3
    simp [listedOpcode, hA, hk, h1, h2, executeInstruction, executeMatchLastTwoInstruction,
      m1, m3, Opcode.handler]
  · rw [hk] at m3
    simp [listedOpcode, hA, hk, h1, h2, executeInstruction, executeMatchLastTwoInstruction,
      m1, m3, Opcode.handler]
  · have hl : listedOpcode w = none := by simp [listedOpcode, hA, h1, h2, k1, k2]
    have hr : executeInstruction c inp w = executeMatchLastTwoInstruction c inp w := by
      simp [executeInstruction, m1]
    rw [hl, hr]
    simp only [executeMatchLastTwoInstruction, m3]
    repeat rw [if_neg (by omega)]

theorem exec_eq_listed_misc (c : chip8) (inp : Inputs) {w : Nat} (hw : w < 65536)
    (hA : w / 4096 = 15) :
    executeInstruction c inp w =
      match listedOpcode w with
      | some op => op.handler c inp w
      | none => .error .unknownInstruction := by
  have h1 : w ≠ 0x00E0 := by omega
  have h2 : w ≠ 0x00EE := by omega
  have m1 := mask_F000 hw
  have m3 := mask_F0FF hw
  rw [hA] at m1 m3
  have hk : w % 256 = 0x07 ∨ w % 256 = 0x0A ∨ w % 256 = 0x15 ∨ w % 256 = 0x18 ∨
      w % 256 = 0x1E ∨ w % 256 = 0x29 ∨ w % 256 = 0x33 ∨ w % 256 = 0x55 ∨ w % 256 = 0x65 ∨
      (w % 256 ≠ 0x07 ∧ w % 256 ≠ 0x0A ∧ w % 256 ≠ 0x15 ∧ w % 256 ≠ 0x18 ∧ w % 256 ≠ 0x1E ∧
        w % 256 ≠ 0x29 ∧ w % 256 ≠ 0x33 ∧ w % 256 ≠ 0x55 ∧ w % 256 ≠ 0x65) := by omega
  rcases hk with hk | hk | hk | hk | hk | hk | hk | hk | hk | ⟨k1, k2, k3, k4, k5, k6, k7, k8, k9⟩
  iterate 9
    · rw [hk] at m3
      simp [listedOpcode, hA, hk, h1, h2, executeInstruction, executeMatchLastTwoInstruction,
        m1, m3, Opcode.handler]
  · have hl : listedOpcode w = none := by
      simp [listedOpcode, hA, h1, h2, k1, k2, k3, k4, k5, k6, k7, k8, k9]
    have hr : executeInstruction c inp w = executeMatchLastTwoInstruction c inp w := by
      simp [executeInstruction, m1]
    rw [hl, hr]
    simp only [executeMatchLastTwoInstruction, m3]
    repeat rw [if_neg (by omega)]

/-- Decoding agrees with the listed instruction patterns: a 16-bit word that
matches a pattern is executed by the handler of that opcode, any other word
is rejected. -/
theorem exec_eq_listed (c : chip8) (inp : Inputs) {w : Nat} (hw : w < 65536) :
    executeInstruction c inp w =
      match listedOpcode w with
      | some op => op.handler c inp w
      | none => .error .unknownInstruction := by
  have ha : w / 4096 < 16 := by omega
  have hcases : w / 4096 = 0 ∨
      (w / 4096 = 1 ∨ w / 4096 = 2 ∨ w / 4096 = 3 ∨ w / 4096 = 4 ∨ w / 4096 = 6 ∨
        w / 4096 = 7 ∨ w / 4096 = 10 ∨ w / 4096 = 11 ∨ w / 4096 = 12 ∨ w / 4096 = 13) ∨
      (w / 4096 = 5 ∨ w / 4096 = 8 ∨ w / 4096 = 9) ∨ w / 4096 = 14 ∨ w / 4096 = 15 := by
    omega
  rcases hcases with h | h | h | h | h
  · exact exec_eq_listed_full c inp h
  · exact exec_eq_listed_direct c inp hw h
  · exact exec_eq_listed_lastOne c inp hw h
  · exact exec_eq_listed_keys c inp hw h
  · exact exec_eq_listed_misc c inp hw h

end chip8
namespace chip8

theorem drawLoop_error (m : ch8Memory) (x y start : Nat) :
    ∀ (k iSprite : Nat) (d : ch8Display) (e : Bool) (err : Chip8Error),
      drawLoop m x y start k iSprite d e = .error err → err = .readOutsideMemory := by
  intro k
  induction k with
  | zero => intro iSprite d e err h; simp [drawLoop] at h
  | succ k ih =>
    intro iSprite d e err h
    simp only [drawLoop, ch8Memory.readAtPos] at h
    split_ifs at h
    · simp only [Except.error.injEq] at h
      exact h.symm
    · exact ih _ _ _ _ h

theorem storeRegsLoop_error (regI : Nat) (regs : Nat → Nat) :
    ∀ (k i : Nat) (m : ch8Memory) (err : Chip8Error),
      storeRegsLoop regI regs k i m = .error err → err = .writeOutsideMemory := by
  intro k
  induction k with
  | zero => intro i m err h; simp [storeRegsLoop] at h
  | succ k ih =>
    intro i m err h
    simp only [storeRegsLoop, ch8Memory.writeAtPos] at h
    split_ifs at h
    · simp only [Except.error.injEq] at h
      exact h.symm
    · exact ih _ _ _ h

theorem loadRegsLoop_error (regI : Nat) (m : ch8Memory) :
    ∀ (k i : Nat) (regs : Nat → Nat) (err : Chip8Error),
      loadRegsLoop regI m k i regs = .error err → err = .readOutsideMemory := by
  intro k
  induction k with
  | zero => intro i regs err h; simp [loadRegsLoop] at h
  | succ k ih =>
    intro i regs err h
    simp only [loadRegsLoop, ch8Memory.readAtPos] at h
    split_ifs at h
    · simp only [Except.error.injEq] at h
      exact h.symm
    · exact ih _ _ _ h

theorem returnHandler_known (c : chip8) : returnHandler c ≠ .error .unknownInstruction := by
  unfold returnHandler
  split_ifs <;> simp

theorem callHandler_known (c : chip8) (w : Nat) :
    callHandler c w ≠ .error .unknownInstruction := by
  unfold callHandler
  split_ifs <;> simp

theorem drawHandler_known (c : chip8) (w : Nat) :
    drawHandler c w ≠ .error .unknownInstruction := by
  intro h
  simp only [drawHandler] at h
  split at h
  · rename_i e he
    have := drawLoop_error _ _ _ _ _ _ _ _ _ he
    simp only [Except.error.injEq] at h
    rw [h] at this
    exact absurd this (by decide)
  · simp at h

theorem skipIfKeyHandler_known (c : chip8) (inp : Inputs) (w : Nat) :
    skipIfKeyHandler c inp w ≠ .error .unknownInstruction := by
  simp only [skipIfKeyHandler, checkKeyDown]
  split_ifs <;> simp

theorem skipIfNotKeyHandler_known (c : chip8) (inp : Inputs) (w : Nat) :
    skipIfNotKeyHandler c inp w ≠ .error .unknownInstruction := by
  simp only [skipIfNotKeyHandler, checkKeyDown]
  split_ifs <;> simp

theorem loadDigitHandler_known (c : chip8) (w : Nat) :
    loadDigitHandler c w ≠ .error .unknownInstruction := by
  unfold loadDigitHandler
  split_ifs <;> simp

theorem storeBCDHandler_known (c : chip8) (w : Nat) :
    storeBCDHandler c w ≠ .error .unknownInstruction := by
  simp only [storeBCDHandler, ch8Memory.writeAtPos]
  split_ifs <;> simp

theorem storeRegsToMemoryHandler_known (c : chip8) (w : Nat) :
    storeRegsToMemoryHandler c w ≠ .error .unknownInstruction := by
  intro h
  unfold storeRegsToMemoryHandler at h
  split at h
  · rename_i e he
    have := storeRegsLoop_error _ _ _ _ _ _ he
    simp only [Except.error.injEq] at h
    rw [h] at this
    exact absurd this (by decide)
  · simp at h

theorem loadRegsFromMemoryHandler_known (c : chip8) (w : Nat) :
    loadRegsFromMemoryHandler c w ≠ .error .unknownInstruction := by
  intro h
  unfold loadRegsFromMemoryHandler at h
  split at h
  · rename_i e he
    have := loadRegsLoop_error _ _ _ _ _ _ he
    simp only [Except.error.injEq] at h
    rw [h] at this
    exact absurd this (by decide)
  · simp at h

end chip8

/-- No handler throws the "Unknown instruction!" error. -/
theorem Opcode.handler_known (op : Opcode) (c : chip8) (inp : Inputs) (w : Nat) :
    op.handler c inp w ≠ .error .unknownInstruction := by
  cases op <;> simp only [Opcode.handler] <;>
    first
    | exact chip8.returnHandler_known c
    | exact chip8.callHandler_known c w
    | exact chip8.drawHandler_known c w
    | exact chip8.skipIfKeyHandler_known c inp w
    | exact chip8.skipIfNotKeyHandler_known c inp w
    | exact chip8.loadDigitHandler_known c w
    | exact chip8.storeBCDHandler_known c w
    | exact chip8.storeRegsToMemoryHandler_known c w
    | exact chip8.loadRegsFromMemoryHandler_known c w
    | simp

/-- C21. Decode rejects exactly the unmapped words.  For every 16-bit word `w`:
if `w` matches one of the listed patterns `00E0`, `00EE`, `1nnn`, `2nnn`,
`3xnn`, `4xnn`, `5xy0`, `6xnn`, `7xnn`, `8xy0..8xy7`, `8xyE`, `9xy0`, `Annn`,
`Bnnn`, `Cxnn`, `Dxyn`, `Ex9E`, `ExA1`, `Fx07`, `Fx0A`, `Fx15`, `Fx18`, `Fx1E`,
`Fx29`, `Fx33`, `Fx55`, `Fx65` (`listedOpcode`), `executeInstruction` is the
handler of that opcode, and `executeInstruction` fails with the
unknown-instruction error if and only if `w` matches none of them.  In
particular `0xFFFF` fails, every `0nnn` other than `00E0` and `00EE` fails, and
`5xy1`, `9xy1`, `8xy8` fail. -/
theorem decode_rejects_unmapped (c : chip8) (inp : Inputs) :
    (∀ w, w < 65536 →
      (∀ op, listedOpcode w = some op →
        chip8.executeInstruction c inp w = op.handler c inp w) ∧
      (chip8.executeInstruction c inp w = .error .unknownInstruction ↔
        listedOpcode w = none)) ∧
    chip8.executeInstruction c inp 0xFFFF = .error .unknownInstruction ∧
    (∀ nnn, nnn < 4096 → nnn ≠ 0x0E0 → nnn ≠ 0x0EE →
      chip8.executeInstruction c inp nnn = .error .unknownInstruction) ∧
    (∀ x y, x < 16 → y < 16 →
      chip8.executeInstruction c inp (0x5001 + x * 256 + y * 16)
        = .error .unknownInstruction ∧
      chip8.executeInstruction c inp (0x9001 + x * 256 + y * 16)
        = .error .unknownInstruction ∧
      chip8.executeInstruction c inp (0x8008 + x * 256 + y * 16)
        = .error .unknownInstruction) := by
  have hnone : ∀ w, w < 65536 → listedOpcode w = none →
      chip8.executeInstruction c inp w = .error .unknownInstruction := by
    intro w hw hl
    rw [chip8.exec_eq_listed c inp hw, hl]
  have hlast : ∀ w a, w / 4096 = a → (a = 5 ∨ a = 8 ∨ a = 9) → w % 16 = 1 ∨ w % 16 = 8 →
      (a = 8 → w % 16 = 8) → listedOpcode w = none := by
    intro w a hA ha hd h8
    have h1 : w ≠ 0x00E0 := by omega
    have h2 : w ≠ 0x00EE := by omega
    rcases ha with rfl | rfl | rfl
    · rcases hd with hd | hd <;> simp [listedOpcode, hA, hd, h1, h2]
    · simp [listedOpcode, hA, h8 rfl, h1, h2]
    · rcases hd with hd | hd <;> simp [listedOpcode, hA, hd, h1, h2]
  refine ⟨?_, ?_, ?_, ?_⟩
  · intro w hw
    constructor
    · intro op hop
      rw [chip8.exec_eq_listed c inp hw, hop]
    · constructor
      · intro h
        rw [chip8.exec_eq_listed c inp hw] at h
        cases hl : listedOpcode w with
        | none => rfl
        | some op =>
          rw [hl] at h
          exact absurd h (op.handler_known c inp w)
      · exact hnone w hw
  · exact hnone _ (by decide) (by decide)
  · intro nnn hn h1 h2
    apply hnone _ (by omega)
    have hA : nnn / 4096 = 0 := by omega
    simp [listedOpcode, hA, h1, h2]
  · intro x y hx hy
    refine ⟨hnone _ (by omega) ?_, hnone _ (by omega) ?_, hnone _ (by omega) ?_⟩
    · exact hlast _ 5 (by omega) (by decide) (by omega) (fun h => by omega)
    · exact hlast _ 9 (by omega) (by decide) (by omega) (fun h => by omega)
    · exact hlast _ 8 (by omega) (by decide) (by omega) (fun _ => by omega)

/-- Instance of `decode_rejects_unmapped`: the word `8124` matches `8xy4` and is
executed by `addHandler`; the words `8128` and `00E1` match no pattern and are
rejected. -/
theorem decode_rejects_unmapped_witness :
    chip8.executeInstruction (machineWith (regs2 7 9) zeros zeros 0) noInputs 0x8124
      = .ok (chip8.addHandler (machineWith (regs2 7 9) zeros zeros 0) 0x8124) ∧
    chip8.executeInstruction (machineWith (regs2 7 9) zeros zeros 0) noInputs 0x8128
      = .error .unknownInstruction ∧
    chip8.executeInstruction (machineWith (regs2 7 9) zeros zeros 0) noInputs 0x00E1
      = .error .unknownInstruction :=
  ⟨((decode_rejects_unmapped (machineWith (regs2 7 9) zeros zeros 0) noInputs).1 0x8124
      (by decide)).1 .ADD (by decide),
    ((decode_rejects_unmapped (machineWith (regs2 7 9) zeros zeros 0) noInputs).1 0x8128
      (by decide)).2.2 (by decide),
    (decode_rejects_unmapped (machineWith (regs2 7 9) zeros zeros 0) noInputs).2.2.1 0x0E1
      (by decide) (by decide) (by decide)⟩

/-! ## The stack pointer stays within the stack -/

namespace chip8

theorem returnHandler_regSP {c c' : chip8} (h : returnHandler c = .ok c') :
    c.regSP ≠ 0 ∧ c'.regSP = u8OfInt ((c.regSP : Int) - 1) := by
  unfold returnHandler at h
  split_ifs at h with h0
  simp only [Except.ok.injEq] at h
  subst h
  exact ⟨h0, by simp⟩

theorem callHandler_regSP {c c' : chip8} {w : Nat} (h : callHandler c w = .ok c') :
    c.regSP ≠ STACK_SIZE ∧ c'.regSP = u8 (c.regSP + 1) := by
  unfold callHandler at h
  split_ifs at h with h0
  simp only [Except.ok.injEq] at h
  subst h
  exact ⟨h0, by simp⟩

theorem drawHandler_regSP {c c' : chip8} {w : Nat} (h : drawHandler c w = .ok c') :
    c'.regSP = c.regSP := by
  simp only [drawHandler] at h
  split at h
  · simp at h
  · simp only [Except.ok.injEq] at h
    subst h
    simp

theorem skipIfKeyHandler_regSP {c c' : chip8} {inp : Inputs} {w : Nat}
    (h : skipIfKeyHandler c inp w = .ok c') : c'.regSP = c.regSP := by
  simp only [skipIfKeyHandler] at h
  split at h
  · simp at h
  · simp only [Except.ok.injEq] at h
    subst h
    simp only [explain_regSP]
    split_ifs <;> rfl

theorem skipIfNotKeyHandler_regSP {c c' : chip8} {inp : Inputs} {w : Nat}
    (h : skipIfNotKeyHandler c inp w = .ok c') : c'.regSP = c.regSP := by
  simp only [skipIfNotKeyHandler] at h
  split at h
  · simp at h
  · simp only [Except.ok.injEq] at h
    subst h
    simp only [explain_regSP]
    split_ifs <;> rfl

theorem loadDigitHandler_regSP {c c' : chip8} {w : Nat} (h : loadDigitHandler c w = .ok c') :
    c'.regSP = c.regSP := by
  unfold loadDigitHandler at h
  split_ifs at h
  simp only [Except.ok.injEq] at h
  subst h
  simp

theorem storeBCDHandler_regSP {c c' : chip8} {w : Nat} (h : storeBCDHandler c w = .ok c') :
    c'.regSP = c.regSP := by
  simp only [storeBCDHandler] at h
  split at h
  · simp at h
  · split at h
    · simp at h
    · split at h
      · simp at h
      · simp only [Except.ok.injEq] at h
        subst h
        simp

theorem storeRegsToMemoryHandler_regSP {c c' : chip8} {w : Nat}
    (h : storeRegsToMemoryHandler c w = .ok c') : c'.regSP = c.regSP := by
  simp only [storeRegsToMemoryHandler] at h
  split at h
  · simp at h
  · simp only [Except.ok.injEq] at h
    subst h
    simp

theorem loadRegsFromMemoryHandler_regSP {c c' : chip8} {w : Nat}
    (h : loadRegsFromMemoryHandler c w = .ok c') : c'.regSP = c.regSP := by
  simp only [loadRegsFromMemoryHandler] at h
  split at h
  · simp at h
  · simp only [Except.ok.injEq] at h
    subst h
    simp

end chip8

/-- Only `CALL` and `RETURN` change the stack pointer. -/
theorem Opcode.handler_regSP {op : Opcode} {c c' : chip8} {inp : Inputs} {w : Nat}
    (h : op.handler c inp w = .ok c') :
    (c.regSP ≠ STACK_SIZE ∧ c'.regSP = u8 (c.regSP + 1)) ∨
    (c.regSP ≠ 0 ∧ c'.regSP = u8OfInt ((c.regSP : Int) - 1)) ∨ c'.regSP = c.regSP := by
  cases op <;> simp only [Opcode.handler] at h
  case RETURN => exact Or.inr (Or.inl (chip8.returnHandler_regSP h))
  case CALL => exact Or.inl (chip8.callHandler_regSP h)
  case DRAW => exact Or.inr (Or.inr (chip8.drawHandler_regSP h))
  case SKIP_IF_KEY => exact Or.inr (Or.inr (chip8.skipIfKeyHandler_regSP h))
  case SKIP_IF_NOT_KEY => exact Or.inr (Or.inr (chip8.skipIfNotKeyHandler_regSP h))
  case LOAD_DIGIT => exact Or.inr (Or.inr (chip8.loadDigitHandler_regSP h))
  case STORE_BCD => exact Or.inr (Or.inr (chip8.storeBCDHandler_regSP h))
  case STORE_REGS_TO_MEMORY => exact Or.inr (Or.inr (chip8.storeRegsToMemoryHandler_regSP h))
  case LOAD_REGS_FROM_MEMORY =>
    exact Or.inr (Or.inr (chip8.loadRegsFromMemoryHandler_regSP h))
  all_goals
    simp only [Except.ok.injEq] at h
    subst h
    refine Or.inr (Or.inr ?_)
    simp only [chip8.clearHandler, chip8.jumpHandler, chip8.skipIfEqualHandler,
      chip8.skipIfNotEqualHandler, chip8.skipIfRegsEqualHandler, chip8.loadImmediateHandler,
      chip8.addImmediateHandler, chip8.loadHandler, chip8.orHandler, chip8.andHandler,
      chip8.xorHandler, chip8.addHandler, chip8.subtractHandler, chip8.shiftRightHandler,
      chip8.subtractNegativeHandler, chip8.shiftLeftHandler, chip8.skipIfRegsNotEqualHandler,
      chip8.loadAddressHandler, chip8.jumpPlusV0Handler, chip8.randomHandler,
      chip8.loadDelayHandler, chip8.loadKeyHandler, chip8.setDelayHandler,
      chip8.setSoundHandler, chip8.addToIHandler, chip8.explain_regSP]
    try (split_ifs <;> rfl)

namespace chip8

theorem u16_lt (n : Nat) : u16 n < 65536 := Nat.mod_lt _ (by decide)

theorem fetch_lt {m : ch8Memory} {a w : Nat} (h : m.readInstuctionAtPos a = .ok w) :
    w < 65536 := by
  unfold ch8Memory.readInstuctionAtPos at h
  split_ifs at h
  simp only [Except.ok.injEq] at h
  rw [← h]
  exact u16_lt _

/-- A successful cycle keeps the stack pointer within `0 .. 16`. -/
theorem cycle_regSP {c c' : chip8} {inp : Inputs} (h : cycle c inp = .ok c')
    (hsp : c.regSP ≤ 16) : c'.regSP ≤ 16 := by
  cases hf : c.memory.readInstuctionAtPos c.regPC with
  | error e => simp [cycle, hf] at h
  | ok w =>
    obtain ⟨l, hl⟩ := cycle_of_fetch c inp hf
    rw [hl, exec_eq_listed _ inp (fetch_lt hf)] at h
    cases hop : listedOpcode w with
    | none => simp [hop] at h
    | some op =>
      rw [hop] at h
      simp only at h
      cases hh : op.handler { c with lastInstructions := l } inp w with
      | error e => simp [hh] at h
      | ok c2 =>
        rw [hh] at h
        simp only [Except.ok.injEq] at h
        subst h
        show c2.regSP ≤ 16
        rcases Opcode.handler_regSP hh with ⟨h1, h2⟩ | ⟨h1, h2⟩ | h2
        · simp only [STACK_SIZE] at h1
          rw [h2]
          simp only [u8]
          have : c.regSP ≠ 16 := h1
          have : c.regSP ≤ 16 := hsp
          omega
        · rw [h2]
          simp only [u8OfInt]
          have : c.regSP ≠ 0 := h1
          have : c.regSP ≤ 16 := hsp
          omega
        · rw [h2]
          exact hsp

theorem runCycles_regSP (inp : Nat → Inputs) :
    ∀ (n i : Nat) (c c' : chip8), runCycles inp n i c = .ok c' → c.regSP ≤ 16 →
      c'.regSP ≤ 16 := by
  intro n
  induction n with
  | zero =>
    intro i c c' h hsp
    simp only [runCycles, Except.ok.injEq] at h
    subst h
    exact hsp
  | succ n ih =>
    intro i c c' h hsp
    simp only [runCycles] at h
    cases hc : cycle c (inp i) with
    | error e => simp [hc] at h
    | ok c1 =>
      rw [hc] at h
      exact ih _ _ _ h (cycle_regSP hc hsp)

end chip8
namespace chip8

theorem tickTimers_regSP (c : chip8) : (tickTimers c).1.regSP = c.regSP := by
  unfold tickTimers
  split_ifs <;> rfl

theorem Reachable.regSP_le {c0 c : chip8} (h0 : c0.regSP ≤ 16) (hr : Reachable c0 c) :
    c.regSP ≤ 16 := by
  induction hr with
  | start => exact h0
  | cycle inp _ hc ih => exact cycle_regSP hc ih
  | tick _ ih => rw [tickTimers_regSP]; exact ih

theorem Reachable.trans {c0 c1 c2 : chip8} (h1 : Reachable c0 c1) (h2 : Reachable c1 c2) :
    Reachable c0 c2 := by
  induction h2 with
  | start => exact h1
  | cycle inp _ hc ih => exact Reachable.cycle inp ih hc
  | tick _ ih => exact Reachable.tick ih

/-- The states passed through by the instruction loop of a frame are reachable. -/
theorem runCycles_reachable (inp : Nat → Inputs) :
    ∀ (n i : Nat) (c c' : chip8), runCycles inp n i c = .ok c' → Reachable c c' := by
  intro n
  induction n with
  | zero =>
    intro i c c' h
    simp only [runCycles, Except.ok.injEq] at h
    subst h
    exact Reachable.start
  | succ n ih =>
    intro i c c' h
    simp only [runCycles] at h
    cases hc : cycle c (inp i) with
    | error e => simp [hc] at h
    | ok c1 =>
      rw [hc] at h
      exact Reachable.trans (Reachable.cycle (inp i) Reachable.start hc) (ih _ _ _ h)

/-- The state at the end of a successful frame is reachable. -/
theorem emulateOneFrame_reachable {c c' : chip8} {inp : Nat → Inputs} {IPC : Nat}
    {b : BuzzerCalls} (h : emulateOneFrame c inp IPC = .ok (c', b)) : Reachable c c' := by
  unfold emulateOneFrame at h
  cases hr : runCycles inp IPC 0 c with
  | error e => simp [hr] at h
  | ok c1 =>
    rw [hr] at h
    simp only [Except.ok.injEq] at h
    have : c' = (tickTimers c1).1 := by rw [h]
    rw [this]
    exact Reachable.tick (runCycles_reachable inp _ _ _ _ hr)

end chip8

/-- C29. Stack pointer invariant: in every state reachable from a state with
`SP = 0` by successful cycles (with any inputs, any program in memory) and
timer ticks, `SP ≤ 16`; the stack element that a call would write
(`stack[SP]`, when `SP ≠ 16`) and the one that a return would read
(`stack[SP - 1]`, when `SP ≠ 0`) have an index below 16, and these are the
elements that `callHandler` and `returnHandler` access. -/
theorem stack_pointer_invariant (c0 c : chip8) (h0 : c0.regSP = 0)
    (hr : chip8.Reachable c0 c) :
    c.regSP ≤ 16 ∧
    (∀ k, c.callHandlerSlot = some k → k < 16) ∧
    (∀ k, c.returnHandlerSlot = some k → k < 16) ∧
    (∀ w, (c.callHandlerSlot = none ∧ c.callHandler w = .error .stackOverflow) ∨
      ∃ k c', c.callHandlerSlot = some k ∧ c.callHandler w = .ok c' ∧
        c'.stack = arraySet c.stack k c.regPC) ∧
    ((c.returnHandlerSlot = none ∧ c.returnHandler = .error .stackUnderflow) ∨
      ∃ k c', c.returnHandlerSlot = some k ∧ c.returnHandler = .ok c' ∧
        c'.regPC = c.stack k) := by
  have hsp : c.regSP ≤ 16 := chip8.Reachable.regSP_le (by omega) hr
  refine ⟨hsp, ?_, ?_, ?_, ?_⟩
  · intro k hk
    unfold chip8.callHandlerSlot at hk
    split_ifs at hk with h16
    simp only [Option.some.injEq, STACK_SIZE] at hk h16
    omega
  · intro k hk
    unfold chip8.returnHandlerSlot at hk
    split_ifs at hk with hz
    simp only [Option.some.injEq, u8OfInt] at hk
    omega
  · intro w
    by_cases h16 : c.regSP = STACK_SIZE
    · exact Or.inl ⟨by simp only [chip8.callHandlerSlot, if_pos h16],
        by simp only [chip8.callHandler, if_pos h16]⟩
    · refine Or.inr ⟨c.regSP, _, by simp only [chip8.callHandlerSlot, if_neg h16],
        (by simp only [chip8.callHandler, if_neg h16]; rfl), ?_⟩
      simp
  · by_cases hz : c.regSP = 0
    · exact Or.inl ⟨by simp only [chip8.returnHandlerSlot, if_pos hz],
        by simp only [chip8.returnHandler, if_pos hz]⟩
    · refine Or.inr ⟨u8OfInt ((c.regSP : Int) - 1), _,
        by simp only [chip8.returnHandlerSlot, if_neg hz],
        (by simp only [chip8.returnHandler, if_neg hz]; rfl), ?_⟩
      simp

/-- Instance of `stack_pointer_invariant`: after the call at `0x200` of the
program `call 0x204; ...; return` the stack pointer is `1`, within the
bound. -/
theorem stack_pointer_invariant_witness :
    ∃ c, chip8.cycle (machineWith zeros callReturnProgram zeros 0) noInputs = .ok c ∧
      c.regSP = 1 ∧ c.regSP ≤ 16 := by
  have hc : ∃ c, chip8.cycle (machineWith zeros callReturnProgram zeros 0) noInputs = .ok c ∧
      c.regSP = 1 := ⟨_, rfl, rfl⟩
  obtain ⟨c, hc, h1⟩ := hc
  exact ⟨c, hc, h1, (stack_pointer_invariant (machineWith zeros callReturnProgram zeros 0) c rfl
    (chip8.Reachable.cycle noInputs chip8.Reachable.start hc)).1⟩

/-! ## Explanations and history do not influence execution -/

namespace chip8

@[simp] theorem coreOf_memory (c : chip8) : c.coreOf.memory = c.memory := rfl
@[simp] theorem coreOf_display (c : chip8) : c.coreOf.display = c.display := rfl
@[simp] theorem coreOf_regPC (c : chip8) : c.coreOf.regPC = c.regPC := rfl
@[simp] theorem coreOf_regI (c : chip8) : c.coreOf.regI = c.regI := rfl
@[simp] theorem coreOf_regsVx (c : chip8) : c.coreOf.regsVx = c.regsVx := rfl
@[simp] theorem coreOf_regDT (c : chip8) : c.coreOf.regDT = c.regDT := rfl
@[simp] theorem coreOf_regST (c : chip8) : c.coreOf.regST = c.regST := rfl
@[simp] theorem coreOf_regSP (c : chip8) : c.coreOf.regSP = c.regSP := rfl
@[simp] theorem coreOf_stack (c : chip8) : c.coreOf.stack = c.stack := rfl

theorem coreOf_explain (c : chip8) (t : String) : (c.explain t).coreOf = c.coreOf := by
  unfold explain addNewExplanation
  split <;> rfl

theorem coreOf_updateLastInstructions (c : chip8) (w : Nat) :
    (c.updateLastInstructions w).coreOf = c.coreOf := rfl

theorem coreOf_coreOf (c : chip8) : c.coreOf.coreOf = c.coreOf := rfl

/-- Two states have the same core exactly when they agree on memory,
framebuffer, `PC`, `I`, the registers, the timers, `SP` and the stack. -/
theorem coreOf_eq_iff (c d : chip8) :
    c.coreOf = d.coreOf ↔
      c.memory = d.memory ∧ c.display = d.display ∧ c.regPC = d.regPC ∧ c.regI = d.regI ∧
      c.regsVx = d.regsVx ∧ c.regDT = d.regDT ∧ c.regST = d.regST ∧ c.regSP = d.regSP ∧
      c.stack = d.stack := by
  constructor
  · intro h
    exact ⟨(congrArg chip8.memory h : c.coreOf.memory = d.coreOf.memory),
      (congrArg chip8.display h : c.coreOf.display = d.coreOf.display),
      (congrArg chip8.regPC h : c.coreOf.regPC = d.coreOf.regPC),
      (congrArg chip8.regI h : c.coreOf.regI = d.coreOf.regI),
      (congrArg chip8.regsVx h : c.coreOf.regsVx = d.coreOf.regsVx),
      (congrArg chip8.regDT h : c.coreOf.regDT = d.coreOf.regDT),
      (congrArg chip8.regST h : c.coreOf.regST = d.coreOf.regST),
      (congrArg chip8.regSP h : c.coreOf.regSP = d.coreOf.regSP),
      (congrArg chip8.stack h : c.coreOf.stack = d.coreOf.stack)⟩
  · rintro ⟨h1, h2, h3, h4, h5, h6, h7, h8, h9⟩
    simp only [coreOf, h1, h2, h3, h4, h5, h6, h7, h8, h9]

end chip8
namespace chip8

theorem returnHandler_core (c : chip8) :
    (returnHandler c).map coreOf = (returnHandler c.coreOf).map coreOf := by
  simp only [returnHandler, coreOf_regSP, coreOf_stack]
  split_ifs
  · rfl
  · simp only [Except.map, coreOf_explain]
    rfl

theorem callHandler_core (c : chip8) (w : Nat) :
    (callHandler c w).map coreOf = (callHandler c.coreOf w).map coreOf := by
  simp only [callHandler, coreOf_regSP, coreOf_stack, coreOf_regPC]
  split_ifs
  · rfl
  · simp only [Except.map, coreOf_explain]
    rfl

theorem drawHandler_core (c : chip8) (w : Nat) :
    (drawHandler c w).map coreOf = (drawHandler c.coreOf w).map coreOf := by
  simp only [drawHandler, coreOf_regsVx, coreOf_memory, coreOf_regI, coreOf_display]
  split
  · rfl
  · simp only [Except.map, coreOf_explain]
    rfl

theorem skipIfKeyHandler_core (c : chip8) (inp : Inputs) (w : Nat) :
    (skipIfKeyHandler c inp w).map coreOf = (skipIfKeyHandler c.coreOf inp w).map coreOf := by
  simp only [skipIfKeyHandler, coreOf_regsVx, coreOf_regPC]
  split
  · rfl
  · simp only [Except.map, coreOf_explain]
    split_ifs <;> rfl

theorem skipIfNotKeyHandler_core (c : chip8) (inp : Inputs) (w : Nat) :
    (skipIfNotKeyHandler c inp w).map coreOf
      = (skipIfNotKeyHandler c.coreOf inp w).map coreOf := by
  simp only [skipIfNotKeyHandler, coreOf_regsVx, coreOf_regPC]
  split
  · rfl
  · simp only [Except.map, coreOf_explain]
    split_ifs <;> rfl

theorem loadDigitHandler_core (c : chip8) (w : Nat) :
    (loadDigitHandler c w).map coreOf = (loadDigitHandler c.coreOf w).map coreOf := by
  simp only [loadDigitHandler, coreOf_regsVx]
  split_ifs
  · rfl
  · simp only [Except.map, coreOf_explain]
    rfl

theorem storeBCDHandler_core (c : chip8) (w : Nat) :
    (storeBCDHandler c w).map coreOf = (storeBCDHandler c.coreOf w).map coreOf := by
  simp only [storeBCDHandler, coreOf_regsVx, coreOf_memory, coreOf_regI]
  split
  · rfl
  · split
    · rfl
    · split
      · rfl
      · simp only [Except.map, coreOf_explain]
        rfl

theorem storeRegsToMemoryHandler_core (c : chip8) (w : Nat) :
    (storeRegsToMemoryHandler c w).map coreOf
      = (storeRegsToMemoryHandler c.coreOf w).map coreOf := by
  simp only [storeRegsToMemoryHandler, coreOf_regsVx, coreOf_memory, coreOf_regI]
  split
  · rfl
  · simp only [Except.map, coreOf_explain]
    rfl

theorem loadRegsFromMemoryHandler_core (c : chip8) (w : Nat) :
    (loadRegsFromMemoryHandler c w).map coreOf
      = (loadRegsFromMemoryHandler c.coreOf w).map coreOf := by
  simp only [loadRegsFromMemoryHandler, coreOf_regsVx, coreOf_memory, coreOf_regI]
  split
  · rfl
  · simp only [Except.map, coreOf_explain]
    rfl

end chip8

/-- Every handler computes the same core state from states with the same
core, and fails on the one exactly when it fails on the other. -/
theorem Opcode.handler_core (op : Opcode) (c : chip8) (inp : Inputs) (w : Nat) :
    (op.handler c inp w).map chip8.coreOf = (op.handler c.coreOf inp w).map chip8.coreOf := by
  cases op <;> simp only [Opcode.handler]
  case RETURN => exact chip8.returnHandler_core c
  case CALL => exact chip8.callHandler_core c w
  case DRAW => exact chip8.drawHandler_core c w
  case SKIP_IF_KEY => exact chip8.skipIfKeyHandler_core c inp w
  case SKIP_IF_NOT_KEY => exact chip8.skipIfNotKeyHandler_core c inp w
  case LOAD_DIGIT => exact chip8.loadDigitHandler_core c w
  case STORE_BCD => exact chip8.storeBCDHandler_core c w
  case STORE_REGS_TO_MEMORY => exact chip8.storeRegsToMemoryHandler_core c w
  case LOAD_REGS_FROM_MEMORY => exact chip8.loadRegsFromMemoryHandler_core c w
  all_goals
    simp only [Except.map, chip8.clearHandler, chip8.jumpHandler, chip8.skipIfEqualHandler,
      chip8.skipIfNotEqualHandler, chip8.skipIfRegsEqualHandler, chip8.loadImmediateHandler,
      chip8.addImmediateHandler, chip8.loadHandler, chip8.orHandler, chip8.andHandler,
      chip8.xorHandler, chip8.addHandler, chip8.subtractHandler, chip8.shiftRightHandler,
      chip8.subtractNegativeHandler, chip8.shiftLeftHandler, chip8.skipIfRegsNotEqualHandler,
      chip8.loadAddressHandler, chip8.jumpPlusV0Handler, chip8.randomHandler,
      chip8.loadDelayHandler, chip8.loadKeyHandler, chip8.setDelayHandler,
      chip8.setSoundHandler, chip8.addToIHandler, chip8.coreOf_explain, chip8.coreOf_regsVx,
      chip8.coreOf_regPC, chip8.coreOf_regI, chip8.coreOf_regDT, chip8.coreOf_regST,
      chip8.coreOf_display]
    first | rfl | (split_ifs <;> rfl)
namespace chip8

theorem coreOf_setPC {a b : chip8} (h : a.coreOf = b.coreOf) (pa pb : Nat) (hp : pa = pb) :
    ({ a with regPC := pa } : chip8).coreOf = ({ b with regPC := pb } : chip8).coreOf := by
  rw [coreOf_eq_iff] at h ⊢
  obtain ⟨h1, h2, h3, h4, h5, h6, h7, h8, h9⟩ := h
  exact ⟨h1, h2, hp, h4, h5, h6, h7, h8, h9⟩

/-- Decoding and execution depend on the core of the state only. -/
theorem executeInstruction_core (c d : chip8) (inp : Inputs) {w : Nat} (hw : w < 65536)
    (h : c.coreOf = d.coreOf) :
    (executeInstruction c inp w).map coreOf = (executeInstruction d inp w).map coreOf := by
  rw [exec_eq_listed c inp hw, exec_eq_listed d inp hw]
  cases listedOpcode w with
  | none => rfl
  | some op =>
    simp only
    rw [op.handler_core c, op.handler_core d, h]

/-- One pass through the instruction loop depends on the core of the state
only. -/
theorem cycle_core (c d : chip8) (inp : Inputs) (h : c.coreOf = d.coreOf) :
    (cycle c inp).map coreOf = (cycle d inp).map coreOf := by
  obtain ⟨hm, -, hpc, -⟩ := (coreOf_eq_iff c d).1 h
  cases hf : c.memory.readInstuctionAtPos c.regPC with
  | error e =>
    have hf' : d.memory.readInstuctionAtPos d.regPC = .error e := by rw [← hm, ← hpc, hf]
    simp only [cycle, hf, hf']
  | ok w =>
    have hf' : d.memory.readInstuctionAtPos d.regPC = .ok w := by rw [← hm, ← hpc, hf]
    obtain ⟨l, hl⟩ := cycle_of_fetch c inp hf
    obtain ⟨l', hl'⟩ := cycle_of_fetch d inp hf'
    have hcore : ({ c with lastInstructions := l } : chip8).coreOf
        = ({ d with lastInstructions := l' } : chip8).coreOf := h
    have he := executeInstruction_core _ _ inp (fetch_lt hf) hcore
    rw [hl, hl']
    cases h1 : executeInstruction { c with lastInstructions := l } inp w with
    | error e1 =>
      cases h2 : executeInstruction { d with lastInstructions := l' } inp w with
      | error e2 =>
        rw [h1, h2] at he
        simpa [Except.map] using he
      | ok b =>
        rw [h1, h2] at he
        simp [Except.map] at he
    | ok a =>
      cases h2 : executeInstruction { d with lastInstructions := l' } inp w with
      | error e2 =>
        rw [h1, h2] at he
        simp [Except.map] at he
      | ok b =>
        rw [h1, h2] at he
        simp only [Except.map, Except.ok.injEq] at he ⊢
        exact coreOf_setPC he _ _ (by rw [((coreOf_eq_iff a b).1 he).2.2.1])

theorem runCycles_core (inp : Nat → Inputs) :
    ∀ (n i : Nat) (c d : chip8), c.coreOf = d.coreOf →
      (runCycles inp n i c).map coreOf = (runCycles inp n i d).map coreOf := by
  intro n
  induction n with
  | zero =>
    intro i c d h
    simp only [runCycles, Except.map, h]
  | succ n ih =>
    intro i c d h
    have hc := cycle_core c d (inp i) h
    simp only [runCycles]
    cases h1 : cycle c (inp i) with
    | error e1 =>
      cases h2 : cycle d (inp i) with
      | error e2 =>
        rw [h1, h2] at hc
        simpa [Except.map] using hc
      | ok b =>
        rw [h1, h2] at hc
        simp [Except.map] at hc
    | ok a =>
      cases h2 : cycle d (inp i) with
      | error e2 =>
        rw [h1, h2] at hc
        simp [Except.map] at hc
      | ok b =>
        rw [h1, h2] at hc
        simp only [Except.map, Except.ok.injEq] at hc
        exact ih _ _ _ hc

theorem tickTimers_core (c d : chip8) (h : c.coreOf = d.coreOf) :
    (tickTimers c).1.coreOf = (tickTimers d).1.coreOf ∧ (tickTimers c).2 = (tickTimers d).2 := by
  obtain ⟨h1, h2, h3, h4, h5, h6, h7, h8, h9⟩ := (coreOf_eq_iff c d).1 h
  unfold tickTimers
  rw [h6, h7]
  split_ifs <;> exact ⟨(coreOf_eq_iff _ _).2 ⟨h1, h2, h3, h4, h5, rfl, rfl, h8, h9⟩, rfl⟩

/-- A frame depends on the core of the state only: same error, or same core
of the final state and same calls to the buzzer. -/
theorem emulateOneFrame_core (c d : chip8) (inp : Nat → Inputs) (IPC : Nat)
    (h : c.coreOf = d.coreOf) :
    (emulateOneFrame c inp IPC).map (fun r => (r.1.coreOf, r.2))
      = (emulateOneFrame d inp IPC).map (fun r => (r.1.coreOf, r.2)) := by
  have hr := runCycles_core inp IPC 0 c d h
  unfold emulateOneFrame
  cases h1 : runCycles inp IPC 0 c with
  | error e1 =>
    cases h2 : runCycles inp IPC 0 d with
    | error e2 =>
      rw [h1, h2] at hr
      simpa [Except.map] using hr
    | ok b =>
      rw [h1, h2] at hr
      simp [Except.map] at hr
  | ok a =>
    cases h2 : runCycles inp IPC 0 d with
    | error e2 =>
      rw [h1, h2] at hr
      simp [Except.map] at hr
    | ok b =>
      rw [h1, h2] at hr
      simp only [Except.map, Except.ok.injEq] at hr
      obtain ⟨t1, t2⟩ := tickTimers_core a b hr
      simp only [Except.map, t1, t2]

end chip8

/-- C30. History tracking does not influence execution: take any state `c`,
any keypad inputs and random bytes `inp` and any frame length `IPC`, and let
`d` be `c` with the diagnostic switch `enableExplanations` set to any value and
the explanation texts and the history ring replaced by anything.  Then
`emulateOneFrame` fails on `c` exactly when it fails on `d`, with the same
error; and when it succeeds on `c` it succeeds on `d` with the same calls to
the buzzer and the same `PC`, `I`, registers, `SP`, stack, timers, memory and
framebuffer. -/
theorem history_is_observational (c : chip8) (flag : Bool) (ex : Nat → String) (li : Nat → Nat)
    (inp : Nat → Inputs) (IPC : Nat) :
    (∀ e, chip8.emulateOneFrame c inp IPC = .error e ↔
      chip8.emulateOneFrame
        { c with enableExplanations := flag, explanations := ex, lastInstructions := li }
        inp IPC = .error e) ∧
    (∀ c' b, chip8.emulateOneFrame c inp IPC = .ok (c', b) →
      ∃ d', chip8.emulateOneFrame
          { c with enableExplanations := flag, explanations := ex, lastInstructions := li }
          inp IPC = .ok (d', b) ∧
        d'.regPC = c'.regPC ∧ d'.regI = c'.regI ∧ d'.regsVx = c'.regsVx ∧
        d'.regSP = c'.regSP ∧ d'.stack = c'.stack ∧ d'.regDT = c'.regDT ∧
        d'.regST = c'.regST ∧ d'.memory = c'.memory ∧ d'.display = c'.display) := by
  have h := chip8.emulateOneFrame_core c
    { c with enableExplanations := flag, explanations := ex, lastInstructions := li } inp IPC rfl
  cases h1 : chip8.emulateOneFrame c inp IPC with
  | error e1 =>
    cases h2 : chip8.emulateOneFrame
        { c with enableExplanations := flag, explanations := ex, lastInstructions := li }
        inp IPC with
    | error e2 =>
      rw [h1, h2] at h
      simp only [Except.map, Except.error.injEq] at h
      subst h
      exact ⟨fun e => Iff.rfl, fun c' b hc => by simp at hc⟩
    | ok r =>
      rw [h1, h2] at h
      simp [Except.map] at h
  | ok r1 =>
    cases h2 : chip8.emulateOneFrame
        { c with enableExplanations := flag, explanations := ex, lastInstructions := li }
        inp IPC with
    | error e2 =>
      rw [h1, h2] at h
      simp [Except.map] at h
    | ok r2 =>
      rw [h1, h2] at h
      simp only [Except.map, Except.ok.injEq, Prod.mk.injEq] at h
      obtain ⟨hc, hb⟩ := h
      obtain ⟨g1, g2, g3, g4, g5, g6, g7, g8, g9⟩ := (chip8.coreOf_eq_iff _ _).1 hc
      refine ⟨fun e => by simp, ?_⟩
      intro c' b hcb
      simp only [Except.ok.injEq] at hcb
      subst hcb
      refine ⟨r2.1, ?_, g3.symm, g4.symm, g5.symm, g8.symm, g9.symm, g6.symm, g7.symm,
        g1.symm, g2.symm⟩
      simp only [Except.ok.injEq]
      exact Prod.ext rfl hb.symm

/-- Instance of `history_is_observational`: the loop `0x200: jump 0x200` with the
delay timer at 5, run for a frame of three instructions with diagnostics
switched on, ends like the run with diagnostics off: `PC = 0x200`, delay
timer 4, no buzzer call. -/
theorem history_is_observational_witness :
    ∃ d', chip8.emulateOneFrame
        { timerMachine 5 0 with enableExplanations := true, explanations := fun _ => "",
                                lastInstructions := fun _ => 0 }
        (fun _ => noInputs) 3 = .ok (d', ⟨false, false⟩) ∧
      d'.regPC = 0x200 ∧ d'.regDT = 4 := by
  obtain ⟨d', h, hpc, -, -, -, -, hdt, -⟩ :=
    (history_is_observational (timerMachine 5 0) true (fun _ => "") (fun _ => 0)
      (fun _ => noInputs) 3).2 _ _ rfl
  exact ⟨d', h, hpc, hdt⟩

/-! ## Instruction rate -/

theorem floor_div_sixty (s : Int) : ⌊(s : ℚ) / 60⌋ = s / 60 := by
  have h := Rat.floor_intCast_div_natCast s 60
  simpa using h

/-- C31 (as stated, refuted). For the requested rate `s = 30` the constructor
sets one cycle per frame, which is `max(1, floor(30 / 60))`, and requests the
frame rate `30`; the effective rate is `1 * 30 = 30` instructions per second,
below 60. -/
theorem rate_floor_counterexample :
    chip8.instructionsPerCycleOf 30 = max 1 (30 / 60) ∧ chip8.targetFPS 30 = 30 ∧
      ¬ (60 ≤ chip8.instructionsPerCycleOf 30 * chip8.targetFPS 30) := by
  decide

/-- C31 (amended). For every requested instructions-per-second value `s`, the
number of cycles per frame set by the constructor is `max(1, floor(s / 60))`.
When `s ≥ 60` the requested frame rate is 60 and the effective rate, cycles per
frame times frame rate, is `60 * floor(s / 60)`: at least 60, at most `s` and
more than `s - 60`.  When `s < 60` the requested frame rate is `s`, there is
one cycle per frame and the effective rate is `s` itself.  So the effective
rate is at least 60 exactly when `s ≥ 60`. -/
theorem instruction_rate_follows_speed (s : Int) :
    chip8.instructionsPerCycleOf s = max 1 ⌊(s : ℚ) / 60⌋ ∧
    chip8.instructionsPerCycleOf s = max 1 (s / 60) ∧
    (60 ≤ s →
      chip8.targetFPS s = 60 ∧
      chip8.instructionsPerCycleOf s * chip8.targetFPS s = 60 * (s / 60) ∧
      60 ≤ chip8.instructionsPerCycleOf s * chip8.targetFPS s ∧
      s - 59 ≤ chip8.instructionsPerCycleOf s * chip8.targetFPS s ∧
      chip8.instructionsPerCycleOf s * chip8.targetFPS s ≤ s) ∧
    (s < 60 →
      chip8.targetFPS s = s ∧ chip8.instructionsPerCycleOf s = 1 ∧
      chip8.instructionsPerCycleOf s * chip8.targetFPS s = s) ∧
    (60 ≤ chip8.instructionsPerCycleOf s * chip8.targetFPS s ↔ 60 ≤ s) := by
  have hmax : chip8.instructionsPerCycleOf s = max 1 (s / 60) := by
    unfold chip8.instructionsPerCycleOf
    simp only [STANDARD_FPS, Nat.cast_ofNat]
    split_ifs with h <;> omega
  have hge : 60 ≤ s → chip8.targetFPS s = 60 ∧ chip8.instructionsPerCycleOf s = s / 60 := by
    intro h
    unfold chip8.targetFPS chip8.instructionsPerCycleOf
    simp only [STANDARD_FPS, Nat.cast_ofNat, ge_iff_le, h, if_true, and_self]
  have hlt : s < 60 → chip8.targetFPS s = s ∧ chip8.instructionsPerCycleOf s = 1 := by
    intro h
    have h' : ¬ 60 ≤ s := by omega
    unfold chip8.targetFPS chip8.instructionsPerCycleOf
    simp only [STANDARD_FPS, Nat.cast_ofNat, ge_iff_le, h', if_false, and_self]
  refine ⟨by rw [floor_div_sixty]; exact hmax, hmax, ?_, ?_, ?_⟩
  · intro h
    obtain ⟨h1, h2⟩ := hge h
    rw [h1, h2]
    refine ⟨rfl, by omega, by omega, by omega, by omega⟩
  · intro h
    obtain ⟨h1, h2⟩ := hlt h
    rw [h1, h2]
    exact ⟨rfl, rfl, by omega⟩
  · by_cases h : 60 ≤ s
    · obtain ⟨h1, h2⟩ := hge h
      rw [h1, h2]
      constructor
      · intro _; exact h
      · intro _; omega
    · obtain ⟨h1, h2⟩ := hlt (by omega)
      rw [h1, h2]
      omega

/-- Instance of `instruction_rate_follows_speed`: the default speed 840 gives 14
cycles per frame at 60 frames per second, 840 instructions per second; the
speed 30 gives one cycle per frame at 30 frames per second. -/
theorem instruction_rate_follows_speed_witness :
    (chip8.targetFPS 840 = 60 ∧ chip8.instructionsPerCycleOf 840 * chip8.targetFPS 840 = 840) ∧
    (chip8.targetFPS 30 = 30 ∧ chip8.instructionsPerCycleOf 30 = 1 ∧
      chip8.instructionsPerCycleOf 30 * chip8.targetFPS 30 = 30) := by
  constructor
  · obtain ⟨h1, h2, -⟩ := (instruction_rate_follows_speed 840).2.2.1 (by decide)
    exact ⟨h1, h2.trans (by decide)⟩
  · exact (instruction_rate_follows_speed 30).2.2.2.1 (by decide)

/-! ## Framebuffer accesses of `writeToBuffer` -/

namespace ch8Display

/-- The logged function computes what `writeToBuffer` computes. -/
theorem writeToBufferTraced_fst (d : ch8Display) (b x y : Nat) :
    (d.writeToBufferTraced b x y).1 = d.writeToBuffer b x y := by
  unfold writeToBufferTraced writeToBuffer
  split_ifs <;> rfl

theorem writeToBufferTraced_range (d : ch8Display) (b x y i : Nat)
    (hi : i ∈ (d.writeToBufferTraced b x y).2) : i < 256 := by
  unfold writeToBufferTraced at hi
  simp only [video_line_bytes, VIDEO_WIDTH, VIDEO_HEIGHT] at hi
  have hx : x % 64 / 8 < 8 := by omega
  have hm : (x % 64 / 8 + 1) % 8 < 8 := Nat.mod_lt _ (by decide)
  split_ifs at hi with hy h2 h3 h3
  all_goals
    simp only [List.mem_append, List.mem_cons, List.mem_singleton, List.not_mem_nil,
      or_false, false_or, List.append_nil] at hi
  all_goals omega

end ch8Display

namespace ch8Display

theorem writeToBufferTraced_writes (d : ch8Display) (b x y i : Nat)
    (hi : i ∉ (d.writeToBufferTraced b x y).2) :
    (d.writeToBuffer b x y).1.frameBuffer i = d.frameBuffer i := by
  unfold writeToBufferTraced at hi
  unfold writeToBuffer
  by_cases hy : y < VIDEO_HEIGHT
  · simp only [hy, if_true, List.mem_append, List.mem_cons, not_or] at hi
    obtain ⟨⟨⟨⟨h1, h2, -⟩, -⟩, -⟩, -⟩ := hi
    simp only [hy, if_true]
    split_ifs <;> simp [arraySet_apply, h1, h2]
  · simp only [hy, if_false]

theorem writeToBufferTraced_outside (d : ch8Display) (b x : Nat) {y : Nat} (hy : 32 ≤ y) :
    d.writeToBufferTraced b x y = ((d, false), []) := by
  have : ¬ y < VIDEO_HEIGHT := Nat.not_lt.2 hy
  simp only [writeToBufferTraced, this, if_false]

end ch8Display

/-- C32. Framebuffer accesses are always in range.  `writeToBufferTraced` is
`writeToBuffer` with a log of the subscripts of `frameBuffer` it evaluates.
For every display, sprite byte, `xCoord` and `yCoord`: it computes the same
result as `writeToBuffer`; every logged subscript is below
`(VIDEO_WIDTH / 8) * VIDEO_HEIGHT = 256`, the size of `frameBuffer`; for
`yCoord < 32` the subscripts of the first byte, of the second byte and of the
re-read with `% 8` are below 256 and the first two are logged; no element
outside the log changes; and for `yCoord ≥ 32` the log is empty, the display is
returned as it was and the result is `false` (no collision). -/
theorem framebuffer_accesses_in_range (d : ch8Display) (b x y : Nat) :
    (d.writeToBufferTraced b x y).1 = d.writeToBuffer b x y ∧
    (VIDEO_WIDTH / 8) * VIDEO_HEIGHT = 256 ∧
    (∀ i, i ∈ (d.writeToBufferTraced b x y).2 → i < (VIDEO_WIDTH / 8) * VIDEO_HEIGHT) ∧
    (y < 32 →
      (y * VIDEO_LINE_BYTES) + (x % VIDEO_WIDTH / 8) < 256 ∧
      (y * VIDEO_LINE_BYTES) + ((x % VIDEO_WIDTH / 8 + 1) % VIDEO_LINE_BYTES) < 256 ∧
      (y * VIDEO_LINE_BYTES) + ((x % VIDEO_WIDTH / 8 + 1) % 8) < 256 ∧
      (y * VIDEO_LINE_BYTES) + (x % VIDEO_WIDTH / 8) ∈ (d.writeToBufferTraced b x y).2 ∧
      (y * VIDEO_LINE_BYTES) + ((x % VIDEO_WIDTH / 8 + 1) % VIDEO_LINE_BYTES)
        ∈ (d.writeToBufferTraced b x y).2) ∧
    (∀ i, i ∉ (d.writeToBufferTraced b x y).2 →
      (d.writeToBuffer b x y).1.frameBuffer i = d.frameBuffer i) ∧
    (32 ≤ y → (d.writeToBufferTraced b x y).2 = [] ∧ d.writeToBuffer b x y = (d, false)) := by
  refine ⟨d.writeToBufferTraced_fst b x y, by decide,
    fun i hi => d.writeToBufferTraced_range b x y i hi, ?_,
    fun i hi => d.writeToBufferTraced_writes b x y i hi, ?_⟩
  · intro hy
    have hy' : y < VIDEO_HEIGHT := hy
    refine ⟨?_, ?_, ?_, ?_, ?_⟩
    · simp only [video_line_bytes, VIDEO_WIDTH]
      omega
    · simp only [video_line_bytes, VIDEO_WIDTH]
      omega
    · simp only [video_line_bytes, VIDEO_WIDTH]
      omega
    · simp only [ch8Display.writeToBufferTraced, hy', if_true, List.mem_append, List.mem_cons,
        true_or]
    · simp only [ch8Display.writeToBufferTraced, hy', if_true, List.mem_append, List.mem_cons,
        true_or, or_true]
  · intro hy
    rw [← d.writeToBufferTraced_fst b x y, d.writeToBufferTraced_outside b x hy]
    exact ⟨rfl, rfl⟩

/-- Instance of `framebuffer_accesses_in_range`: `writeToBuffer(0xFF, 60, 31)` on a
blank display evaluates the subscripts 255, 248, 255, 255, 248 (the guard of
the second `^=` fails), and `writeToBuffer(0xFF, 60, 32)` evaluates none. -/
theorem framebuffer_accesses_in_range_witness :
    ((ch8Display.mk zeros).writeToBufferTraced 0xFF 60 31).2 = [255, 248, 255, 255, 248] ∧
    (∀ i, i ∈ ((ch8Display.mk zeros).writeToBufferTraced 0xFF 60 31).2 → i < 256) ∧
    ((ch8Display.mk zeros).writeToBufferTraced 0xFF 60 32).2 = [] :=
  ⟨by decide, (framebuffer_accesses_in_range (ch8Display.mk zeros) 0xFF 60 31).2.2.1,
    ((framebuffer_accesses_in_range (ch8Display.mk zeros) 0xFF 60 32).2.2.2.2.2 (by decide)).1⟩

/-! ## Blit inside the row -/

namespace ch8Display

/-- The three cases of the byte `writeToBuffer` XORs into framebuffer element
`i` when the sprite byte does not pass the right edge. -/
theorem blit_bytes (d : ch8Display) (hfb : ∀ i, d.frameBuffer i < 256) {b : Nat} (hb : b < 256)
    (x : Nat) {y : Nat} (hy : y < 32) (hx : x % 64 ≤ 56) :
    (d.writeToBuffer b x y).1.frameBuffer (y * 8 + x % 64 / 8)
      = d.frameBuffer (y * 8 + x % 64 / 8) ^^^ (b >>> (x % 8)) ∧
    (x % 8 ≠ 0 →
      (d.writeToBuffer b x y).1.frameBuffer (y * 8 + x % 64 / 8 + 1)
        = d.frameBuffer (y * 8 + x % 64 / 8 + 1) ^^^ ((b <<< (8 - x % 8)) % 256)) ∧
    (x % 8 = 0 →
      (d.writeToBuffer b x y).1.frameBuffer (y * 8 + x % 64 / 8 + 1)
        = d.frameBuffer (y * 8 + x % 64 / 8 + 1)) ∧
    (∀ i, i ≠ y * 8 + x % 64 / 8 → i ≠ y * 8 + x % 64 / 8 + 1 →
      (d.writeToBuffer b x y).1.frameBuffer i = d.frameBuffer i) := by
  have hmod : x % 64 % 8 = x % 8 := by omega
  have hsh : b >>> (x % 8) < 256 := by
    rw [Nat.shiftRight_eq_div_pow]
    exact lt_of_le_of_lt (Nat.div_le_self _ _) hb
  refine ⟨?_, ?_, ?_, ?_⟩
  · rw [blit_frameBuffer d hfb]
    simp only [blitMask, hy, if_true, hmod, u8_of_lt hsh]
  · intro hne
    rw [blit_frameBuffer d hfb]
    have h1 : ¬ (y * 8 + x % 64 / 8 + 1 = y * 8 + x % 64 / 8) := by omega
    have h2 : y * 8 + x % 64 / 8 + 1 = y * 8 + (x % 64 / 8 + 1) ∧ x % 64 / 8 + 1 < 8 := by
      omega
    simp only [blitMask, hy, if_true, if_neg h1, if_pos h2, hmod, u8]
  · intro he
    rw [blit_frameBuffer d hfb]
    have h1 : ¬ (y * 8 + x % 64 / 8 + 1 = y * 8 + x % 64 / 8) := by omega
    have hz : u8 (b <<< (8 - x % 64 % 8)) = 0 := by
      rw [hmod, he, Nat.shiftLeft_eq]
      simp only [u8]
      omega
    simp only [blitMask, hy, if_true, if_neg h1, hz]
    split_ifs <;> simp
  · intro i h1 h2
    rw [blit_frameBuffer d hfb]
    have h2' : ¬ (i = y * 8 + (x % 64 / 8 + 1) ∧ x % 64 / 8 + 1 < 8) := by omega
    simp only [blitMask, hy, if_true, if_neg h1, if_neg h2', Nat.xor_zero]

end ch8Display

namespace ch8Display

/-- A pixel changes exactly when it lies in row `y`, within the eight columns
from `x mod 64` on, under a set bit of the sprite byte. -/
theorem blit_changes_iff (d : ch8Display) (hfb : ∀ i, d.frameBuffer i < 256) {b : Nat}
    (hb : b < 256) (x y col row : Nat) (hcol : col < 64) :
    (d.writeToBuffer b x y).1.pixelLit col row ≠ d.pixelLit col row ↔
      (y < 32 ∧ row = y ∧ x % 64 ≤ col ∧ col < x % 64 + 8) ∧
        b.testBit (7 - (col - x % 64)) = true := by
  rw [blit_pixel d hfb hb x y col row hcol]
  cases d.pixelLit col row <;>
    cases hq : (decide (y < 32 ∧ row = y ∧ x % 64 ≤ col ∧ col < x % 64 + 8)
      && b.testBit (7 - (col - x % 64))) <;>
    simp_all

end ch8Display

/-- C33. Blit is pixel-exact when the sprite byte does not cross the right edge:
for every sprite byte `b`, row `y < 32` and `x` with `(x mod 64) ≤ 56`,
`writeToBuffer(b, x, y)` toggles exactly the pixels of row `y` at the columns
`(x mod 64) + k` for the set bits `k` of `b` (`k = 0` the most significant
bit), all of which are on the screen, and leaves every other pixel unchanged.
On the bytes: the first framebuffer byte is XORed with `b >> (x mod 8)`; for
misaligned `x` the next byte is XORed with the low byte of
`b << (8 - x mod 8)`; for byte-aligned `x` the next byte is untouched; no other
byte changes.  For every `x` and `y`, no pixel outside row `y` changes. -/
theorem blit_pixel_exact (d : ch8Display) (hfb : ∀ i, d.frameBuffer i < 256) (b : Nat)
    (hb : b < 256) (x y : Nat) (hy : y < 32) (hx : x % 64 ≤ 56) :
    (∀ col row, col < 64 →
      ((d.writeToBuffer b x y).1.pixelLit col row ≠ d.pixelLit col row ↔
        (row = y ∧ ∃ k, k < 8 ∧ b.testBit (7 - k) = true ∧ col = x % 64 + k))) ∧
    (∀ k, k < 8 → x % 64 + k < 64) ∧
    (d.writeToBuffer b x y).1.frameBuffer (y * 8 + x % 64 / 8)
      = d.frameBuffer (y * 8 + x % 64 / 8) ^^^ (b >>> (x % 8)) ∧
    (x % 8 ≠ 0 →
      (d.writeToBuffer b x y).1.frameBuffer (y * 8 + x % 64 / 8 + 1)
        = d.frameBuffer (y * 8 + x % 64 / 8 + 1) ^^^ ((b <<< (8 - x % 8)) % 256)) ∧
    (x % 8 = 0 →
      (d.writeToBuffer b x y).1.frameBuffer (y * 8 + x % 64 / 8 + 1)
        = d.frameBuffer (y * 8 + x % 64 / 8 + 1)) ∧
    (∀ i, i ≠ y * 8 + x % 64 / 8 → i ≠ y * 8 + x % 64 / 8 + 1 →
      (d.writeToBuffer b x y).1.frameBuffer i = d.frameBuffer i) ∧
    (∀ x' y' col row, col < 64 → row ≠ y' →
      (d.writeToBuffer b x' y').1.pixelLit col row = d.pixelLit col row) := by
  obtain ⟨b1, b2, b3, b4⟩ := ch8Display.blit_bytes d hfb hb x hy hx
  refine ⟨?_, fun k hk => by omega, b1, b2, b3, b4, ?_⟩
  · intro col row hcol
    rw [ch8Display.blit_changes_iff d hfb hb x y col row hcol]
    constructor
    · rintro ⟨⟨-, hrow, hlo, hhi⟩, hbit⟩
      exact ⟨hrow, col - x % 64, by omega, hbit, by omega⟩
    · rintro ⟨hrow, k, hk, hbit, hc⟩
      have hk' : col - x % 64 = k := by omega
      exact ⟨⟨hy, hrow, by omega, by omega⟩, by rw [hk']; exact hbit⟩
  · intro x' y' col row hcol hrow
    by_contra hne
    have := (ch8Display.blit_changes_iff d hfb hb x' y' col row hcol).1 hne
    exact hrow this.1.2.1

/-- Instance of `blit_pixel_exact`: on a blank display `writeToBuffer(0x81, 3, 5)`
(misaligned) lights the pixels `(3, 5)` and `(10, 5)`, which lie in two
framebuffer bytes, and not `(4, 5)`; `writeToBuffer(0x81, 8, 5)` (aligned)
leaves the byte after the one it writes at `0`. -/
theorem blit_pixel_exact_witness :
    ((ch8Display.mk zeros).writeToBuffer 0x81 3 5).1.pixelLit 3 5
      ≠ (ch8Display.mk zeros).pixelLit 3 5 ∧
    ((ch8Display.mk zeros).writeToBuffer 0x81 3 5).1.pixelLit 10 5
      ≠ (ch8Display.mk zeros).pixelLit 10 5 ∧
    ((ch8Display.mk zeros).writeToBuffer 0x81 3 5).1.pixelLit 4 5
      = (ch8Display.mk zeros).pixelLit 4 5 ∧
    ((ch8Display.mk zeros).writeToBuffer 0x81 8 5).1.frameBuffer (5 * 8 + 8 % 64 / 8 + 1) = 0 := by
  have hz : ∀ i, (ch8Display.mk zeros).frameBuffer i < 256 := fun _ => (by decide : (0 : Nat) < 256)
  have h3 := blit_pixel_exact (ch8Display.mk zeros) hz 0x81 (by decide) 3 5 (by decide) (by decide)
  have h8 := blit_pixel_exact (ch8Display.mk zeros) hz 0x81 (by decide) 8 5 (by decide) (by decide)
  refine ⟨(h3.1 3 5 (by decide)).2 ⟨rfl, 0, by decide, by decide, by decide⟩,
    (h3.1 10 5 (by decide)).2 ⟨rfl, 7, by decide, by decide, by decide⟩, ?_,
    (h8.2.2.2.2.1 (by decide)).trans rfl⟩
  by_contra hne
  obtain ⟨-, k, hk, hbit, hc⟩ := (h3.1 4 5 (by decide)).1 hne
  have hk1 : k = 1 := by omega
  subst hk1
  exact absurd hbit (by decide)

end Chip8Emu
